import Mathlib

/-! BabelStream: the Kokkos and OpenMP-target stream backends.

A shallow embedding of `src/KOKKOSStream.cpp` and `src/OMPStream.cpp`.

* Array elements are values of an arbitrary type `α` carrying `0`, `+` and `*`
  (exact arithmetic when `α` is a semiring; nothing about rounding is modelled).
* C++ code that can run into undefined behaviour is a function into `Run`:
  either a result or the `Fault` that was hit.
* `unsigned int array_size` is a natural number below `2 ^ 32`; the loop counter
  `int i` of the C++ `for` loops is a natural number that must stay at most
  `INT_MAX` (incrementing it beyond is signed overflow, which is undefined).
* Device memory and host memory are kept apart: the kernels work on the device
  images, `read_arrays` transfers them to the host side first.
* A parallel loop is run as the sequence of its iterations in increasing index
  order; `Kokkos::parallel_for` hands its indices to the body as `long`, which holds
  every index below `2 ^ 32`, so only the C++ `for` loops have a bounded counter.
* `startScalar` is defined in a header that is not part of the two files; it is a
  parameter of `mul` and `triad`.
-/

namespace BabelStream

/-! ## Undefined behaviour and memory accesses -/

/-- Ways in which the C++ code can leave defined behaviour. -/
inductive Fault where
  | signedOverflow
  | outOfBounds
  | outOfFuel
deriving DecidableEq, Repr

/-- Result of running a piece of C++ code. -/
abbrev Run (σ : Type) := Except Fault σ

instance instDecidableEqRun {σ : Type} [DecidableEq σ] : DecidableEq (Run σ) :=
  fun x y =>
    match x, y with
    | .ok a, .ok b =>
      if h : a = b then isTrue (congrArg Except.ok h)
      else isFalse (fun h2 => h (Except.ok.inj h2))
    | .error a, .error b =>
      if h : a = b then isTrue (congrArg Except.error h)
      else isFalse (fun h2 => h (Except.error.inj h2))
    | .ok _, .error _ => isFalse (fun h2 => Except.noConfusion h2)
    | .error _, .ok _ => isFalse (fun h2 => Except.noConfusion h2)

/-- Largest value of a 32-bit `int`. -/
def INT_MAX : Nat := 2147483647

/-- Largest value of a 32-bit `unsigned int`. -/
def UINT_MAX : Nat := 4294967295

/-- Number of values a counter can take between `0` and `INT_MAX`; no `for` loop
with an `int` counter starting at `0` makes more iterations than this. -/
def INT_RANGE : Nat := 2147483648

/-- The read `xs[i]` of an array of `xs.length` elements. -/
def rd {α : Type} (xs : List α) (i : Nat) : Run α :=
  match xs[i]? with
  | some v => .ok v
  | none => .error .outOfBounds

/-- The write `xs[i] = v` to an array of `xs.length` elements. -/
def wr {α : Type} (xs : List α) (i : Nat) (v : α) : Run (List α) :=
  if i < xs.length then .ok (xs.set i v) else .error .outOfBounds

/-! ## Loops -/

/-- The loop `for (int i = i0; i < array_size; i++) body`, run for at most `fuel`
iterations from counter value `i`. The comparison converts the non-negative `i` to
`unsigned int`, which keeps its value; `i++` at `INT_MAX` is signed overflow. -/
def for_int {σ : Type} (array_size : Nat) (body : Nat → σ → Run σ) : Nat → Nat → σ → Run σ
  | 0, _, _ => .error .outOfFuel
  | fuel + 1, i, s =>
    if i < array_size then
      match body i s with
      | .ok t =>
        if i + 1 ≤ INT_MAX then for_int array_size body fuel (i + 1) t
        else .error .signedOverflow
      | .error e => .error e
    else .ok s

/-- The iterations `index, index + 1, ..., index + count - 1` of a Kokkos range,
run one after the other in increasing order (`const long index` holds every value
below `2 ^ 32`). -/
def for_range {σ : Type} (body : Nat → σ → Run σ) : Nat → Nat → σ → Run σ
  | 0, _, s => .ok s
  | count + 1, index, s =>
    match body index s with
    | .ok t => for_range body count (index + 1) t
    | .error e => .error e

/-! ## KOKKOSStream -/

/-- Calls into the Kokkos runtime, in the order they are made. -/
inductive KokkosCall where
  | init
  | finalize
  | view (n : Nat)
  | create_mirror_view
  | parallel_for (n : Nat)
  | parallel_reduce (n : Nat)
  | fence
  | deep_copy
deriving DecidableEq, Repr

/-- The members of `KOKKOSStream<T>`: the device views `d_a`, `d_b`, `d_c`, their host
mirrors, and the runtime calls made so far. -/
structure KOKKOSStream (α : Type) where
  array_size : Nat
  d_a : List α
  d_b : List α
  d_c : List α
  hm_a : List α
  hm_b : List α
  hm_c : List α
  calls : List KokkosCall
deriving DecidableEq, Repr

/-- The members of `OMPStream<T>`: the host allocations `a`, `b`, `c`, their images
in the device data region, and the default device of the OpenMP runtime. -/
structure OMPStream (α : Type) where
  array_size : Nat
  a : List α
  b : List α
  c : List α
  dev_a : List α
  dev_b : List α
  dev_c : List α
  default_device : Int
deriving DecidableEq, Repr

/-- Preprocessor symbols that select code in `OMPStream.cpp`. (`__llvm__` only makes
the kernels take local copies of the three pointers and changes nothing else.) -/
structure Build where
  OMP_TARGET_GPU : Bool
  CRAYC : Bool
deriving DecidableEq, Repr

section Kokkos

variable {α : Type}

/-- Contents of a fresh allocation of `n` elements; `junk` is whatever the memory
holds. -/
def fresh (n : Nat) (junk : Nat → α) : List α :=
  (List.range n).map junk

/-- `Kokkos::fence()`. -/
def KOKKOSStream.fence (s : KOKKOSStream α) : KOKKOSStream α :=
  { s with calls := s.calls ++ [KokkosCall.fence] }

/-- `Kokkos::parallel_for(n, body)`: the call is recorded and `body` runs for
every index of `[0, n)`. -/
def KOKKOSStream.parallel_for (n : Nat) (body : Nat → KOKKOSStream α → Run (KOKKOSStream α))
    (s : KOKKOSStream α) : Run (KOKKOSStream α) :=
  for_range body n 0 { s with calls := s.calls ++ [KokkosCall.parallel_for n] }

/-- `deep_copy(dst, src)` between views of the same extent. -/
def deep_copy (dst src : List α) : Run (List α) :=
  if dst.length = src.length then .ok src else .error .outOfBounds

/-- The constructor `KOKKOSStream(ARRAY_SIZE, device_index)`. `junk k` is the initial
content of the `k`-th allocation. -/
def KOKKOSStream.new (ARRAY_SIZE : Nat) (_device_index : Int) (junk : Nat → Nat → α) :
    Run (KOKKOSStream α) :=
  .ok
    { array_size := ARRAY_SIZE
      d_a := fresh ARRAY_SIZE (junk 0)
      d_b := fresh ARRAY_SIZE (junk 1)
      d_c := fresh ARRAY_SIZE (junk 2)
      hm_a := fresh ARRAY_SIZE (junk 3)
      hm_b := fresh ARRAY_SIZE (junk 4)
      hm_c := fresh ARRAY_SIZE (junk 5)
      calls := [KokkosCall.init, KokkosCall.view ARRAY_SIZE, KokkosCall.view ARRAY_SIZE,
        KokkosCall.view ARRAY_SIZE, KokkosCall.create_mirror_view,
        KokkosCall.create_mirror_view, KokkosCall.create_mirror_view] }

/-- The destructor of `KOKKOSStream`: the runtime calls made at the end of its life. -/
def KOKKOSStream.destroy (s : KOKKOSStream α) : List KokkosCall :=
  s.calls ++ [KokkosCall.finalize]

/-- Loop body of `KOKKOSStream::init_arrays`. -/
def KOKKOSStream.init_arrays_body (initA initB initC : α) (index : Nat) (s : KOKKOSStream α) :
    Run (KOKKOSStream α) := do
  let a ← wr s.d_a index initA
  let b ← wr s.d_b index initB
  let c ← wr s.d_c index initC
  pure { s with d_a := a, d_b := b, d_c := c }

/-- `KOKKOSStream::init_arrays`. -/
def KOKKOSStream.init_arrays (s : KOKKOSStream α) (initA initB initC : α) :
    Run (KOKKOSStream α) := do
  let t ← KOKKOSStream.parallel_for s.array_size (KOKKOSStream.init_arrays_body initA initB initC) s
  pure t.fence

/-- Loop body of `KOKKOSStream::read_arrays`; the loop state is the three vectors of
the caller. -/
def KOKKOSStream.read_arrays_body (s : KOKKOSStream α) (ii : Nat)
    (out : List α × List α × List α) : Run (List α × List α × List α) := do
  let va ← rd s.hm_a ii
  let a ← wr out.1 ii va
  let vb ← rd s.hm_b ii
  let b ← wr out.2.1 ii vb
  let vc ← rd s.hm_c ii
  let c ← wr out.2.2 ii vc
  pure (a, b, c)

/-- `KOKKOSStream::read_arrays(a, b, c)`: returns the backend and the three vectors
after the call. -/
def KOKKOSStream.read_arrays (s : KOKKOSStream α) (a b c : List α) :
    Run (KOKKOSStream α × List α × List α × List α) := do
  let ha ← deep_copy s.hm_a s.d_a
  let hb ← deep_copy s.hm_b s.d_b
  let hc ← deep_copy s.hm_c s.d_c
  let t : KOKKOSStream α :=
    { s with hm_a := ha, hm_b := hb, hm_c := hc,
             calls := s.calls ++ [KokkosCall.deep_copy, KokkosCall.deep_copy, KokkosCall.deep_copy] }
  let out ← for_int t.array_size (KOKKOSStream.read_arrays_body t) INT_RANGE 0 (a, b, c)
  pure (t, out)

/-- Loop body of `KOKKOSStream::copy`. -/
def KOKKOSStream.copy_body (index : Nat) (s : KOKKOSStream α) : Run (KOKKOSStream α) := do
  let v ← rd s.d_a index
  let c ← wr s.d_c index v
  pure { s with d_c := c }

/-- `KOKKOSStream::copy`. -/
def KOKKOSStream.copy (s : KOKKOSStream α) : Run (KOKKOSStream α) := do
  let t ← KOKKOSStream.parallel_for s.array_size KOKKOSStream.copy_body s
  pure t.fence

variable [Zero α] [Add α] [Mul α]

/-- Loop body of `KOKKOSStream::mul`. -/
def KOKKOSStream.mul_body (scalar : α) (index : Nat) (s : KOKKOSStream α) :
    Run (KOKKOSStream α) := do
  let v ← rd s.d_c index
  let b ← wr s.d_b index (scalar * v)
  pure { s with d_b := b }

/-- `KOKKOSStream::mul`. -/
def KOKKOSStream.mul (startScalar : α) (s : KOKKOSStream α) : Run (KOKKOSStream α) := do
  let scalar := startScalar
  let t ← KOKKOSStream.parallel_for s.array_size (KOKKOSStream.mul_body scalar) s
  pure t.fence

/-- Loop body of `KOKKOSStream::add`. -/
def KOKKOSStream.add_body (index : Nat) (s : KOKKOSStream α) : Run (KOKKOSStream α) := do
  let va ← rd s.d_a index
  let vb ← rd s.d_b index
  let c ← wr s.d_c index (va + vb)
  pure { s with d_c := c }

/-- `KOKKOSStream::add`. -/
def KOKKOSStream.add (s : KOKKOSStream α) : Run (KOKKOSStream α) := do
  let t ← KOKKOSStream.parallel_for s.array_size KOKKOSStream.add_body s
  pure t.fence

/-- Loop body of `KOKKOSStream::triad`. -/
def KOKKOSStream.triad_body (scalar : α) (index : Nat) (s : KOKKOSStream α) :
    Run (KOKKOSStream α) := do
  let vb ← rd s.d_b index
  let vc ← rd s.d_c index
  let a ← wr s.d_a index (vb + scalar * vc)
  pure { s with d_a := a }

/-- `KOKKOSStream::triad`. -/
def KOKKOSStream.triad (startScalar : α) (s : KOKKOSStream α) : Run (KOKKOSStream α) := do
  let scalar := startScalar
  let t ← KOKKOSStream.parallel_for s.array_size (KOKKOSStream.triad_body scalar) s
  pure t.fence

/-- Reduction body of `KOKKOSStream::dot`: `tmp += a[index] * b[index]`. -/
def KOKKOSStream.dot_body (s : KOKKOSStream α) (index : Nat) (tmp : α) : Run α := do
  let va ← rd s.d_a index
  let vb ← rd s.d_b index
  pure (tmp + va * vb)

/-- `KOKKOSStream::dot`: `Kokkos::parallel_reduce` joins the contributions of all
indices of `[0, array_size)`, starting from the identity `0` of the sum, and
stores the result in `sum`. Returns `sum` and the backend after the call. -/
def KOKKOSStream.dot (s : KOKKOSStream α) : Run (α × KOKKOSStream α) := do
  let t : KOKKOSStream α :=
    { s with calls := s.calls ++ [KokkosCall.parallel_reduce s.array_size] }
  let sum ← for_range (KOKKOSStream.dot_body t) t.array_size 0 (0 : α)
  pure (sum, t)

end Kokkos

/-! ## OMPStream -/

section OMP

variable {α : Type}

/-- The directive `#pragma omp target update from(x[lo:len])`: the section is copied
from the device image to the host array. -/
def target_update_from (host dev : List α) (lo len : Nat) : Run (List α) :=
  if lo + len ≤ host.length ∧ lo + len ≤ dev.length then
    .ok (host.take lo ++ ((dev.drop lo).take len ++ host.drop (lo + len)))
  else .error .outOfBounds

/-- The constructor `OMPStream(ARRAY_SIZE, device)`. `junk k` is the initial content
of the `k`-th allocation (`aligned_alloc` and `map(alloc: ...)` copy nothing). -/
def OMPStream.new (ARRAY_SIZE : Nat) (device : Int) (junk : Nat → Nat → α) :
    Run (OMPStream α) :=
  .ok
    { array_size := ARRAY_SIZE
      default_device := device
      a := fresh ARRAY_SIZE (junk 0)
      b := fresh ARRAY_SIZE (junk 1)
      c := fresh ARRAY_SIZE (junk 2)
      dev_a := fresh ARRAY_SIZE (junk 3)
      dev_b := fresh ARRAY_SIZE (junk 4)
      dev_c := fresh ARRAY_SIZE (junk 5) }

/-- The blocking update `#pragma omp target update from(a[0:0])` that the kernels
append when built with `OMP_TARGET_GPU` and the Cray compiler. -/
def OMPStream.update_a_empty (cfg : Build) (s : OMPStream α) : Run (OMPStream α) :=
  if cfg.OMP_TARGET_GPU && cfg.CRAYC then do
    let a ← target_update_from s.a s.dev_a 0 0
    pure { s with a := a }
  else pure s

/-- The blocking update `#pragma omp target update from(c[0:0])` of `mul`. -/
def OMPStream.update_c_empty (cfg : Build) (s : OMPStream α) : Run (OMPStream α) :=
  if cfg.OMP_TARGET_GPU && cfg.CRAYC then do
    let c ← target_update_from s.c s.dev_c 0 0
    pure { s with c := c }
  else pure s

/-- Loop body of `OMPStream::init_arrays`, inside the target region. -/
def OMPStream.init_arrays_body (initA initB initC : α) (i : Nat) (s : OMPStream α) :
    Run (OMPStream α) := do
  let a ← wr s.dev_a i initA
  let b ← wr s.dev_b i initB
  let c ← wr s.dev_c i initC
  pure { s with dev_a := a, dev_b := b, dev_c := c }

/-- `OMPStream::init_arrays`. -/
def OMPStream.init_arrays (cfg : Build) (s : OMPStream α) (initA initB initC : α) :
    Run (OMPStream α) := do
  let t ← for_int s.array_size (OMPStream.init_arrays_body initA initB initC) INT_RANGE 0 s
  t.update_a_empty cfg

/-- Loop body of `OMPStream::read_arrays`; the loop state is the three vectors of the
caller. -/
def OMPStream.read_arrays_body (s : OMPStream α) (i : Nat)
    (out : List α × List α × List α) : Run (List α × List α × List α) := do
  let va ← rd s.a i
  let h_a ← wr out.1 i va
  let vb ← rd s.b i
  let h_b ← wr out.2.1 i vb
  let vc ← rd s.c i
  let h_c ← wr out.2.2 i vc
  pure (h_a, h_b, h_c)

/-- `OMPStream::read_arrays(h_a, h_b, h_c)`: returns the backend and the three vectors
after the call. -/
def OMPStream.read_arrays (s : OMPStream α) (h_a h_b h_c : List α) :
    Run (OMPStream α × List α × List α × List α) := do
  let a ← target_update_from s.a s.dev_a 0 s.array_size
  let b ← target_update_from s.b s.dev_b 0 s.array_size
  let c ← target_update_from s.c s.dev_c 0 s.array_size
  let t : OMPStream α := { s with a := a, b := b, c := c }
  let out ← for_int t.array_size (OMPStream.read_arrays_body t) INT_RANGE 0 (h_a, h_b, h_c)
  pure (t, out)

/-- Loop body of `OMPStream::copy`, inside the target region. -/
def OMPStream.copy_body (i : Nat) (s : OMPStream α) : Run (OMPStream α) := do
  let v ← rd s.dev_a i
  let c ← wr s.dev_c i v
  pure { s with dev_c := c }

/-- `OMPStream::copy`. -/
def OMPStream.copy (cfg : Build) (s : OMPStream α) : Run (OMPStream α) := do
  let t ← for_int s.array_size OMPStream.copy_body INT_RANGE 0 s
  t.update_a_empty cfg

variable [Zero α] [Add α] [Mul α]

/-- Loop body of `OMPStream::mul`, inside the target region. -/
def OMPStream.mul_body (scalar : α) (i : Nat) (s : OMPStream α) : Run (OMPStream α) := do
  let v ← rd s.dev_c i
  let b ← wr s.dev_b i (scalar * v)
  pure { s with dev_b := b }

/-- `OMPStream::mul`. -/
def OMPStream.mul (startScalar : α) (cfg : Build) (s : OMPStream α) : Run (OMPStream α) := do
  let scalar := startScalar
  let t ← for_int s.array_size (OMPStream.mul_body scalar) INT_RANGE 0 s
  t.update_c_empty cfg

/-- Loop body of `OMPStream::add`, inside the target region. -/
def OMPStream.add_body (i : Nat) (s : OMPStream α) : Run (OMPStream α) := do
  let va ← rd s.dev_a i
  let vb ← rd s.dev_b i
  let c ← wr s.dev_c i (va + vb)
  pure { s with dev_c := c }

/-- `OMPStream::add`. -/
def OMPStream.add (cfg : Build) (s : OMPStream α) : Run (OMPStream α) := do
  let t ← for_int s.array_size OMPStream.add_body INT_RANGE 0 s
  t.update_a_empty cfg

/-- Loop body of `OMPStream::triad`, inside the target region. -/
def OMPStream.triad_body (scalar : α) (i : Nat) (s : OMPStream α) : Run (OMPStream α) := do
  let vb ← rd s.dev_b i
  let vc ← rd s.dev_c i
  let a ← wr s.dev_a i (vb + scalar * vc)
  pure { s with dev_a := a }

/-- `OMPStream::triad`. -/
def OMPStream.triad (startScalar : α) (cfg : Build) (s : OMPStream α) : Run (OMPStream α) := do
  let scalar := startScalar
  let t ← for_int s.array_size (OMPStream.triad_body scalar) INT_RANGE 0 s
  t.update_a_empty cfg

/-- Loop body of `OMPStream::dot`: `sum += a[i] * b[i]`. -/
def OMPStream.dot_body (s : OMPStream α) (i : Nat) (sum : α) : Run α := do
  let va ← rd s.dev_a i
  let vb ← rd s.dev_b i
  pure (sum + va * vb)

/-- `OMPStream::dot`: the loop runs inside `#pragma omp target map(tofrom: sum)`; the
line `#pragma teams distribute ...` lacks `omp` and is no OpenMP directive, so the
loop is the plain sequential one. Returns `sum` and the backend after the call. -/
def OMPStream.dot (s : OMPStream α) : Run (α × OMPStream α) := do
  let sum ← for_int s.array_size (OMPStream.dot_body s) INT_RANGE 0 (0 : α)
  pure (sum, s)

end OMP

/-! ## Vocabulary of the specification -/

/-- A device index is in range when it names one of the `num_devices` devices. -/
def deviceInRange (num_devices : Nat) (device : Int) : Prop :=
  0 ≤ device ∧ device < num_devices

instance instDecidableDeviceInRange (num_devices : Nat) (device : Int) :
    Decidable (deviceInRange num_devices device) := by
  unfold deviceInRange; infer_instance

/-- The three device arrays of a Kokkos backend have `array_size` elements and so do
their host mirrors. -/
def KOKKOSStream.WF {α : Type} (s : KOKKOSStream α) : Prop :=
  s.d_a.length = s.array_size ∧ s.d_b.length = s.array_size ∧ s.d_c.length = s.array_size ∧
  s.hm_a.length = s.array_size ∧ s.hm_b.length = s.array_size ∧ s.hm_c.length = s.array_size

/-- The three host arrays of an OpenMP backend have `array_size` elements and so do
their device images. -/
def OMPStream.WF {α : Type} (s : OMPStream α) : Prop :=
  s.a.length = s.array_size ∧ s.b.length = s.array_size ∧ s.c.length = s.array_size ∧
  s.dev_a.length = s.array_size ∧ s.dev_b.length = s.array_size ∧
  s.dev_c.length = s.array_size

/-! ## Concrete inputs -/

/-- An array size that `unsigned int` holds and `int` does not. -/
def hugeSize : Nat := 3000000000

/-- Memory that holds zeros before it is written. -/
def zeroJunk : Nat → Nat → ℤ := fun _ _ => 0

/-- A host build of `OMPStream.cpp`: neither `OMP_TARGET_GPU` nor `_CRAYC` is defined. -/
def hostBuild : Build := { OMP_TARGET_GPU := false, CRAYC := false }

/-! ## Device enumeration -/

/-- `listDevices()` of `KOKKOSStream.cpp`: the text it writes to `std::cout`. -/
def KOKKOS.listDevices : String :=
  "This is not the device you are looking for."

/-- `getDeviceName(device)` of `KOKKOSStream.cpp`. -/
def KOKKOS.getDeviceName (_device : Int) : String :=
  "Kokkos"

/-- `getDeviceDriver(device)` of `KOKKOSStream.cpp`. -/
def KOKKOS.getDeviceDriver (_device : Int) : String :=
  "Kokkos"

/-- `listDevices()` of `OMPStream.cpp`: the lines it writes to `std::cout` and to
`std::cerr`; `count` is the value of `omp_get_num_devices()`. -/
def OMP.listDevices (cfg : Build) (count : Int) : List String × List String :=
  if cfg.OMP_TARGET_GPU then
    if count = 0 then ([], ["No devices found."])
    else (["There are " ++ toString count ++ " devices."], [])
  else (["0: CPU"], [])

/-- `getDeviceName(int)` of `OMPStream.cpp`. -/
def OMP.getDeviceName (_device : Int) : String :=
  "Device name unavailable"

/-- `getDeviceDriver(int)` of `OMPStream.cpp`. -/
def OMP.getDeviceDriver (_device : Int) : String :=
  "Device driver unavailable"

/-! ## Loop bodies in a chosen order, and the indices a loop visits -/

/-- A loop body run once at each index of `order`, one index after the other. -/
def run_order {σ : Type} (body : Nat → σ → Run σ) : List Nat → σ → Run σ
  | [], s => .ok s
  | i :: rest, s =>
    match body i s with
    | .ok t => run_order body rest t
    | .error e => .error e

/-- A loop body that touches no array and only records the index it is run at. -/
def visit (i : Nat) (seen : List Nat) : Run (List Nat) :=
  .ok (seen ++ [i])

/-! ## A driver: sequences of calls on a backend -/

/-- One call of the driver on a backend; `read_arrays` comes with the three vectors
of the caller. -/
inductive Op (α : Type) where
  | init_arrays (initA initB initC : α)
  | copy
  | mul
  | add
  | triad
  | dot
  | read_arrays (a b c : List α)
deriving DecidableEq, Repr

/-- What a call hands back to the driver: nothing, the sum of `dot`, or the three
vectors filled by `read_arrays`. -/
inductive Reply (α : Type) where
  | done
  | sum (v : α)
  | arrays (a b c : List α)
deriving DecidableEq, Repr

/-- What is seen of a backend after a call: its arrays A, B, C on the device and the
reply of the call. -/
structure Seen (α : Type) where
  A : List α
  B : List α
  C : List α
  reply : Reply α
deriving DecidableEq, Repr

section Driver

variable {α : Type} [Zero α] [Add α] [Mul α]

/-- One call on the Kokkos backend. -/
def KOKKOSStream.call (startScalar : α) (s : KOKKOSStream α) :
    Op α → Run (KOKKOSStream α × Reply α)
  | .init_arrays x y z => do let t ← s.init_arrays x y z; pure (t, .done)
  | .copy => do let t ← s.copy; pure (t, .done)
  | .mul => do let t ← s.mul startScalar; pure (t, .done)
  | .add => do let t ← s.add; pure (t, .done)
  | .triad => do let t ← s.triad startScalar; pure (t, .done)
  | .dot => do let r ← s.dot; pure (r.2, .sum r.1)
  | .read_arrays a b c => do
    let r ← s.read_arrays a b c
    pure (r.1, .arrays r.2.1 r.2.2.1 r.2.2.2)

/-- One call on the OpenMP backend. -/
def OMPStream.call (startScalar : α) (cfg : Build) (s : OMPStream α) :
    Op α → Run (OMPStream α × Reply α)
  | .init_arrays x y z => do let t ← s.init_arrays cfg x y z; pure (t, .done)
  | .copy => do let t ← s.copy cfg; pure (t, .done)
  | .mul => do let t ← s.mul startScalar cfg; pure (t, .done)
  | .add => do let t ← s.add cfg; pure (t, .done)
  | .triad => do let t ← s.triad startScalar cfg; pure (t, .done)
  | .dot => do let r ← s.dot; pure (r.2, .sum r.1)
  | .read_arrays a b c => do
    let r ← s.read_arrays a b c
    pure (r.1, .arrays r.2.1 r.2.2.1 r.2.2.2)

/-- A sequence of calls on the Kokkos backend, with what is seen after each call. -/
def KOKKOSStream.drive (startScalar : α) : KOKKOSStream α → List (Op α) → Run (List (Seen α))
  | _, [] => .ok []
  | s, op :: rest =>
    match s.call startScalar op with
    | .ok (t, reply) =>
      match KOKKOSStream.drive startScalar t rest with
      | .ok seen => .ok ({ A := t.d_a, B := t.d_b, C := t.d_c, reply := reply } :: seen)
      | .error e => .error e
    | .error e => .error e

/-- A sequence of calls on the OpenMP backend, with what is seen after each call. -/
def OMPStream.drive (startScalar : α) (cfg : Build) :
    OMPStream α → List (Op α) → Run (List (Seen α))
  | _, [] => .ok []
  | s, op :: rest =>
    match s.call startScalar cfg op with
    | .ok (t, reply) =>
      match OMPStream.drive startScalar cfg t rest with
      | .ok seen => .ok ({ A := t.dev_a, B := t.dev_b, C := t.dev_c, reply := reply } :: seen)
      | .error e => .error e
    | .error e => .error e

/-- A freshly constructed Kokkos backend driven through a sequence of calls. -/
def KOKKOSStream.session (startScalar : α) (ARRAY_SIZE : Nat) (device_index : Int)
    (junk : Nat → Nat → α) (ops : List (Op α)) : Run (List (Seen α)) := do
  let s ← KOKKOSStream.new ARRAY_SIZE device_index junk
  KOKKOSStream.drive startScalar s ops

/-- A freshly constructed OpenMP backend driven through a sequence of calls. -/
def OMPStream.session (startScalar : α) (cfg : Build) (ARRAY_SIZE : Nat) (device : Int)
    (junk : Nat → Nat → α) (ops : List (Op α)) : Run (List (Seen α)) := do
  let s ← OMPStream.new ARRAY_SIZE device junk
  OMPStream.drive startScalar cfg s ops

end Driver

/-! ## Vocabulary of the specification, continued -/

/-- Running `body` at the indices of `order` gives the result of running it at
`0, 1, ..., n - 1` in increasing order, and that result is a state. -/
def orderFree {σ : Type} (body : Nat → σ → Run σ) (n : Nat) (order : List Nat) (s : σ) : Prop :=
  ∃ t, run_order body order s = .ok t ∧ run_order body (List.range n) s = .ok t

/-- The arrays A, B, C of a backend, as the specification speaks of them. -/
structure Arrays (α : Type) where
  A : List α
  B : List α
  C : List α
deriving DecidableEq, Repr

/-- The device arrays of a Kokkos backend. -/
def KOKKOSStream.arrays {α : Type} (s : KOKKOSStream α) : Arrays α :=
  { A := s.d_a, B := s.d_b, C := s.d_c }

/-- The device arrays of an OpenMP backend. -/
def OMPStream.arrays {α : Type} (s : OMPStream α) : Arrays α :=
  { A := s.dev_a, B := s.dev_b, C := s.dev_c }

/-- Iteration `i` of `body` writes nothing but element `i` of the arrays marked as
written and leaves the other arrays as they are; and what the three arrays hold at
index `i` afterwards depends only on what they held at index `i` before. So no
iteration reads or writes an element that belongs to another index. -/
def confined {σ α : Type} (body : Nat → σ → Run σ) (view : σ → Arrays α)
    (wA wB wC : Bool) : Prop :=
  (∀ i s t, body i s = .ok t →
    (if wA then ∀ j, j ≠ i → (view t).A[j]? = (view s).A[j]? else (view t).A = (view s).A) ∧
    (if wB then ∀ j, j ≠ i → (view t).B[j]? = (view s).B[j]? else (view t).B = (view s).B) ∧
    (if wC then ∀ j, j ≠ i → (view t).C[j]? = (view s).C[j]?
      else (view t).C = (view s).C)) ∧
  (∀ i s1 s2 t1 t2, body i s1 = .ok t1 → body i s2 = .ok t2 →
    (view s1).A[i]? = (view s2).A[i]? → (view s1).B[i]? = (view s2).B[i]? →
    (view s1).C[i]? = (view s2).C[i]? →
    (view t1).A[i]? = (view t2).A[i]? ∧ (view t1).B[i]? = (view t2).B[i]? ∧
      (view t1).C[i]? = (view t2).C[i]?)

/-- The vectors that come with a `read_arrays` call have `n` elements each. -/
def Op.fits {α : Type} (n : Nat) : Op α → Prop
  | .read_arrays a b c => a.length = n ∧ b.length = n ∧ c.length = n
  | _ => True

/-- Every position of `xs`, of which there are `n`, holds `v`. -/
def uniform {α : Type} (n : Nat) (v : α) (xs : List α) : Prop :=
  xs = List.replicate n v

section Contract

variable {α : Type} [Semiring α]

/-- Contract of one call in the words of the specification (its section 4.1), on
arrays of `n` elements: the arrays after the call and the reply. -/
def contract (scalar : α) (n : Nat) (m : Arrays α) : Op α → Arrays α × Reply α
  | .init_arrays x y z =>
    ({ A := List.replicate n x, B := List.replicate n y, C := List.replicate n z }, .done)
  | .copy => ({ m with C := m.A }, .done)
  | .mul => ({ m with B := m.C.map (fun v => scalar * v) }, .done)
  | .add => ({ m with C := List.zipWith (fun x y => x + y) m.A m.B }, .done)
  | .triad => ({ m with A := List.zipWith (fun x y => x + scalar * y) m.B m.C }, .done)
  | .dot => (m, .sum (∑ i in Finset.range n, m.A.getD i 0 * m.B.getD i 0))
  | .read_arrays _ _ _ => (m, .arrays m.A m.B m.C)

/-- Contract of a sequence of calls: what is seen after each of them. -/
def contract_drive (scalar : α) (n : Nat) : Arrays α → List (Op α) → List (Seen α)
  | _, [] => []
  | m, op :: rest =>
    { A := (contract scalar n m op).1.A, B := (contract scalar n m op).1.B,
      C := (contract scalar n m op).1.C, reply := (contract scalar n m op).2 } ::
      contract_drive scalar n (contract scalar n m op).1 rest

end Contract

/-! ## Concrete inputs, continued -/

/-- A Kokkos backend of three elements. -/
def smallKokkos : KOKKOSStream ℤ :=
  { array_size := 3, d_a := [1, 2, 3], d_b := [4, 5, 6], d_c := [7, 8, 9],
    hm_a := [0, 0, 0], hm_b := [0, 0, 0], hm_c := [0, 0, 0], calls := [] }

/-- An OpenMP backend of three elements. -/
def smallOMP : OMPStream ℤ :=
  { array_size := 3, a := [0, 0, 0], b := [0, 0, 0], c := [0, 0, 0],
    dev_a := [1, 2, 3], dev_b := [4, 5, 6], dev_c := [7, 8, 9], default_device := 0 }

end BabelStream

namespace BabelStream

/-! ## Loop lemmas

A loop whose counter stays within `int` is the plain iteration over its indices; a
loop over more than `INT_MAX` indices ends in signed overflow. -/

theorem for_int_overflow_aux {σ : Type} (N : Nat) (body : Nat → σ → Run σ) (Inv : σ → Prop)
    (hN : INT_MAX < N)
    (hstep : ∀ i s, i < N → Inv s → ∃ t, body i s = .ok t ∧ Inv t) :
    ∀ (k fuel i : Nat) (s : σ), i + k = INT_MAX → k < fuel → Inv s →
      for_int N body fuel i s = .error .signedOverflow := by
  intro k
  induction k with
  | zero =>
    intro fuel i s hi hf hs
    obtain ⟨fuel, rfl⟩ : ∃ m, fuel = m + 1 := ⟨fuel - 1, by omega⟩
    have hiN : i < N := by omega
    obtain ⟨t, ht, _⟩ := hstep i s hiN hs
    have hov : ¬ (i + 1 ≤ INT_MAX) := by omega
    simp [for_int, hiN, ht, hov]
  | succ k ih =>
    intro fuel i s hi hf hs
    obtain ⟨fuel, rfl⟩ : ∃ m, fuel = m + 1 := ⟨fuel - 1, by omega⟩
    have hiN : i < N := by omega
    obtain ⟨t, ht, hInv⟩ := hstep i s hiN hs
    have hov : i + 1 ≤ INT_MAX := by omega
    simp only [for_int, hiN, ht, hov, if_true]
    exact ih fuel (i + 1) t (by omega) (by omega) hInv

theorem for_int_overflow {σ : Type} (N : Nat) (body : Nat → σ → Run σ) (Inv : σ → Prop)
    (hN : INT_MAX < N)
    (hstep : ∀ i s, i < N → Inv s → ∃ t, body i s = .ok t ∧ Inv t)
    (s : σ) (hs : Inv s) :
    for_int N body INT_RANGE 0 s = .error .signedOverflow :=
  for_int_overflow_aux N body Inv hN hstep INT_MAX INT_RANGE 0 s (by simp)
    (by unfold INT_MAX INT_RANGE; omega) hs

theorem for_int_eq_for_range_aux {σ : Type} (N : Nat) (body : Nat → σ → Run σ)
    (hN : N ≤ INT_MAX) :
    ∀ (k fuel i : Nat) (s : σ), i + k = N → k < fuel →
      for_int N body fuel i s = for_range body k i s := by
  intro k
  induction k with
  | zero =>
    intro fuel i s hi hf
    obtain ⟨fuel, rfl⟩ : ∃ m, fuel = m + 1 := ⟨fuel - 1, by omega⟩
    have hiN : ¬ (i < N) := by omega
    simp [for_int, for_range, hiN]
  | succ k ih =>
    intro fuel i s hi hf
    obtain ⟨fuel, rfl⟩ : ∃ m, fuel = m + 1 := ⟨fuel - 1, by omega⟩
    have hiN : i < N := by omega
    have hov : i + 1 ≤ INT_MAX := by omega
    simp only [for_int, for_range, hiN, if_true]
    cases hb : body i s with
    | error e => rfl
    | ok t =>
      simp only [hov, if_true]
      exact ih fuel (i + 1) t (by omega) (by omega)

theorem for_int_eq_for_range {σ : Type} (N : Nat) (body : Nat → σ → Run σ)
    (hN : N ≤ INT_MAX) (s : σ) :
    for_int N body INT_RANGE 0 s = for_range body N 0 s :=
  for_int_eq_for_range_aux N body hN N INT_RANGE 0 s (by simp)
    (by unfold INT_MAX at hN; unfold INT_RANGE; omega)

theorem for_range_closed_aux {σ : Type} (body : Nat → σ → Run σ) (n : Nat) (f : Nat → σ)
    (h : ∀ j, j < n → body j (f j) = .ok (f (j + 1))) :
    ∀ (k i : Nat), i + k = n → for_range body k i (f i) = .ok (f n) := by
  intro k
  induction k with
  | zero =>
    intro i hi
    have : i = n := by omega
    subst this
    rfl
  | succ k ih =>
    intro i hi
    simp only [for_range, h i (by omega)]
    exact ih (i + 1) (by omega)

theorem for_range_closed {σ : Type} (body : Nat → σ → Run σ) (n : Nat) (f : Nat → σ)
    (h : ∀ j, j < n → body j (f j) = .ok (f (j + 1))) :
    for_range body n 0 (f 0) = .ok (f n) :=
  for_range_closed_aux body n f h n 0 (by simp)

/-! ## Array lemmas -/

theorem rd_eq_ok {α : Type} (xs : List α) (i : Nat) (v : α) (h : xs[i]? = some v) :
    rd xs i = .ok v := by
  simp [rd, h]

theorem set_take_drop {α : Type} (l1 l2 : List α) (i : Nat) (v : α)
    (h1 : l1[i]? = some v) (h2 : i < l2.length) :
    (l1.take i ++ l2.drop i).set i v = l1.take (i + 1) ++ l2.drop (i + 1) := by
  induction i generalizing l1 l2 with
  | zero =>
    cases l1 with
    | nil => simp at h1
    | cons x xs =>
      cases l2 with
      | nil => simp at h2
      | cons y ys =>
        simp at h1
        simp [h1]
  | succ i ih =>
    cases l1 with
    | nil => simp at h1
    | cons x xs =>
      cases l2 with
      | nil => simp at h2
      | cons y ys =>
        simp at h1 h2
        simp [ih xs ys h1 h2]

theorem lt_length_of_getElem_some {α : Type} (xs : List α) (i : Nat) (v : α)
    (h : xs[i]? = some v) : i < xs.length := by
  by_contra hc
  rw [List.getElem?_eq_none (not_lt.mp hc)] at h
  cases h

theorem wr_take_drop {α : Type} (l1 l2 : List α) (i : Nat) (v : α)
    (h1 : l1[i]? = some v) (h2 : i < l2.length) :
    wr (l1.take i ++ l2.drop i) i v = .ok (l1.take (i + 1) ++ l2.drop (i + 1)) := by
  have hi : i < l1.length := lt_length_of_getElem_some l1 i v h1
  have hlen : i < (l1.take i ++ l2.drop i).length := by
    simp only [List.length_append, List.length_take, List.length_drop]
    omega
  simp only [wr, hlen, if_true, set_take_drop l1 l2 i v h1 h2]

theorem take_append_drop_full {α : Type} (l1 l2 : List α) (n : Nat)
    (h1 : l1.length = n) (h2 : l2.length = n) : l1.take n ++ l2.drop n = l1 := by
  rw [List.take_of_length_le (le_of_eq h1), List.drop_of_length_le (le_of_eq h2),
    List.append_nil]

theorem take_append_drop_zero {α : Type} (l1 l2 : List α) :
    l1.take 0 ++ l2.drop 0 = l2 := by
  simp

theorem getElem_some_of_lt {α : Type} (xs : List α) (i : Nat) (h : i < xs.length) :
    ∃ v, xs[i]? = some v :=
  ⟨xs[i], List.getElem?_eq_getElem h⟩

theorem wr_ok {α : Type} (xs : List α) (i : Nat) (v : α) (h : i < xs.length) :
    wr xs i v = .ok (xs.set i v) := by
  simp [wr, h]

theorem kokkos_read_arrays_body_ok {α : Type} (s : KOKKOSStream α) (i : Nat)
    (out : List α × List α × List α) (va vb vc : α)
    (hva : s.hm_a[i]? = some va) (hvb : s.hm_b[i]? = some vb) (hvc : s.hm_c[i]? = some vc)
    (h1 : i < out.1.length) (h2 : i < out.2.1.length) (h3 : i < out.2.2.length) :
    KOKKOSStream.read_arrays_body s i out =
      .ok (out.1.set i va, out.2.1.set i vb, out.2.2.set i vc) := by
  simp only [KOKKOSStream.read_arrays_body, rd_eq_ok _ _ _ hva, rd_eq_ok _ _ _ hvb,
    rd_eq_ok _ _ _ hvc, wr_ok _ _ _ h1, wr_ok _ _ _ h2, wr_ok _ _ _ h3, bind, Except.bind, pure,
    Except.pure]

theorem omp_read_arrays_body_ok {α : Type} (s : OMPStream α) (i : Nat)
    (out : List α × List α × List α) (va vb vc : α)
    (hva : s.a[i]? = some va) (hvb : s.b[i]? = some vb) (hvc : s.c[i]? = some vc)
    (h1 : i < out.1.length) (h2 : i < out.2.1.length) (h3 : i < out.2.2.length) :
    OMPStream.read_arrays_body s i out =
      .ok (out.1.set i va, out.2.1.set i vb, out.2.2.set i vc) := by
  simp only [OMPStream.read_arrays_body, rd_eq_ok _ _ _ hva, rd_eq_ok _ _ _ hvb,
    rd_eq_ok _ _ _ hvc, wr_ok _ _ _ h1, wr_ok _ _ _ h2, wr_ok _ _ _ h3, bind, Except.bind, pure,
    Except.pure]

theorem length_take_append_drop {α : Type} (l1 l2 : List α) (n i : Nat)
    (h1 : l1.length = n) (h2 : l2.length = n) (hi : i < n) :
    i < (l1.take i ++ l2.drop i).length := by
  simp only [List.length_append, List.length_take, List.length_drop]
  omega

/-! ## The Kokkos kernels on arrays of `array_size` elements -/

section KokkosRuns

variable {α : Type}

theorem kokkos_copy_run (s : KOKKOSStream α)
    (ha : s.d_a.length = s.array_size) (hc : s.d_c.length = s.array_size) :
    s.copy = .ok { s with d_c := s.d_a,
                          calls := s.calls ++ [KokkosCall.parallel_for s.array_size,
                            KokkosCall.fence] } := by
  let f : Nat → KOKKOSStream α := fun j =>
    { s with d_c := s.d_a.take j ++ s.d_c.drop j,
             calls := s.calls ++ [KokkosCall.parallel_for s.array_size] }
  have h0 : ({ s with calls := s.calls ++ [KokkosCall.parallel_for s.array_size] } :
      KOKKOSStream α) = f 0 := by
    simp [f]
  have hstep : ∀ j, j < s.array_size → KOKKOSStream.copy_body j (f j) = .ok (f (j + 1)) := by
    intro j hj
    obtain ⟨v, hv⟩ := getElem_some_of_lt s.d_a j (by omega)
    simp [KOKKOSStream.copy_body, f, rd_eq_ok _ _ _ hv,
      wr_take_drop s.d_a s.d_c j v hv (by omega), bind, Except.bind, pure, Except.pure]
  have hrun := for_range_closed KOKKOSStream.copy_body s.array_size f hstep
  simp only [KOKKOSStream.copy, KOKKOSStream.parallel_for, h0, hrun, bind, Except.bind, pure,
    Except.pure]
  simp [f, KOKKOSStream.fence, take_append_drop_full _ _ _ ha hc]

theorem kokkos_init_arrays_run_aux (s : KOKKOSStream α) (initA initB initC : α)
    (ra rb rc : List α)
    (ha : s.d_a.length = s.array_size) (hb : s.d_b.length = s.array_size)
    (hc : s.d_c.length = s.array_size)
    (hra : ra.length = s.array_size) (hrb : rb.length = s.array_size)
    (hrc : rc.length = s.array_size)
    (ga : ∀ j, j < s.array_size → ra[j]? = some initA)
    (gb : ∀ j, j < s.array_size → rb[j]? = some initB)
    (gc : ∀ j, j < s.array_size → rc[j]? = some initC) :
    s.init_arrays initA initB initC =
      .ok { s with d_a := ra, d_b := rb, d_c := rc,
                   calls := s.calls ++ [KokkosCall.parallel_for s.array_size,
                     KokkosCall.fence] } := by
  let f : Nat → KOKKOSStream α := fun j =>
    { s with d_a := ra.take j ++ s.d_a.drop j,
             d_b := rb.take j ++ s.d_b.drop j,
             d_c := rc.take j ++ s.d_c.drop j,
             calls := s.calls ++ [KokkosCall.parallel_for s.array_size] }
  have h0 : ({ s with calls := s.calls ++ [KokkosCall.parallel_for s.array_size] } :
      KOKKOSStream α) = f 0 := by
    simp [f]
  have hstep : ∀ j, j < s.array_size →
      KOKKOSStream.init_arrays_body initA initB initC j (f j) = .ok (f (j + 1)) := by
    intro j hj
    simp [KOKKOSStream.init_arrays_body, f,
      wr_take_drop ra s.d_a j initA (ga j hj) (by omega),
      wr_take_drop rb s.d_b j initB (gb j hj) (by omega),
      wr_take_drop rc s.d_c j initC (gc j hj) (by omega), bind, Except.bind, pure, Except.pure]
  have hrun := for_range_closed (KOKKOSStream.init_arrays_body initA initB initC)
    s.array_size f hstep
  simp only [KOKKOSStream.init_arrays, KOKKOSStream.parallel_for, h0, hrun, bind, Except.bind,
    pure, Except.pure]
  simp [f, KOKKOSStream.fence, take_append_drop_full _ _ _ hra ha,
    take_append_drop_full _ _ _ hrb hb, take_append_drop_full _ _ _ hrc hc]

theorem getElem_replicate_some {α : Type} (n j : Nat) (x : α) (h : j < n) :
    (List.replicate n x)[j]? = some x := by
  simp [List.getElem?_replicate, h]

theorem kokkos_init_arrays_run (s : KOKKOSStream α) (initA initB initC : α)
    (ha : s.d_a.length = s.array_size) (hb : s.d_b.length = s.array_size)
    (hc : s.d_c.length = s.array_size) :
    s.init_arrays initA initB initC =
      .ok { s with d_a := List.replicate s.array_size initA,
                   d_b := List.replicate s.array_size initB,
                   d_c := List.replicate s.array_size initC,
                   calls := s.calls ++ [KokkosCall.parallel_for s.array_size,
                     KokkosCall.fence] } :=
  kokkos_init_arrays_run_aux s initA initB initC _ _ _ ha hb hc
    (List.length_replicate _ _) (List.length_replicate _ _) (List.length_replicate _ _)
    (fun j hj => getElem_replicate_some _ j initA hj)
    (fun j hj => getElem_replicate_some _ j initB hj)
    (fun j hj => getElem_replicate_some _ j initC hj)

theorem kokkos_read_arrays_run (s : KOKKOSStream α) (a b c : List α) (hs : s.WF)
    (hN : s.array_size ≤ INT_MAX)
    (ha : a.length = s.array_size) (hb : b.length = s.array_size)
    (hc : c.length = s.array_size) :
    s.read_arrays a b c =
      .ok ({ s with hm_a := s.d_a, hm_b := s.d_b, hm_c := s.d_c,
                    calls := s.calls ++ [KokkosCall.deep_copy, KokkosCall.deep_copy,
                      KokkosCall.deep_copy] }, s.d_a, s.d_b, s.d_c) := by
  obtain ⟨hda, hdb, hdc, hha, hhb, hhc⟩ := hs
  let t : KOKKOSStream α :=
    { s with hm_a := s.d_a, hm_b := s.d_b, hm_c := s.d_c,
             calls := s.calls ++ [KokkosCall.deep_copy, KokkosCall.deep_copy,
               KokkosCall.deep_copy] }
  let f : Nat → List α × List α × List α := fun j =>
    (s.d_a.take j ++ a.drop j, s.d_b.take j ++ b.drop j, s.d_c.take j ++ c.drop j)
  have h0 : (a, b, c) = f 0 := by
    simp [f]
  have hstep : ∀ j, j < s.array_size → KOKKOSStream.read_arrays_body t j (f j) = .ok (f (j + 1)) := by
    intro j hj
    obtain ⟨va, hva⟩ := getElem_some_of_lt s.d_a j (lt_of_lt_of_eq hj hda.symm)
    obtain ⟨vb, hvb⟩ := getElem_some_of_lt s.d_b j (lt_of_lt_of_eq hj hdb.symm)
    obtain ⟨vc, hvc⟩ := getElem_some_of_lt s.d_c j (lt_of_lt_of_eq hj hdc.symm)
    rw [kokkos_read_arrays_body_ok t j (f j) va vb vc hva hvb hvc
      (length_take_append_drop _ _ _ j hda ha hj) (length_take_append_drop _ _ _ j hdb hb hj)
      (length_take_append_drop _ _ _ j hdc hc hj)]
    simp only [f, set_take_drop _ a j va hva (lt_of_lt_of_eq hj ha.symm),
      set_take_drop _ b j vb hvb (lt_of_lt_of_eq hj hb.symm),
      set_take_drop _ c j vc hvc (lt_of_lt_of_eq hj hc.symm)]
  have hrun := for_range_closed (KOKKOSStream.read_arrays_body t) s.array_size f hstep
  have hloop : for_int s.array_size (KOKKOSStream.read_arrays_body t) INT_RANGE 0 (a, b, c) =
      .ok (s.d_a, s.d_b, s.d_c) := by
    rw [for_int_eq_for_range _ _ hN, h0, hrun]
    simp [f, take_append_drop_full _ _ _ hda ha, take_append_drop_full _ _ _ hdb hb,
      take_append_drop_full _ _ _ hdc hc]
  have hd1 : deep_copy s.hm_a s.d_a = .ok s.d_a := by simp [deep_copy, hha, hda]
  have hd2 : deep_copy s.hm_b s.d_b = .ok s.d_b := by simp [deep_copy, hhb, hdb]
  have hd3 : deep_copy s.hm_c s.d_c = .ok s.d_c := by simp [deep_copy, hhc, hdc]
  simp only [KOKKOSStream.read_arrays, hd1, hd2, hd3, bind, Except.bind, pure, Except.pure]
  have hloop2 := hloop
  simp only [t] at hloop2
  simp only [hloop2]

theorem kokkos_mul_run [Mul α] (startScalar : α) (s : KOKKOSStream α)
    (hb : s.d_b.length = s.array_size) (hc : s.d_c.length = s.array_size) :
    s.mul startScalar =
      .ok { s with d_b := s.d_c.map (fun v => startScalar * v),
                   calls := s.calls ++ [KokkosCall.parallel_for s.array_size,
                     KokkosCall.fence] } := by
  let f : Nat → KOKKOSStream α := fun j =>
    { s with d_b := (s.d_c.map (fun v => startScalar * v)).take j ++ s.d_b.drop j,
             calls := s.calls ++ [KokkosCall.parallel_for s.array_size] }
  have h0 : ({ s with calls := s.calls ++ [KokkosCall.parallel_for s.array_size] } :
      KOKKOSStream α) = f 0 := by
    simp [f]
  have hstep : ∀ j, j < s.array_size →
      KOKKOSStream.mul_body startScalar j (f j) = .ok (f (j + 1)) := by
    intro j hj
    obtain ⟨v, hv⟩ := getElem_some_of_lt s.d_c j (by omega)
    have hm : (s.d_c.map (fun v => startScalar * v))[j]? = some (startScalar * v) := by
      simp [List.getElem?_map, hv]
    simp [KOKKOSStream.mul_body, f, rd_eq_ok _ _ _ hv,
      wr_take_drop _ s.d_b j _ hm (by omega), bind, Except.bind, pure, Except.pure]
  have hrun := for_range_closed (KOKKOSStream.mul_body startScalar) s.array_size f hstep
  simp only [KOKKOSStream.mul, KOKKOSStream.parallel_for, h0, hrun, bind, Except.bind, pure,
    Except.pure]
  simp [f, KOKKOSStream.fence,
    take_append_drop_full _ _ _ ((List.length_map _ _).trans hc) hb]

theorem kokkos_add_run [Add α] (s : KOKKOSStream α)
    (ha : s.d_a.length = s.array_size) (hb : s.d_b.length = s.array_size)
    (hc : s.d_c.length = s.array_size) :
    s.add =
      .ok { s with d_c := List.zipWith (fun x y => x + y) s.d_a s.d_b,
                   calls := s.calls ++ [KokkosCall.parallel_for s.array_size,
                     KokkosCall.fence] } := by
  let f : Nat → KOKKOSStream α := fun j =>
    { s with d_c := (List.zipWith (fun x y => x + y) s.d_a s.d_b).take j ++ s.d_c.drop j,
             calls := s.calls ++ [KokkosCall.parallel_for s.array_size] }
  have h0 : ({ s with calls := s.calls ++ [KokkosCall.parallel_for s.array_size] } :
      KOKKOSStream α) = f 0 := by
    simp [f]
  have hstep : ∀ j, j < s.array_size → KOKKOSStream.add_body j (f j) = .ok (f (j + 1)) := by
    intro j hj
    obtain ⟨va, hva⟩ := getElem_some_of_lt s.d_a j (by omega)
    obtain ⟨vb, hvb⟩ := getElem_some_of_lt s.d_b j (by omega)
    have hz : (List.zipWith (fun x y => x + y) s.d_a s.d_b)[j]? = some (va + vb) := by
      simp [List.getElem?_zipWith, hva, hvb]
    simp [KOKKOSStream.add_body, f, rd_eq_ok _ _ _ hva, rd_eq_ok _ _ _ hvb,
      wr_take_drop _ s.d_c j _ hz (by omega), bind, Except.bind, pure, Except.pure]
  have hrun := for_range_closed KOKKOSStream.add_body s.array_size f hstep
  simp only [KOKKOSStream.add, KOKKOSStream.parallel_for, h0, hrun, bind, Except.bind, pure,
    Except.pure]
  have hlen : (List.zipWith (fun x y => x + y) s.d_a s.d_b).length = s.array_size := by
    simp [List.length_zipWith, ha, hb]
  simp [f, KOKKOSStream.fence, take_append_drop_full _ _ _ hlen hc]

theorem kokkos_triad_run [Add α] [Mul α] (startScalar : α) (s : KOKKOSStream α)
    (ha : s.d_a.length = s.array_size) (hb : s.d_b.length = s.array_size)
    (hc : s.d_c.length = s.array_size) :
    s.triad startScalar =
      .ok { s with d_a := List.zipWith (fun x y => x + startScalar * y) s.d_b s.d_c,
                   calls := s.calls ++ [KokkosCall.parallel_for s.array_size,
                     KokkosCall.fence] } := by
  let f : Nat → KOKKOSStream α := fun j =>
    { s with d_a := (List.zipWith (fun x y => x + startScalar * y) s.d_b s.d_c).take j ++
               s.d_a.drop j,
             calls := s.calls ++ [KokkosCall.parallel_for s.array_size] }
  have h0 : ({ s with calls := s.calls ++ [KokkosCall.parallel_for s.array_size] } :
      KOKKOSStream α) = f 0 := by
    simp [f]
  have hstep : ∀ j, j < s.array_size →
      KOKKOSStream.triad_body startScalar j (f j) = .ok (f (j + 1)) := by
    intro j hj
    obtain ⟨vb, hvb⟩ := getElem_some_of_lt s.d_b j (by omega)
    obtain ⟨vc, hvc⟩ := getElem_some_of_lt s.d_c j (by omega)
    have hz : (List.zipWith (fun x y => x + startScalar * y) s.d_b s.d_c)[j]? =
        some (vb + startScalar * vc) := by
      simp [List.getElem?_zipWith, hvb, hvc]
    simp [KOKKOSStream.triad_body, f, rd_eq_ok _ _ _ hvb, rd_eq_ok _ _ _ hvc,
      wr_take_drop _ s.d_a j _ hz (by omega), bind, Except.bind, pure, Except.pure]
  have hrun := for_range_closed (KOKKOSStream.triad_body startScalar) s.array_size f hstep
  simp only [KOKKOSStream.triad, KOKKOSStream.parallel_for, h0, hrun, bind, Except.bind, pure,
    Except.pure]
  have hlen : (List.zipWith (fun x y => x + startScalar * y) s.d_b s.d_c).length =
      s.array_size := by
    simp [List.length_zipWith, hb, hc]
  simp [f, KOKKOSStream.fence, take_append_drop_full _ _ _ hlen ha]

theorem rd_getD {α : Type} (xs : List α) (i : Nat) (d : α) (h : i < xs.length) :
    rd xs i = .ok (xs.getD i d) := by
  obtain ⟨v, hv⟩ := getElem_some_of_lt xs i h
  simp [rd, hv, List.getD_eq_getElem?_getD]

theorem kokkos_dot_run [Semiring α] (s : KOKKOSStream α)
    (ha : s.d_a.length = s.array_size) (hb : s.d_b.length = s.array_size) :
    s.dot =
      .ok (∑ i in Finset.range s.array_size, s.d_a.getD i 0 * s.d_b.getD i 0,
           { s with calls := s.calls ++ [KokkosCall.parallel_reduce s.array_size] }) := by
  let t : KOKKOSStream α :=
    { s with calls := s.calls ++ [KokkosCall.parallel_reduce s.array_size] }
  let f : Nat → α := fun j => ∑ i in Finset.range j, s.d_a.getD i 0 * s.d_b.getD i 0
  have hstep : ∀ j, j < s.array_size → KOKKOSStream.dot_body t j (f j) = .ok (f (j + 1)) := by
    intro j hj
    simp [KOKKOSStream.dot_body, f, t, rd_getD s.d_a j 0 (by omega), rd_getD s.d_b j 0 (by omega),
      Finset.sum_range_succ, bind, Except.bind, pure, Except.pure]
  have hrun := for_range_closed (KOKKOSStream.dot_body t) s.array_size f hstep
  have h0 : f 0 = 0 := by simp [f]
  rw [h0] at hrun
  simp only [t] at hrun
  simp only [KOKKOSStream.dot, hrun, bind, Except.bind, pure, Except.pure, f]

end KokkosRuns

/-! ## The OpenMP kernels on arrays of at most `INT_MAX` elements -/

section OMPRuns

variable {α : Type}

theorem target_update_from_empty (host dev : List α) :
    target_update_from host dev 0 0 = .ok host := by
  simp [target_update_from]

theorem target_update_from_full (host dev : List α) (n : Nat)
    (hh : host.length = n) (hd : dev.length = n) :
    target_update_from host dev 0 n = .ok dev := by
  simp [target_update_from, hh, hd, List.take_of_length_le (le_of_eq hd),
    List.drop_of_length_le (le_of_eq hh)]

theorem omp_update_a_empty (cfg : Build) (s : OMPStream α) : s.update_a_empty cfg = .ok s := by
  unfold OMPStream.update_a_empty
  split
  · simp [target_update_from_empty, bind, Except.bind, pure, Except.pure]
  · rfl

theorem omp_update_c_empty (cfg : Build) (s : OMPStream α) : s.update_c_empty cfg = .ok s := by
  unfold OMPStream.update_c_empty
  split
  · simp [target_update_from_empty, bind, Except.bind, pure, Except.pure]
  · rfl

theorem omp_copy_run (cfg : Build) (s : OMPStream α) (hN : s.array_size ≤ INT_MAX)
    (ha : s.dev_a.length = s.array_size) (hc : s.dev_c.length = s.array_size) :
    s.copy cfg = .ok { s with dev_c := s.dev_a } := by
  let f : Nat → OMPStream α := fun j =>
    { s with dev_c := s.dev_a.take j ++ s.dev_c.drop j }
  have h0 : s = f 0 := by
    simp [f]
  have hstep : ∀ j, j < s.array_size → OMPStream.copy_body j (f j) = .ok (f (j + 1)) := by
    intro j hj
    obtain ⟨v, hv⟩ := getElem_some_of_lt s.dev_a j (by omega)
    simp [OMPStream.copy_body, f, rd_eq_ok _ _ _ hv,
      wr_take_drop s.dev_a s.dev_c j v hv (by omega), bind, Except.bind, pure, Except.pure]
  have hrun := for_range_closed OMPStream.copy_body s.array_size f hstep
  rw [← h0] at hrun
  simp only [OMPStream.copy, for_int_eq_for_range _ _ hN, hrun, bind, Except.bind,
    omp_update_a_empty]
  simp [f, take_append_drop_full _ _ _ ha hc]

theorem omp_init_arrays_run_aux (cfg : Build) (s : OMPStream α) (initA initB initC : α)
    (ra rb rc : List α) (hN : s.array_size ≤ INT_MAX)
    (ha : s.dev_a.length = s.array_size) (hb : s.dev_b.length = s.array_size)
    (hc : s.dev_c.length = s.array_size)
    (hra : ra.length = s.array_size) (hrb : rb.length = s.array_size)
    (hrc : rc.length = s.array_size)
    (ga : ∀ j, j < s.array_size → ra[j]? = some initA)
    (gb : ∀ j, j < s.array_size → rb[j]? = some initB)
    (gc : ∀ j, j < s.array_size → rc[j]? = some initC) :
    s.init_arrays cfg initA initB initC =
      .ok { s with dev_a := ra, dev_b := rb, dev_c := rc } := by
  let f : Nat → OMPStream α := fun j =>
    { s with dev_a := ra.take j ++ s.dev_a.drop j,
             dev_b := rb.take j ++ s.dev_b.drop j,
             dev_c := rc.take j ++ s.dev_c.drop j }
  have h0 : s = f 0 := by
    simp [f]
  have hstep : ∀ j, j < s.array_size →
      OMPStream.init_arrays_body initA initB initC j (f j) = .ok (f (j + 1)) := by
    intro j hj
    simp [OMPStream.init_arrays_body, f,
      wr_take_drop ra s.dev_a j initA (ga j hj) (by omega),
      wr_take_drop rb s.dev_b j initB (gb j hj) (by omega),
      wr_take_drop rc s.dev_c j initC (gc j hj) (by omega), bind, Except.bind, pure, Except.pure]
  have hrun := for_range_closed (OMPStream.init_arrays_body initA initB initC)
    s.array_size f hstep
  rw [← h0] at hrun
  simp only [OMPStream.init_arrays, for_int_eq_for_range _ _ hN, hrun, bind, Except.bind,
    omp_update_a_empty]
  simp [f, take_append_drop_full _ _ _ hra ha,
    take_append_drop_full _ _ _ hrb hb, take_append_drop_full _ _ _ hrc hc]

theorem omp_init_arrays_run (cfg : Build) (s : OMPStream α) (initA initB initC : α)
    (hN : s.array_size ≤ INT_MAX)
    (ha : s.dev_a.length = s.array_size) (hb : s.dev_b.length = s.array_size)
    (hc : s.dev_c.length = s.array_size) :
    s.init_arrays cfg initA initB initC =
      .ok { s with dev_a := List.replicate s.array_size initA,
                   dev_b := List.replicate s.array_size initB,
                   dev_c := List.replicate s.array_size initC } :=
  omp_init_arrays_run_aux cfg s initA initB initC _ _ _ hN ha hb hc
    (List.length_replicate _ _) (List.length_replicate _ _) (List.length_replicate _ _)
    (fun j hj => getElem_replicate_some _ j initA hj)
    (fun j hj => getElem_replicate_some _ j initB hj)
    (fun j hj => getElem_replicate_some _ j initC hj)

theorem omp_read_arrays_run (s : OMPStream α) (h_a h_b h_c : List α) (hs : s.WF)
    (hN : s.array_size ≤ INT_MAX)
    (ha : h_a.length = s.array_size) (hb : h_b.length = s.array_size)
    (hc : h_c.length = s.array_size) :
    s.read_arrays h_a h_b h_c =
      .ok ({ s with a := s.dev_a, b := s.dev_b, c := s.dev_c }, s.dev_a, s.dev_b, s.dev_c) := by
  obtain ⟨hha, hhb, hhc, hda, hdb, hdc⟩ := hs
  let t : OMPStream α := { s with a := s.dev_a, b := s.dev_b, c := s.dev_c }
  let f : Nat → List α × List α × List α := fun j =>
    (s.dev_a.take j ++ h_a.drop j, s.dev_b.take j ++ h_b.drop j, s.dev_c.take j ++ h_c.drop j)
  have h0 : (h_a, h_b, h_c) = f 0 := by
    simp [f]
  have hstep : ∀ j, j < s.array_size → OMPStream.read_arrays_body t j (f j) = .ok (f (j + 1)) := by
    intro j hj
    obtain ⟨va, hva⟩ := getElem_some_of_lt s.dev_a j (lt_of_lt_of_eq hj hda.symm)
    obtain ⟨vb, hvb⟩ := getElem_some_of_lt s.dev_b j (lt_of_lt_of_eq hj hdb.symm)
    obtain ⟨vc, hvc⟩ := getElem_some_of_lt s.dev_c j (lt_of_lt_of_eq hj hdc.symm)
    rw [omp_read_arrays_body_ok t j (f j) va vb vc hva hvb hvc
      (length_take_append_drop _ _ _ j hda ha hj) (length_take_append_drop _ _ _ j hdb hb hj)
      (length_take_append_drop _ _ _ j hdc hc hj)]
    simp only [f, set_take_drop _ h_a j va hva (lt_of_lt_of_eq hj ha.symm),
      set_take_drop _ h_b j vb hvb (lt_of_lt_of_eq hj hb.symm),
      set_take_drop _ h_c j vc hvc (lt_of_lt_of_eq hj hc.symm)]
  have hrun := for_range_closed (OMPStream.read_arrays_body t) s.array_size f hstep
  have hloop : for_int s.array_size (OMPStream.read_arrays_body t) INT_RANGE 0 (h_a, h_b, h_c) =
      .ok (s.dev_a, s.dev_b, s.dev_c) := by
    rw [for_int_eq_for_range _ _ hN, h0, hrun]
    simp [f, take_append_drop_full _ _ _ hda ha, take_append_drop_full _ _ _ hdb hb,
      take_append_drop_full _ _ _ hdc hc]
  simp only [OMPStream.read_arrays, target_update_from_full _ _ _ hha hda,
    target_update_from_full _ _ _ hhb hdb, target_update_from_full _ _ _ hhc hdc,
    bind, Except.bind, pure, Except.pure]
  have hloop2 := hloop
  simp only [t] at hloop2
  simp only [hloop2]

theorem omp_mul_run [Mul α] (startScalar : α) (cfg : Build) (s : OMPStream α)
    (hN : s.array_size ≤ INT_MAX)
    (hb : s.dev_b.length = s.array_size) (hc : s.dev_c.length = s.array_size) :
    s.mul startScalar cfg =
      .ok { s with dev_b := s.dev_c.map (fun v => startScalar * v) } := by
  let f : Nat → OMPStream α := fun j =>
    { s with dev_b := (s.dev_c.map (fun v => startScalar * v)).take j ++ s.dev_b.drop j }
  have h0 : s = f 0 := by
    simp [f]
  have hstep : ∀ j, j < s.array_size →
      OMPStream.mul_body startScalar j (f j) = .ok (f (j + 1)) := by
    intro j hj
    obtain ⟨v, hv⟩ := getElem_some_of_lt s.dev_c j (by omega)
    have hm : (s.dev_c.map (fun v => startScalar * v))[j]? = some (startScalar * v) := by
      simp [List.getElem?_map, hv]
    simp [OMPStream.mul_body, f, rd_eq_ok _ _ _ hv,
      wr_take_drop _ s.dev_b j _ hm (by omega), bind, Except.bind, pure, Except.pure]
  have hrun := for_range_closed (OMPStream.mul_body startScalar) s.array_size f hstep
  rw [← h0] at hrun
  simp only [OMPStream.mul, for_int_eq_for_range _ _ hN, hrun, bind, Except.bind,
    omp_update_c_empty]
  simp [f, take_append_drop_full _ _ _ ((List.length_map _ _).trans hc) hb]

theorem omp_add_run [Add α] (cfg : Build) (s : OMPStream α) (hN : s.array_size ≤ INT_MAX)
    (ha : s.dev_a.length = s.array_size) (hb : s.dev_b.length = s.array_size)
    (hc : s.dev_c.length = s.array_size) :
    s.add cfg = .ok { s with dev_c := List.zipWith (fun x y => x + y) s.dev_a s.dev_b } := by
  let f : Nat → OMPStream α := fun j =>
    { s with dev_c := (List.zipWith (fun x y => x + y) s.dev_a s.dev_b).take j ++
        s.dev_c.drop j }
  have h0 : s = f 0 := by
    simp [f]
  have hstep : ∀ j, j < s.array_size → OMPStream.add_body j (f j) = .ok (f (j + 1)) := by
    intro j hj
    obtain ⟨va, hva⟩ := getElem_some_of_lt s.dev_a j (by omega)
    obtain ⟨vb, hvb⟩ := getElem_some_of_lt s.dev_b j (by omega)
    have hz : (List.zipWith (fun x y => x + y) s.dev_a s.dev_b)[j]? = some (va + vb) := by
      simp [List.getElem?_zipWith, hva, hvb]
    simp [OMPStream.add_body, f, rd_eq_ok _ _ _ hva, rd_eq_ok _ _ _ hvb,
      wr_take_drop _ s.dev_c j _ hz (by omega), bind, Except.bind, pure, Except.pure]
  have hrun := for_range_closed OMPStream.add_body s.array_size f hstep
  rw [← h0] at hrun
  simp only [OMPStream.add, for_int_eq_for_range _ _ hN, hrun, bind, Except.bind,
    omp_update_a_empty]
  have hlen : (List.zipWith (fun x y => x + y) s.dev_a s.dev_b).length = s.array_size := by
    simp [List.length_zipWith, ha, hb]
  simp [f, take_append_drop_full _ _ _ hlen hc]

theorem omp_triad_run [Add α] [Mul α] (startScalar : α) (cfg : Build) (s : OMPStream α)
    (hN : s.array_size ≤ INT_MAX)
    (ha : s.dev_a.length = s.array_size) (hb : s.dev_b.length = s.array_size)
    (hc : s.dev_c.length = s.array_size) :
    s.triad startScalar cfg =
      .ok { s with dev_a := List.zipWith (fun x y => x + startScalar * y) s.dev_b s.dev_c } := by
  let f : Nat → OMPStream α := fun j =>
    { s with dev_a := (List.zipWith (fun x y => x + startScalar * y) s.dev_b s.dev_c).take j ++
        s.dev_a.drop j }
  have h0 : s = f 0 := by
    simp [f]
  have hstep : ∀ j, j < s.array_size →
      OMPStream.triad_body startScalar j (f j) = .ok (f (j + 1)) := by
    intro j hj
    obtain ⟨vb, hvb⟩ := getElem_some_of_lt s.dev_b j (by omega)
    obtain ⟨vc, hvc⟩ := getElem_some_of_lt s.dev_c j (by omega)
    have hz : (List.zipWith (fun x y => x + startScalar * y) s.dev_b s.dev_c)[j]? =
        some (vb + startScalar * vc) := by
      simp [List.getElem?_zipWith, hvb, hvc]
    simp [OMPStream.triad_body, f, rd_eq_ok _ _ _ hvb, rd_eq_ok _ _ _ hvc,
      wr_take_drop _ s.dev_a j _ hz (by omega), bind, Except.bind, pure, Except.pure]
  have hrun := for_range_closed (OMPStream.triad_body startScalar) s.array_size f hstep
  rw [← h0] at hrun
  simp only [OMPStream.triad, for_int_eq_for_range _ _ hN, hrun, bind, Except.bind,
    omp_update_a_empty]
  have hlen : (List.zipWith (fun x y => x + startScalar * y) s.dev_b s.dev_c).length =
      s.array_size := by
    simp [List.length_zipWith, hb, hc]
  simp [f, take_append_drop_full _ _ _ hlen ha]

theorem omp_dot_run [Semiring α] (s : OMPStream α) (hN : s.array_size ≤ INT_MAX)
    (ha : s.dev_a.length = s.array_size) (hb : s.dev_b.length = s.array_size) :
    s.dot = .ok (∑ i in Finset.range s.array_size, s.dev_a.getD i 0 * s.dev_b.getD i 0, s) := by
  let f : Nat → α := fun j => ∑ i in Finset.range j, s.dev_a.getD i 0 * s.dev_b.getD i 0
  have hstep : ∀ j, j < s.array_size → OMPStream.dot_body s j (f j) = .ok (f (j + 1)) := by
    intro j hj
    simp [OMPStream.dot_body, f, rd_getD s.dev_a j 0 (by omega), rd_getD s.dev_b j 0 (by omega),
      Finset.sum_range_succ, bind, Except.bind, pure, Except.pure]
  have hrun := for_range_closed (OMPStream.dot_body s) s.array_size f hstep
  have h0 : f 0 = 0 := by simp [f]
  rw [h0] at hrun
  simp only [OMPStream.dot, for_int_eq_for_range _ _ hN, hrun, bind, Except.bind, pure,
    Except.pure, f]

end OMPRuns

/-! ## Arrays of more than `INT_MAX` elements: the `int` counter overflows -/

section Overflow

variable {α : Type}

theorem length_fresh (n : Nat) (junk : Nat → α) : (fresh n junk).length = n := by
  simp [fresh]

theorem omp_init_arrays_overflow (cfg : Build) (s : OMPStream α) (initA initB initC : α)
    (hN : INT_MAX < s.array_size)
    (ha : s.dev_a.length = s.array_size) (hb : s.dev_b.length = s.array_size)
    (hc : s.dev_c.length = s.array_size) :
    s.init_arrays cfg initA initB initC = .error .signedOverflow := by
  have h := for_int_overflow s.array_size (OMPStream.init_arrays_body initA initB initC)
    (fun t => t.dev_a.length = s.array_size ∧ t.dev_b.length = s.array_size ∧
      t.dev_c.length = s.array_size) hN
    (by
      intro i t hi ht
      obtain ⟨h1, h2, h3⟩ := ht
      simp only [OMPStream.init_arrays_body, wr_ok t.dev_a i initA (by omega),
        wr_ok t.dev_b i initB (by omega), wr_ok t.dev_c i initC (by omega), bind, Except.bind,
        pure, Except.pure]
      exact ⟨_, rfl, by simp [h1, h2, h3]⟩)
    s ⟨ha, hb, hc⟩
  simp only [OMPStream.init_arrays, h, bind, Except.bind]

theorem omp_copy_overflow (cfg : Build) (s : OMPStream α) (hN : INT_MAX < s.array_size)
    (ha : s.dev_a.length = s.array_size) (hc : s.dev_c.length = s.array_size) :
    s.copy cfg = .error .signedOverflow := by
  have h := for_int_overflow s.array_size OMPStream.copy_body
    (fun t => t.dev_a.length = s.array_size ∧ t.dev_c.length = s.array_size) hN
    (by
      intro i t hi ht
      obtain ⟨h1, h2⟩ := ht
      obtain ⟨v, hv⟩ := getElem_some_of_lt t.dev_a i (by omega)
      simp only [OMPStream.copy_body, rd_eq_ok _ _ _ hv, wr_ok t.dev_c i v (by omega), bind,
        Except.bind, pure, Except.pure]
      exact ⟨_, rfl, by simp [h1, h2]⟩)
    s ⟨ha, hc⟩
  simp only [OMPStream.copy, h, bind, Except.bind]

theorem omp_mul_overflow [Mul α] (startScalar : α) (cfg : Build) (s : OMPStream α)
    (hN : INT_MAX < s.array_size)
    (hb : s.dev_b.length = s.array_size) (hc : s.dev_c.length = s.array_size) :
    s.mul startScalar cfg = .error .signedOverflow := by
  have h := for_int_overflow s.array_size (OMPStream.mul_body startScalar)
    (fun t => t.dev_b.length = s.array_size ∧ t.dev_c.length = s.array_size) hN
    (by
      intro i t hi ht
      obtain ⟨h1, h2⟩ := ht
      obtain ⟨v, hv⟩ := getElem_some_of_lt t.dev_c i (by omega)
      simp only [OMPStream.mul_body, rd_eq_ok _ _ _ hv, wr_ok t.dev_b i _ (by omega), bind,
        Except.bind, pure, Except.pure]
      exact ⟨_, rfl, by simp [h1, h2]⟩)
    s ⟨hb, hc⟩
  simp only [OMPStream.mul, h, bind, Except.bind]

theorem omp_add_overflow [Add α] (cfg : Build) (s : OMPStream α) (hN : INT_MAX < s.array_size)
    (ha : s.dev_a.length = s.array_size) (hb : s.dev_b.length = s.array_size)
    (hc : s.dev_c.length = s.array_size) :
    s.add cfg = .error .signedOverflow := by
  have h := for_int_overflow s.array_size OMPStream.add_body
    (fun t => t.dev_a.length = s.array_size ∧ t.dev_b.length = s.array_size ∧
      t.dev_c.length = s.array_size) hN
    (by
      intro i t hi ht
      obtain ⟨h1, h2, h3⟩ := ht
      obtain ⟨va, hva⟩ := getElem_some_of_lt t.dev_a i (by omega)
      obtain ⟨vb, hvb⟩ := getElem_some_of_lt t.dev_b i (by omega)
      simp only [OMPStream.add_body, rd_eq_ok _ _ _ hva, rd_eq_ok _ _ _ hvb,
        wr_ok t.dev_c i _ (by omega), bind, Except.bind, pure, Except.pure]
      exact ⟨_, rfl, by simp [h1, h2, h3]⟩)
    s ⟨ha, hb, hc⟩
  simp only [OMPStream.add, h, bind, Except.bind]

theorem omp_triad_overflow [Add α] [Mul α] (startScalar : α) (cfg : Build) (s : OMPStream α)
    (hN : INT_MAX < s.array_size)
    (ha : s.dev_a.length = s.array_size) (hb : s.dev_b.length = s.array_size)
    (hc : s.dev_c.length = s.array_size) :
    s.triad startScalar cfg = .error .signedOverflow := by
  have h := for_int_overflow s.array_size (OMPStream.triad_body startScalar)
    (fun t => t.dev_a.length = s.array_size ∧ t.dev_b.length = s.array_size ∧
      t.dev_c.length = s.array_size) hN
    (by
      intro i t hi ht
      obtain ⟨h1, h2, h3⟩ := ht
      obtain ⟨vb, hvb⟩ := getElem_some_of_lt t.dev_b i (by omega)
      obtain ⟨vc, hvc⟩ := getElem_some_of_lt t.dev_c i (by omega)
      simp only [OMPStream.triad_body, rd_eq_ok _ _ _ hvb, rd_eq_ok _ _ _ hvc,
        wr_ok t.dev_a i _ (by omega), bind, Except.bind, pure, Except.pure]
      exact ⟨_, rfl, by simp [h1, h2, h3]⟩)
    s ⟨ha, hb, hc⟩
  simp only [OMPStream.triad, h, bind, Except.bind]

theorem omp_dot_overflow [Zero α] [Add α] [Mul α] (s : OMPStream α)
    (hN : INT_MAX < s.array_size)
    (ha : s.dev_a.length = s.array_size) (hb : s.dev_b.length = s.array_size) :
    s.dot = .error .signedOverflow := by
  have h := for_int_overflow s.array_size (OMPStream.dot_body s) (fun _ => True) hN
    (by
      intro i t hi _
      obtain ⟨va, hva⟩ := getElem_some_of_lt s.dev_a i (by omega)
      obtain ⟨vb, hvb⟩ := getElem_some_of_lt s.dev_b i (by omega)
      simp only [OMPStream.dot_body, rd_eq_ok _ _ _ hva, rd_eq_ok _ _ _ hvb, bind,
        Except.bind, pure, Except.pure]
      exact ⟨_, rfl, trivial⟩)
    0 trivial
  simp only [OMPStream.dot, h, bind, Except.bind]

theorem omp_read_arrays_overflow (s : OMPStream α) (h_a h_b h_c : List α) (hs : s.WF)
    (hN : INT_MAX < s.array_size)
    (ha : h_a.length = s.array_size) (hb : h_b.length = s.array_size)
    (hc : h_c.length = s.array_size) :
    s.read_arrays h_a h_b h_c = .error .signedOverflow := by
  obtain ⟨hha, hhb, hhc, hda, hdb, hdc⟩ := hs
  have h := for_int_overflow s.array_size
    (OMPStream.read_arrays_body { s with a := s.dev_a, b := s.dev_b, c := s.dev_c })
    (fun out => out.1.length = s.array_size ∧ out.2.1.length = s.array_size ∧
      out.2.2.length = s.array_size) hN
    (by
      intro i out hi ho
      obtain ⟨h1, h2, h3⟩ := ho
      obtain ⟨va, hva⟩ := getElem_some_of_lt s.dev_a i (lt_of_lt_of_eq hi hda.symm)
      obtain ⟨vb, hvb⟩ := getElem_some_of_lt s.dev_b i (lt_of_lt_of_eq hi hdb.symm)
      obtain ⟨vc, hvc⟩ := getElem_some_of_lt s.dev_c i (lt_of_lt_of_eq hi hdc.symm)
      exact ⟨_, omp_read_arrays_body_ok _ i out va vb vc hva hvb hvc (lt_of_lt_of_eq hi h1.symm)
        (lt_of_lt_of_eq hi h2.symm) (lt_of_lt_of_eq hi h3.symm),
        by simp only [List.length_set]; exact ⟨h1, h2, h3⟩⟩)
    (h_a, h_b, h_c) ⟨ha, hb, hc⟩
  simp only [OMPStream.read_arrays, target_update_from_full _ _ _ hha hda,
    target_update_from_full _ _ _ hhb hdb, target_update_from_full _ _ _ hhc hdc,
    bind, Except.bind, pure, Except.pure]
  simp only [h]

theorem kokkos_read_arrays_overflow (s : KOKKOSStream α) (a b c : List α) (hs : s.WF)
    (hN : INT_MAX < s.array_size)
    (ha : a.length = s.array_size) (hb : b.length = s.array_size)
    (hc : c.length = s.array_size) :
    s.read_arrays a b c = .error .signedOverflow := by
  obtain ⟨hda, hdb, hdc, hha, hhb, hhc⟩ := hs
  have h := for_int_overflow s.array_size
    (KOKKOSStream.read_arrays_body
      { s with hm_a := s.d_a, hm_b := s.d_b, hm_c := s.d_c,
               calls := s.calls ++ [KokkosCall.deep_copy, KokkosCall.deep_copy,
                 KokkosCall.deep_copy] })
    (fun out => out.1.length = s.array_size ∧ out.2.1.length = s.array_size ∧
      out.2.2.length = s.array_size) hN
    (by
      intro i out hi ho
      obtain ⟨h1, h2, h3⟩ := ho
      obtain ⟨va, hva⟩ := getElem_some_of_lt s.d_a i (lt_of_lt_of_eq hi hda.symm)
      obtain ⟨vb, hvb⟩ := getElem_some_of_lt s.d_b i (lt_of_lt_of_eq hi hdb.symm)
      obtain ⟨vc, hvc⟩ := getElem_some_of_lt s.d_c i (lt_of_lt_of_eq hi hdc.symm)
      exact ⟨_, kokkos_read_arrays_body_ok _ i out va vb vc hva hvb hvc (lt_of_lt_of_eq hi h1.symm)
        (lt_of_lt_of_eq hi h2.symm) (lt_of_lt_of_eq hi h3.symm),
        by simp only [List.length_set]; exact ⟨h1, h2, h3⟩⟩)
    (a, b, c) ⟨ha, hb, hc⟩
  have hd1 : deep_copy s.hm_a s.d_a = .ok s.d_a := by simp [deep_copy, hha, hda]
  have hd2 : deep_copy s.hm_b s.d_b = .ok s.d_b := by simp [deep_copy, hhb, hdb]
  have hd3 : deep_copy s.hm_c s.d_c = .ok s.d_c := by simp [deep_copy, hhc, hdc]
  simp only [KOKKOSStream.read_arrays, hd1, hd2, hd3, bind, Except.bind, pure, Except.pure]
  simp only [h]

end Overflow

/-! ## Consequences for the operations as a whole -/

section Wholes

variable {α : Type}

theorem kokkos_new_wf (N : Nat) (device_index : Int) (junk : Nat → Nat → α) :
    ∃ s, KOKKOSStream.new N device_index junk = .ok s ∧ s.WF ∧ s.array_size = N := by
  refine ⟨_, rfl, ?_, rfl⟩
  simp [KOKKOSStream.WF, length_fresh]

theorem omp_new_wf (N : Nat) (device : Int) (junk : Nat → Nat → α) :
    ∃ s, OMPStream.new N device junk = .ok s ∧ s.WF ∧ s.array_size = N := by
  refine ⟨_, rfl, ?_, rfl⟩
  simp [OMPStream.WF, length_fresh]

/-- Within the range of `int`, `init_arrays` followed by `read_arrays` hands the three
constant sequences to the caller (Kokkos backend). -/
theorem kokkos_init_then_read (N : Nat) (device_index : Int) (junk : Nat → Nat → α)
    (x y z : α) (a b c : List α) (hN : N ≤ INT_MAX)
    (ha : a.length = N) (hb : b.length = N) (hc : c.length = N) :
    (do
      let s ← KOKKOSStream.new N device_index junk
      let s ← s.init_arrays x y z
      let r ← s.read_arrays a b c
      pure r.2) = .ok (List.replicate N x, List.replicate N y, List.replicate N z) := by
  simp only [KOKKOSStream.new, bind, Except.bind]
  rw [kokkos_init_arrays_run _ x y z (length_fresh _ _) (length_fresh _ _) (length_fresh _ _)]
  simp only []
  rw [kokkos_read_arrays_run _ a b c (by simp [KOKKOSStream.WF, length_fresh]) hN ha hb hc]
  rfl

/-- Within the range of `int`, `init_arrays` followed by `read_arrays` hands the three
constant sequences to the caller (OpenMP backend). -/
theorem omp_init_then_read (cfg : Build) (N : Nat) (device : Int) (junk : Nat → Nat → α)
    (x y z : α) (h_a h_b h_c : List α) (hN : N ≤ INT_MAX)
    (ha : h_a.length = N) (hb : h_b.length = N) (hc : h_c.length = N) :
    (do
      let s ← OMPStream.new N device junk
      let s ← s.init_arrays cfg x y z
      let r ← s.read_arrays h_a h_b h_c
      pure r.2) = .ok (List.replicate N x, List.replicate N y, List.replicate N z) := by
  simp only [OMPStream.new, bind, Except.bind]
  rw [omp_init_arrays_run cfg _ x y z hN (length_fresh _ _) (length_fresh _ _)
    (length_fresh _ _)]
  simp only []
  rw [omp_read_arrays_run _ h_a h_b h_c (by simp [OMPStream.WF, length_fresh]) hN ha hb hc]
  rfl

theorem sum_ones [Semiring α] (N : Nat) :
    ∑ i in Finset.range N, (List.replicate N (1 : α)).getD i 0 *
      (List.replicate N (1 : α)).getD i 0 = (N : α) := by
  have h : ∀ i ∈ Finset.range N, (List.replicate N (1 : α)).getD i 0 *
      (List.replicate N (1 : α)).getD i 0 = 1 := by
    intro i hi
    have hi2 : i < N := Finset.mem_range.mp hi
    simp [List.getD_eq_getElem?_getD, List.getElem?_replicate, hi2]
  rw [Finset.sum_congr rfl h]
  simp

/-- After `init_arrays(1, 1, 1)` the Kokkos `dot` returns the array size. -/
theorem kokkos_dot_ones [Semiring α] (s : KOKKOSStream α)
    (ha : s.d_a.length = s.array_size) (hb : s.d_b.length = s.array_size)
    (hc : s.d_c.length = s.array_size) :
    (do
      let t ← s.init_arrays 1 1 1
      let r ← t.dot
      pure r.1) = .ok (s.array_size : α) := by
  rw [kokkos_init_arrays_run s 1 1 1 ha hb hc]
  simp only [bind, Except.bind]
  rw [kokkos_dot_run _ (by simp) (by simp)]
  simp only [pure, Except.pure, sum_ones]

/-- Within the range of `int`, after `init_arrays(1, 1, 1)` the OpenMP `dot` returns the
array size. -/
theorem omp_dot_ones [Semiring α] (cfg : Build) (s : OMPStream α)
    (hN : s.array_size ≤ INT_MAX)
    (ha : s.dev_a.length = s.array_size) (hb : s.dev_b.length = s.array_size)
    (hc : s.dev_c.length = s.array_size) :
    (do
      let t ← s.init_arrays cfg 1 1 1
      let r ← t.dot
      pure r.1) = .ok (s.array_size : α) := by
  rw [omp_init_arrays_run cfg s 1 1 1 hN ha hb hc]
  simp only [bind, Except.bind]
  have hd := omp_dot_run
    ({ s with dev_a := List.replicate s.array_size 1, dev_b := List.replicate s.array_size 1,
              dev_c := List.replicate s.array_size 1 } : OMPStream α) hN (by simp) (by simp)
  rw [hd]
  simp only [pure, Except.pure, sum_ones]

end Wholes

/-! ## What each operation establishes on a well-formed backend -/

section Specs

variable {α : Type}

theorem omp_init_arrays_spec (cfg : Build) (s : OMPStream α) (x y z : α) (hs : s.WF)
    (hN : s.array_size ≤ INT_MAX) :
    ∃ t, s.init_arrays cfg x y z = .ok t ∧ t.WF ∧ t.array_size = s.array_size ∧
      t.dev_a = List.replicate s.array_size x ∧ t.dev_b = List.replicate s.array_size y ∧
      t.dev_c = List.replicate s.array_size z := by
  obtain ⟨h1, h2, h3, h4, h5, h6⟩ := hs
  refine ⟨_, omp_init_arrays_run cfg s x y z hN h4 h5 h6, ?_, rfl, rfl, rfl, rfl⟩
  exact ⟨h1, h2, h3, List.length_replicate _ _, List.length_replicate _ _,
    List.length_replicate _ _⟩

theorem omp_copy_spec (cfg : Build) (s : OMPStream α) (hs : s.WF)
    (hN : s.array_size ≤ INT_MAX) :
    ∃ t, s.copy cfg = .ok t ∧ t.WF ∧ t.array_size = s.array_size ∧
      t.dev_a = s.dev_a ∧ t.dev_b = s.dev_b ∧ t.dev_c = s.dev_a := by
  obtain ⟨h1, h2, h3, h4, h5, h6⟩ := hs
  exact ⟨_, omp_copy_run cfg s hN h4 h6, ⟨h1, h2, h3, h4, h5, h4⟩, rfl, rfl, rfl, rfl⟩

theorem omp_add_spec [Add α] (cfg : Build) (s : OMPStream α) (hs : s.WF)
    (hN : s.array_size ≤ INT_MAX) :
    ∃ t, s.add cfg = .ok t ∧ t.WF ∧ t.array_size = s.array_size ∧
      t.dev_a = s.dev_a ∧ t.dev_b = s.dev_b ∧
      t.dev_c = List.zipWith (fun x y => x + y) s.dev_a s.dev_b := by
  obtain ⟨h1, h2, h3, h4, h5, h6⟩ := hs
  refine ⟨_, omp_add_run cfg s hN h4 h5 h6, ⟨h1, h2, h3, h4, h5, ?_⟩, rfl, rfl, rfl, rfl⟩
  simp only [List.length_zipWith, h4, h5, min_self]

theorem omp_read_arrays_spec (s : OMPStream α) (h_a h_b h_c : List α) (hs : s.WF)
    (hN : s.array_size ≤ INT_MAX)
    (ha : h_a.length = s.array_size) (hb : h_b.length = s.array_size)
    (hc : h_c.length = s.array_size) :
    ∃ t, s.read_arrays h_a h_b h_c = .ok (t, s.dev_a, s.dev_b, s.dev_c) ∧ t.WF ∧
      t.array_size = s.array_size ∧ t.dev_a = s.dev_a ∧ t.dev_b = s.dev_b ∧
      t.dev_c = s.dev_c := by
  have hrun := omp_read_arrays_run s h_a h_b h_c hs hN ha hb hc
  obtain ⟨_, _, _, h4, h5, h6⟩ := hs
  exact ⟨_, hrun, ⟨h4, h5, h6, h4, h5, h6⟩, rfl, rfl, rfl, rfl⟩

theorem kokkos_init_arrays_spec (s : KOKKOSStream α) (x y z : α) (hs : s.WF) :
    ∃ t, s.init_arrays x y z = .ok t ∧ t.WF ∧ t.array_size = s.array_size ∧
      t.d_a = List.replicate s.array_size x ∧ t.d_b = List.replicate s.array_size y ∧
      t.d_c = List.replicate s.array_size z := by
  obtain ⟨h1, h2, h3, h4, h5, h6⟩ := hs
  refine ⟨_, kokkos_init_arrays_run s x y z h1 h2 h3, ?_, rfl, rfl, rfl, rfl⟩
  exact ⟨List.length_replicate _ _, List.length_replicate _ _, List.length_replicate _ _,
    h4, h5, h6⟩

theorem kokkos_copy_spec (s : KOKKOSStream α) (hs : s.WF) :
    ∃ t, s.copy = .ok t ∧ t.WF ∧ t.array_size = s.array_size ∧
      t.d_a = s.d_a ∧ t.d_b = s.d_b ∧ t.d_c = s.d_a := by
  obtain ⟨h1, h2, h3, h4, h5, h6⟩ := hs
  exact ⟨_, kokkos_copy_run s h1 h3, ⟨h1, h2, h1, h4, h5, h6⟩, rfl, rfl, rfl, rfl⟩

theorem kokkos_add_spec [Add α] (s : KOKKOSStream α) (hs : s.WF) :
    ∃ t, s.add = .ok t ∧ t.WF ∧ t.array_size = s.array_size ∧
      t.d_a = s.d_a ∧ t.d_b = s.d_b ∧
      t.d_c = List.zipWith (fun x y => x + y) s.d_a s.d_b := by
  obtain ⟨h1, h2, h3, h4, h5, h6⟩ := hs
  refine ⟨_, kokkos_add_run s h1 h2 h3, ⟨h1, h2, ?_, h4, h5, h6⟩, rfl, rfl, rfl, rfl⟩
  simp only [List.length_zipWith, h1, h2, min_self]

theorem kokkos_read_arrays_spec (s : KOKKOSStream α) (a b c : List α) (hs : s.WF)
    (hN : s.array_size ≤ INT_MAX)
    (ha : a.length = s.array_size) (hb : b.length = s.array_size)
    (hc : c.length = s.array_size) :
    ∃ t, s.read_arrays a b c = .ok (t, s.d_a, s.d_b, s.d_c) ∧ t.WF ∧
      t.array_size = s.array_size ∧ t.d_a = s.d_a ∧ t.d_b = s.d_b ∧ t.d_c = s.d_c := by
  have hrun := kokkos_read_arrays_run s a b c hs hN ha hb hc
  obtain ⟨h1, h2, h3, _, _, _⟩ := hs
  exact ⟨_, hrun, ⟨h1, h2, h3, h1, h2, h3⟩, rfl, rfl, rfl, rfl⟩

/-- Both backends, within the range of `int`: after `init_arrays(x, y, z)` and `copy`,
`read_arrays` returns C = A = [x] * N; after a following `add` it returns
C = A + B. -/
theorem omp_init_copy_add_reads [Add α] (cfg : Build) (N : Nat) (device : Int)
    (junk : Nat → Nat → α) (x y z : α) (h_a h_b h_c : List α) (hN : N ≤ INT_MAX)
    (ha : h_a.length = N) (hb : h_b.length = N) (hc : h_c.length = N) :
    (do
      let s ← OMPStream.new N device junk
      let s ← s.init_arrays cfg x y z
      let s ← s.copy cfg
      let r ← s.read_arrays h_a h_b h_c
      let t ← r.1.add cfg
      let r2 ← t.read_arrays r.2.1 r.2.2.1 r.2.2.2
      pure (r.2.2.2, r2.2.2.2)) =
      .ok (List.replicate N x,
        List.zipWith (fun x y => x + y) (List.replicate N x) (List.replicate N y)) := by
  obtain ⟨s0, e0, w0, n0⟩ := omp_new_wf N device junk
  obtain ⟨s1, e1, w1, n1, a1, b1, _⟩ := omp_init_arrays_spec cfg s0 x y z w0 (by omega)
  obtain ⟨s2, e2, w2, n2, a2, b2, c2⟩ := omp_copy_spec cfg s1 w1 (by omega)
  obtain ⟨s3, e3, w3, n3, a3, b3, c3⟩ := omp_read_arrays_spec s2 h_a h_b h_c w2 (by omega)
    (by omega) (by omega) (by omega)
  obtain ⟨s4, e4, w4, n4, a4, b4, c4⟩ := omp_add_spec cfg s3 w3 (by omega)
  obtain ⟨s5, e5, _⟩ := omp_read_arrays_spec s4 s2.dev_a s2.dev_b s2.dev_c w4 (by omega)
    (by rw [w2.2.2.2.1]; omega) (by rw [w2.2.2.2.2.1]; omega) (by rw [w2.2.2.2.2.2]; omega)
  simp only [e0, e1, e2, e3, e4, e5, bind, Except.bind, pure, Except.pure]
  rw [c4, a3, b3, c2, a2, b2, a1, b1, n0]

theorem kokkos_init_copy_add_reads [Add α] (N : Nat) (device : Int)
    (junk : Nat → Nat → α) (x y z : α) (a b c : List α) (hN : N ≤ INT_MAX)
    (ha : a.length = N) (hb : b.length = N) (hc : c.length = N) :
    (do
      let s ← KOKKOSStream.new N device junk
      let s ← s.init_arrays x y z
      let s ← s.copy
      let r ← s.read_arrays a b c
      let t ← r.1.add
      let r2 ← t.read_arrays r.2.1 r.2.2.1 r.2.2.2
      pure (r.2.2.2, r2.2.2.2)) =
      .ok (List.replicate N x,
        List.zipWith (fun x y => x + y) (List.replicate N x) (List.replicate N y)) := by
  obtain ⟨s0, e0, w0, n0⟩ := kokkos_new_wf N device junk
  obtain ⟨s1, e1, w1, n1, a1, b1, _⟩ := kokkos_init_arrays_spec s0 x y z w0
  obtain ⟨s2, e2, w2, n2, a2, b2, c2⟩ := kokkos_copy_spec s1 w1
  obtain ⟨s3, e3, w3, n3, a3, b3, c3⟩ := kokkos_read_arrays_spec s2 a b c w2 (by omega)
    (by omega) (by omega) (by omega)
  obtain ⟨s4, e4, w4, n4, a4, b4, c4⟩ := kokkos_add_spec s3 w3
  obtain ⟨s5, e5, _⟩ := kokkos_read_arrays_spec s4 s2.d_a s2.d_b s2.d_c w4 (by omega)
    (by rw [w2.1]; omega) (by rw [w2.2.1]; omega) (by rw [w2.2.2.1]; omega)
  simp only [e0, e1, e2, e3, e4, e5, bind, Except.bind, pure, Except.pure]
  rw [c4, a3, b3, c2, a2, b2, a1, b1, n0]

end Specs

/-! ## Fresh backends of more than `INT_MAX` elements -/

section FreshOverflow

variable {α : Type}

theorem omp_new_init_arrays_overflow (N : Nat) (hN : INT_MAX < N) (cfg : Build)
    (junk : Nat → Nat → α) (device : Int) (x y z : α) :
    (do
      let s ← OMPStream.new N device junk
      s.init_arrays cfg x y z) = .error .signedOverflow := by
  simp only [OMPStream.new, bind, Except.bind]
  exact omp_init_arrays_overflow cfg _ x y z hN (length_fresh _ _) (length_fresh _ _)
    (length_fresh _ _)

theorem kokkos_new_init_read_overflow (N : Nat) (hN : INT_MAX < N) (junk : Nat → Nat → α)
    (device : Int) (x y z : α) (a b c : List α)
    (ha : a.length = N) (hb : b.length = N) (hc : c.length = N) :
    (do
      let s ← KOKKOSStream.new N device junk
      let s ← s.init_arrays x y z
      let r ← s.read_arrays a b c
      pure r.2) = .error .signedOverflow := by
  simp only [KOKKOSStream.new, bind, Except.bind]
  rw [kokkos_init_arrays_run _ x y z (length_fresh _ _) (length_fresh _ _)
    (length_fresh _ _)]
  simp only []
  rw [kokkos_read_arrays_overflow _ a b c (by simp [KOKKOSStream.WF, length_fresh]) hN
    ha hb hc]

theorem omp_new_copy_overflow (N : Nat) (hN : INT_MAX < N) (cfg : Build)
    (junk : Nat → Nat → α) (device : Int) :
    (do
      let s ← OMPStream.new N device junk
      s.copy cfg) = .error .signedOverflow := by
  simp only [OMPStream.new, bind, Except.bind]
  exact omp_copy_overflow cfg _ hN (length_fresh _ _) (length_fresh _ _)

theorem omp_new_triad_overflow [Add α] [Mul α] (N : Nat) (hN : INT_MAX < N) (startScalar : α)
    (cfg : Build) (junk : Nat → Nat → α) (device : Int) :
    (do
      let s ← OMPStream.new N device junk
      s.triad startScalar cfg) = .error .signedOverflow := by
  simp only [OMPStream.new, bind, Except.bind]
  exact omp_triad_overflow startScalar cfg _ hN (length_fresh _ _) (length_fresh _ _)
    (length_fresh _ _)

theorem omp_new_mul_overflow [Mul α] (N : Nat) (hN : INT_MAX < N) (startScalar : α)
    (cfg : Build) (junk : Nat → Nat → α) (device : Int) :
    (do
      let s ← OMPStream.new N device junk
      s.mul startScalar cfg) = .error .signedOverflow := by
  simp only [OMPStream.new, bind, Except.bind]
  exact omp_mul_overflow startScalar cfg _ hN (length_fresh _ _) (length_fresh _ _)

theorem omp_new_add_overflow [Add α] (N : Nat) (hN : INT_MAX < N) (cfg : Build)
    (junk : Nat → Nat → α) (device : Int) :
    (do
      let s ← OMPStream.new N device junk
      s.add cfg) = .error .signedOverflow := by
  simp only [OMPStream.new, bind, Except.bind]
  exact omp_add_overflow cfg _ hN (length_fresh _ _) (length_fresh _ _) (length_fresh _ _)

theorem omp_new_dot_overflow [Zero α] [Add α] [Mul α] (N : Nat) (hN : INT_MAX < N)
    (junk : Nat → Nat → α) (device : Int) :
    (do
      let s ← OMPStream.new N device junk
      s.dot) = .error .signedOverflow := by
  simp only [OMPStream.new, bind, Except.bind]
  exact omp_dot_overflow _ hN (length_fresh _ _) (length_fresh _ _)

theorem omp_new_read_arrays_overflow (N : Nat) (hN : INT_MAX < N) (junk : Nat → Nat → α)
    (device : Int) (h_a h_b h_c : List α)
    (ha : h_a.length = N) (hb : h_b.length = N) (hc : h_c.length = N) :
    (do
      let s ← OMPStream.new N device junk
      s.read_arrays h_a h_b h_c) = .error .signedOverflow := by
  simp only [OMPStream.new, bind, Except.bind]
  exact omp_read_arrays_overflow _ _ _ _ (by simp [OMPStream.WF, length_fresh]) hN ha hb hc

theorem kokkos_new_read_arrays_overflow (N : Nat) (hN : INT_MAX < N) (junk : Nat → Nat → α)
    (device : Int) (a b c : List α)
    (ha : a.length = N) (hb : b.length = N) (hc : c.length = N) :
    (do
      let s ← KOKKOSStream.new N device junk
      s.read_arrays a b c) = .error .signedOverflow := by
  simp only [KOKKOSStream.new, bind, Except.bind]
  exact kokkos_read_arrays_overflow _ _ _ _ (by simp [KOKKOSStream.WF, length_fresh]) hN
    ha hb hc

theorem int_max_lt_hugeSize : INT_MAX < hugeSize := by decide

theorem int_max_lt_uint_max : INT_MAX < UINT_MAX := by decide

end FreshOverflow

/-! ## The claims C1 to C7 and C10 -/

section Claims

/-- C1: on a backend of 3000000000 elements `init_arrays` followed by `read_arrays` does
not deliver the three constant sequences. In the OpenMP backend the `int` counter of
`init_arrays` overflows; in the Kokkos backend `init_arrays` fills the arrays and the
`int` counter of `read_arrays` overflows. -/
theorem C1_init_read_overflows (α : Type) (cfg : Build) (junk : Nat → Nat → α)
    (device : Int) (x y z : α) (h_a h_b h_c : Nat → α) :
    (do
      let s ← OMPStream.new hugeSize device junk
      s.init_arrays cfg x y z) = .error .signedOverflow ∧
    (do
      let s ← KOKKOSStream.new hugeSize device junk
      let s ← s.init_arrays x y z
      let r ← s.read_arrays (fresh hugeSize h_a) (fresh hugeSize h_b) (fresh hugeSize h_c)
      pure r.2) = .error .signedOverflow :=
  ⟨omp_new_init_arrays_overflow hugeSize int_max_lt_hugeSize cfg junk device x y z,
    kokkos_new_init_read_overflow hugeSize int_max_lt_hugeSize junk device x y z _ _ _
      (length_fresh hugeSize h_a) (length_fresh hugeSize h_b) (length_fresh hugeSize h_c)⟩

/-- C2: on an OpenMP backend of 3000000000 elements `copy` does not copy A into C: the
`int` counter of its loop overflows at `INT_MAX`. -/
theorem C2_omp_copy_overflows (α : Type) (cfg : Build) (junk : Nat → Nat → α) (device : Int) :
    (do
      let s ← OMPStream.new hugeSize device junk
      s.copy cfg) = .error .signedOverflow :=
  omp_new_copy_overflow hugeSize int_max_lt_hugeSize cfg junk device

/-- C3: on an OpenMP backend of 3000000000 elements `triad` does not store
`B[i] + startScalar * C[i]` in A: the `int` counter of its loop overflows at `INT_MAX`. -/
theorem C3_omp_triad_overflows (α : Type) [Add α] [Mul α] (startScalar : α) (cfg : Build)
    (junk : Nat → Nat → α) (device : Int) :
    (do
      let s ← OMPStream.new hugeSize device junk
      s.triad startScalar cfg) = .error .signedOverflow :=
  omp_new_triad_overflow hugeSize int_max_lt_hugeSize startScalar cfg junk device

/-- C4: on an OpenMP backend of 3000000000 elements `mul` does not store
`startScalar * C[i]` in B: the `int` counter of its loop overflows at `INT_MAX`. -/
theorem C4_omp_mul_overflows (α : Type) [Mul α] (startScalar : α) (cfg : Build)
    (junk : Nat → Nat → α) (device : Int) :
    (do
      let s ← OMPStream.new hugeSize device junk
      s.mul startScalar cfg) = .error .signedOverflow :=
  omp_new_mul_overflow hugeSize int_max_lt_hugeSize startScalar cfg junk device

/-- C5: on an OpenMP backend of 3000000000 elements `add` does not store `A[i] + B[i]`
in C: the `int` counter of its loop overflows at `INT_MAX`. -/
theorem C5_omp_add_overflows (α : Type) [Add α] (cfg : Build) (junk : Nat → Nat → α)
    (device : Int) :
    (do
      let s ← OMPStream.new hugeSize device junk
      s.add cfg) = .error .signedOverflow :=
  omp_new_add_overflow hugeSize int_max_lt_hugeSize cfg junk device

/-- C6: on an OpenMP backend of 3000000000 elements `dot` does not return the sum of the
products `A[i] * B[i]`: the `int` counter of its loop overflows at `INT_MAX`. -/
theorem C6_omp_dot_overflows (α : Type) [Zero α] [Add α] [Mul α] (junk : Nat → Nat → α)
    (device : Int) :
    (do
      let s ← OMPStream.new hugeSize device junk
      s.dot) = .error .signedOverflow :=
  omp_new_dot_overflow hugeSize int_max_lt_hugeSize junk device

/-- C7, as stated, fails: on a backend of 4 elements initialised with (1, 2, 3), the C
that `read_arrays` returns after `copy` is not [3, 3, 3, 3], in either backend. -/
theorem C7_copy_does_not_give_threes :
    (do
      let s ← OMPStream.new 4 0 zeroJunk
      let s ← s.init_arrays hostBuild 1 2 3
      let s ← s.copy hostBuild
      let r ← s.read_arrays [0, 0, 0, 0] [0, 0, 0, 0] [0, 0, 0, 0]
      pure r.2.2.2) ≠ .ok [3, 3, 3, 3] ∧
    (do
      let s ← KOKKOSStream.new 4 0 zeroJunk
      let s ← s.init_arrays 1 2 3
      let s ← s.copy
      let r ← s.read_arrays [0, 0, 0, 0] [0, 0, 0, 0] [0, 0, 0, 0]
      pure r.2.2.2) ≠ .ok [3, 3, 3, 3] := by
  decide

/-- C7, amended: on a backend of 4 elements initialised with (1, 2, 3), whatever the
memory held before, `read_arrays` after `copy` returns C = [1, 1, 1, 1] (the value of
A), and `read_arrays` after a following `add` returns C = [3, 3, 3, 3]; in both
backends. -/
theorem C7_copy_then_add (cfg : Build) (junk : Nat → Nat → ℤ) (device : Int) :
    (do
      let s ← OMPStream.new 4 device junk
      let s ← s.init_arrays cfg 1 2 3
      let s ← s.copy cfg
      let r ← s.read_arrays [0, 0, 0, 0] [0, 0, 0, 0] [0, 0, 0, 0]
      let t ← r.1.add cfg
      let r2 ← t.read_arrays r.2.1 r.2.2.1 r.2.2.2
      pure (r.2.2.2, r2.2.2.2)) = .ok ([1, 1, 1, 1], [3, 3, 3, 3]) ∧
    (do
      let s ← KOKKOSStream.new 4 device junk
      let s ← s.init_arrays 1 2 3
      let s ← s.copy
      let r ← s.read_arrays [0, 0, 0, 0] [0, 0, 0, 0] [0, 0, 0, 0]
      let t ← r.1.add
      let r2 ← t.read_arrays r.2.1 r.2.2.1 r.2.2.2
      pure (r.2.2.2, r2.2.2.2)) = .ok ([1, 1, 1, 1], [3, 3, 3, 3]) :=
  ⟨omp_init_copy_add_reads cfg 4 device junk 1 2 3 _ _ _ (by decide) rfl rfl rfl,
    kokkos_init_copy_add_reads 4 device junk 1 2 3 _ _ _ (by decide) rfl rfl rfl⟩

/-- C10, as stated, fails: with a single device, index 5 is out of range, yet both
constructors succeed, and the Kokkos backend is the very one built for index 0. -/
theorem C10_out_of_range_device_accepted :
    ¬ deviceInRange 1 5 ∧
    (∃ s, KOKKOSStream.new 4 5 zeroJunk = .ok s) ∧
    KOKKOSStream.new 4 5 zeroJunk = KOKKOSStream.new 4 0 zeroJunk ∧
    (∃ t, OMPStream.new 4 5 zeroJunk = .ok t) :=
  ⟨by decide, ⟨_, rfl⟩, rfl, ⟨_, rfl⟩⟩

/-- C10, amended: neither constructor checks the device index. For every array size and
every device index, in range or not, both constructors succeed; the Kokkos
constructor ignores the index, so it builds the backend it builds for index 0; the
OpenMP constructor makes the index the default device of the runtime, unchanged. -/
theorem C10_constructors_do_not_check_device (α : Type) (ARRAY_SIZE : Nat) (device : Int)
    (junk : Nat → Nat → α) :
    (∃ s, KOKKOSStream.new ARRAY_SIZE device junk = .ok s) ∧
    KOKKOSStream.new ARRAY_SIZE device junk = KOKKOSStream.new ARRAY_SIZE 0 junk ∧
    (∃ t, OMPStream.new ARRAY_SIZE device junk = .ok t ∧ t.default_device = device) :=
  ⟨⟨_, rfl⟩, rfl, ⟨_, rfl, rfl⟩⟩

end Claims

/-! ## The indices a counted loop visits -/

theorem visit_within_int (N : Nat) (hN : N ≤ INT_MAX) :
    for_int N visit INT_RANGE 0 [] = .ok (List.range N) := by
  rw [for_int_eq_for_range N visit hN]
  have h := for_range_closed visit N (fun j => List.range j)
    (by intro j _; simp only [visit, List.range_succ])
  simpa using h

theorem visit_overflow (N : Nat) (hN : INT_MAX < N) :
    for_int N visit INT_RANGE 0 [] = .error .signedOverflow :=
  for_int_overflow N visit (fun _ => True) hN
    (fun i s _ _ => ⟨s ++ [i], rfl, trivial⟩) [] trivial

/-! ## The runtime calls of the Kokkos operations -/

section KokkosCalls

variable {α : Type}

theorem kokkos_calls_of_kernels [Semiring α] (startScalar : α) (s : KOKKOSStream α)
    (x y z : α) (hs : s.WF) :
    (∃ t, s.init_arrays x y z = .ok t ∧
      t.calls = s.calls ++ [KokkosCall.parallel_for s.array_size, KokkosCall.fence]) ∧
    (∃ t, s.copy = .ok t ∧
      t.calls = s.calls ++ [KokkosCall.parallel_for s.array_size, KokkosCall.fence]) ∧
    (∃ t, s.mul startScalar = .ok t ∧
      t.calls = s.calls ++ [KokkosCall.parallel_for s.array_size, KokkosCall.fence]) ∧
    (∃ t, s.add = .ok t ∧
      t.calls = s.calls ++ [KokkosCall.parallel_for s.array_size, KokkosCall.fence]) ∧
    (∃ t, s.triad startScalar = .ok t ∧
      t.calls = s.calls ++ [KokkosCall.parallel_for s.array_size, KokkosCall.fence]) ∧
    (∃ r, s.dot = .ok r ∧
      r.2.calls = s.calls ++ [KokkosCall.parallel_reduce s.array_size]) := by
  obtain ⟨h1, h2, h3, _, _, _⟩ := hs
  exact ⟨⟨_, kokkos_init_arrays_run s x y z h1 h2 h3, rfl⟩,
    ⟨_, kokkos_copy_run s h1 h3, rfl⟩,
    ⟨_, kokkos_mul_run startScalar s h2 h3, rfl⟩,
    ⟨_, kokkos_add_run s h1 h2 h3, rfl⟩,
    ⟨_, kokkos_triad_run startScalar s h1 h2 h3, rfl⟩,
    ⟨_, kokkos_dot_run s h1 h2, rfl⟩⟩

end KokkosCalls

/-! ## Loop bodies in any order -/

theorem run_order_eq_foldl {σ : Type} (body : Nat → σ → Run σ) (upd : Nat → σ → σ)
    (Inv : σ → Prop) (N : Nat)
    (hInv : ∀ i t, i < N → Inv t → Inv (upd i t))
    (hbody : ∀ i t, i < N → Inv t → body i t = .ok (upd i t)) :
    ∀ (p : List Nat) (s : σ), (∀ i ∈ p, i < N) → Inv s →
      run_order body p s = .ok (p.foldl (fun t i => upd i t) s) := by
  intro p
  induction p with
  | nil => intro s _ _; rfl
  | cons i rest ih =>
    intro s hp hs
    have hi : i < N := hp i (List.mem_cons_self i rest)
    simp only [run_order, hbody i s hi hs, List.foldl_cons]
    exact ih (upd i s) (fun j hj => hp j (List.mem_cons_of_mem i hj)) (hInv i s hi hs)

theorem run_order_perm {σ : Type} (body : Nat → σ → Run σ) (upd : Nat → σ → σ)
    (Inv : σ → Prop) (N : Nat)
    (hInv : ∀ i t, i < N → Inv t → Inv (upd i t))
    (hbody : ∀ i t, i < N → Inv t → body i t = .ok (upd i t))
    (hcomm : ∀ i j t, upd j (upd i t) = upd i (upd j t))
    (p : List Nat) (hp : p.Perm (List.range N)) (s : σ) (hs : Inv s) :
    ∃ t, run_order body p s = .ok t ∧ run_order body (List.range N) s = .ok t := by
  have hr : ∀ i ∈ List.range N, i < N := fun i hi => List.mem_range.mp hi
  have hpN : ∀ i ∈ p, i < N := fun i hi => hr i (hp.mem_iff.mp hi)
  refine ⟨(List.range N).foldl (fun t i => upd i t) s, ?_,
    run_order_eq_foldl body upd Inv N hInv hbody (List.range N) s hr hs⟩
  rw [run_order_eq_foldl body upd Inv N hInv hbody p s hpN hs]
  exact congrArg Except.ok
    (hp.foldl_eq' (fun x _ y _ z => hcomm x y z) s)

theorem for_range_eq_run_order {σ : Type} (body : Nat → σ → Run σ) :
    ∀ (n i : Nat) (s : σ), for_range body n i s = run_order body (List.range' i n) s := by
  intro n
  induction n with
  | zero => intro i s; rfl
  | succ n ih =>
    intro i s
    simp only [for_range, List.range'_succ, run_order]
    cases body i s with
    | error e => rfl
    | ok t => exact ih (i + 1) t

theorem for_range_eq_run_order_range {σ : Type} (body : Nat → σ → Run σ) (n : Nat) (s : σ) :
    for_range body n 0 s = run_order body (List.range n) s := by
  rw [for_range_eq_run_order, List.range_eq_range']

section BodiesCommute

variable {α : Type}

theorem kokkos_copy_body_perm (s : KOKKOSStream α) (p : List Nat)
    (ha : s.d_a.length = s.array_size) (hc : s.d_c.length = s.array_size)
    (hp : p.Perm (List.range s.array_size)) :
    ∃ t, run_order KOKKOSStream.copy_body p s = .ok t ∧
      run_order KOKKOSStream.copy_body (List.range s.array_size) s = .ok t := by
  refine run_order_perm KOKKOSStream.copy_body
    (fun i t => match t.d_a[i]? with
      | some v => { t with d_c := t.d_c.set i v }
      | none => t)
    (fun t => t.d_a.length = s.array_size ∧ t.d_c.length = s.array_size) s.array_size
    ?_ ?_ ?_ p hp s ⟨ha, hc⟩
  · intro i t hi ht
    obtain ⟨v, hv⟩ := getElem_some_of_lt t.d_a i (lt_of_lt_of_eq hi ht.1.symm)
    simp only [hv, List.length_set]
    exact ht
  · intro i t hi ht
    obtain ⟨v, hv⟩ := getElem_some_of_lt t.d_a i (lt_of_lt_of_eq hi ht.1.symm)
    simp only [KOKKOSStream.copy_body, rd_eq_ok _ _ _ hv,
      wr_ok t.d_c i v (lt_of_lt_of_eq hi ht.2.symm), bind, Except.bind, pure, Except.pure, hv]
  · intro i j t
    by_cases hij : i = j
    · subst hij; rfl
    · cases hi : t.d_a[i]? <;> cases hj : t.d_a[j]? <;>
        simp [hi, hj, List.set_comm _ _ _ hij]

theorem kokkos_init_arrays_body_perm (s : KOKKOSStream α) (x y z : α) (p : List Nat)
    (ha : s.d_a.length = s.array_size) (hb : s.d_b.length = s.array_size)
    (hc : s.d_c.length = s.array_size) (hp : p.Perm (List.range s.array_size)) :
    ∃ t, run_order (KOKKOSStream.init_arrays_body x y z) p s = .ok t ∧
      run_order (KOKKOSStream.init_arrays_body x y z) (List.range s.array_size) s = .ok t := by
  refine run_order_perm (KOKKOSStream.init_arrays_body x y z)
    (fun i t => { t with d_a := t.d_a.set i x, d_b := t.d_b.set i y, d_c := t.d_c.set i z })
    (fun t => t.d_a.length = s.array_size ∧ t.d_b.length = s.array_size ∧
      t.d_c.length = s.array_size) s.array_size
    ?_ ?_ ?_ p hp s ⟨ha, hb, hc⟩
  · intro i t _ ht
    simp only [List.length_set]
    exact ht
  · intro i t hi ht
    simp only [KOKKOSStream.init_arrays_body, wr_ok t.d_a i x (lt_of_lt_of_eq hi ht.1.symm),
      wr_ok t.d_b i y (lt_of_lt_of_eq hi ht.2.1.symm),
      wr_ok t.d_c i z (lt_of_lt_of_eq hi ht.2.2.symm), bind, Except.bind, pure, Except.pure]
  · intro i j t
    by_cases hij : i = j
    · subst hij; rfl
    · simp [List.set_comm _ _ _ hij]

theorem kokkos_mul_body_perm [Mul α] (scalar : α) (s : KOKKOSStream α) (p : List Nat)
    (hb : s.d_b.length = s.array_size) (hc : s.d_c.length = s.array_size)
    (hp : p.Perm (List.range s.array_size)) :
    ∃ t, run_order (KOKKOSStream.mul_body scalar) p s = .ok t ∧
      run_order (KOKKOSStream.mul_body scalar) (List.range s.array_size) s = .ok t := by
  refine run_order_perm (KOKKOSStream.mul_body scalar)
    (fun i t => match t.d_c[i]? with
      | some v => { t with d_b := t.d_b.set i (scalar * v) }
      | none => t)
    (fun t => t.d_b.length = s.array_size ∧ t.d_c.length = s.array_size) s.array_size
    ?_ ?_ ?_ p hp s ⟨hb, hc⟩
  · intro i t hi ht
    obtain ⟨v, hv⟩ := getElem_some_of_lt t.d_c i (lt_of_lt_of_eq hi ht.2.symm)
    simp only [hv, List.length_set]
    exact ht
  · intro i t hi ht
    obtain ⟨v, hv⟩ := getElem_some_of_lt t.d_c i (lt_of_lt_of_eq hi ht.2.symm)
    simp only [KOKKOSStream.mul_body, rd_eq_ok _ _ _ hv,
      wr_ok t.d_b i _ (lt_of_lt_of_eq hi ht.1.symm), bind, Except.bind, pure, Except.pure, hv]
  · intro i j t
    by_cases hij : i = j
    · subst hij; rfl
    · cases hi : t.d_c[i]? <;> cases hj : t.d_c[j]? <;>
        simp [hi, hj, List.set_comm _ _ _ hij]

theorem kokkos_add_body_perm [Add α] (s : KOKKOSStream α) (p : List Nat)
    (ha : s.d_a.length = s.array_size) (hb : s.d_b.length = s.array_size)
    (hc : s.d_c.length = s.array_size) (hp : p.Perm (List.range s.array_size)) :
    ∃ t, run_order KOKKOSStream.add_body p s = .ok t ∧
      run_order KOKKOSStream.add_body (List.range s.array_size) s = .ok t := by
  refine run_order_perm KOKKOSStream.add_body
    (fun i t => match t.d_a[i]?, t.d_b[i]? with
      | some va, some vb => { t with d_c := t.d_c.set i (va + vb) }
      | _, _ => t)
    (fun t => t.d_a.length = s.array_size ∧ t.d_b.length = s.array_size ∧
      t.d_c.length = s.array_size) s.array_size
    ?_ ?_ ?_ p hp s ⟨ha, hb, hc⟩
  · intro i t hi ht
    obtain ⟨va, hva⟩ := getElem_some_of_lt t.d_a i (lt_of_lt_of_eq hi ht.1.symm)
    obtain ⟨vb, hvb⟩ := getElem_some_of_lt t.d_b i (lt_of_lt_of_eq hi ht.2.1.symm)
    simp only [hva, hvb, List.length_set]
    exact ht
  · intro i t hi ht
    obtain ⟨va, hva⟩ := getElem_some_of_lt t.d_a i (lt_of_lt_of_eq hi ht.1.symm)
    obtain ⟨vb, hvb⟩ := getElem_some_of_lt t.d_b i (lt_of_lt_of_eq hi ht.2.1.symm)
    simp only [KOKKOSStream.add_body, rd_eq_ok _ _ _ hva, rd_eq_ok _ _ _ hvb,
      wr_ok t.d_c i _ (lt_of_lt_of_eq hi ht.2.2.symm), bind, Except.bind, pure, Except.pure,
      hva, hvb]
  · intro i j t
    by_cases hij : i = j
    · subst hij; rfl
    · cases hi : t.d_a[i]? <;> cases hj : t.d_a[j]? <;> cases hi2 : t.d_b[i]? <;>
        cases hj2 : t.d_b[j]? <;> simp [hi, hj, hi2, hj2, List.set_comm _ _ _ hij]

theorem kokkos_triad_body_perm [Add α] [Mul α] (scalar : α) (s : KOKKOSStream α) (p : List Nat)
    (ha : s.d_a.length = s.array_size) (hb : s.d_b.length = s.array_size)
    (hc : s.d_c.length = s.array_size) (hp : p.Perm (List.range s.array_size)) :
    ∃ t, run_order (KOKKOSStream.triad_body scalar) p s = .ok t ∧
      run_order (KOKKOSStream.triad_body scalar) (List.range s.array_size) s = .ok t := by
  refine run_order_perm (KOKKOSStream.triad_body scalar)
    (fun i t => match t.d_b[i]?, t.d_c[i]? with
      | some vb, some vc => { t with d_a := t.d_a.set i (vb + scalar * vc) }
      | _, _ => t)
    (fun t => t.d_a.length = s.array_size ∧ t.d_b.length = s.array_size ∧
      t.d_c.length = s.array_size) s.array_size
    ?_ ?_ ?_ p hp s ⟨ha, hb, hc⟩
  · intro i t hi ht
    obtain ⟨vb, hvb⟩ := getElem_some_of_lt t.d_b i (lt_of_lt_of_eq hi ht.2.1.symm)
    obtain ⟨vc, hvc⟩ := getElem_some_of_lt t.d_c i (lt_of_lt_of_eq hi ht.2.2.symm)
    simp only [hvb, hvc, List.length_set]
    exact ht
  · intro i t hi ht
    obtain ⟨vb, hvb⟩ := getElem_some_of_lt t.d_b i (lt_of_lt_of_eq hi ht.2.1.symm)
    obtain ⟨vc, hvc⟩ := getElem_some_of_lt t.d_c i (lt_of_lt_of_eq hi ht.2.2.symm)
    simp only [KOKKOSStream.triad_body, rd_eq_ok _ _ _ hvb, rd_eq_ok _ _ _ hvc,
      wr_ok t.d_a i _ (lt_of_lt_of_eq hi ht.1.symm), bind, Except.bind, pure, Except.pure,
      hvb, hvc]
  · intro i j t
    by_cases hij : i = j
    · subst hij; rfl
    · cases hi : t.d_b[i]? <;> cases hj : t.d_b[j]? <;> cases hi2 : t.d_c[i]? <;>
        cases hj2 : t.d_c[j]? <;> simp [hi, hj, hi2, hj2, List.set_comm _ _ _ hij]

theorem omp_copy_body_perm (s : OMPStream α) (p : List Nat)
    (ha : s.dev_a.length = s.array_size) (hc : s.dev_c.length = s.array_size)
    (hp : p.Perm (List.range s.array_size)) :
    ∃ t, run_order OMPStream.copy_body p s = .ok t ∧
      run_order OMPStream.copy_body (List.range s.array_size) s = .ok t := by
  refine run_order_perm OMPStream.copy_body
    (fun i t => match t.dev_a[i]? with
      | some v => { t with dev_c := t.dev_c.set i v }
      | none => t)
    (fun t => t.dev_a.length = s.array_size ∧ t.dev_c.length = s.array_size) s.array_size
    ?_ ?_ ?_ p hp s ⟨ha, hc⟩
  · intro i t hi ht
    obtain ⟨v, hv⟩ := getElem_some_of_lt t.dev_a i (lt_of_lt_of_eq hi ht.1.symm)
    simp only [hv, List.length_set]
    exact ht
  · intro i t hi ht
    obtain ⟨v, hv⟩ := getElem_some_of_lt t.dev_a i (lt_of_lt_of_eq hi ht.1.symm)
    simp only [OMPStream.copy_body, rd_eq_ok _ _ _ hv,
      wr_ok t.dev_c i v (lt_of_lt_of_eq hi ht.2.symm), bind, Except.bind, pure, Except.pure, hv]
  · intro i j t
    by_cases hij : i = j
    · subst hij; rfl
    · cases hi : t.dev_a[i]? <;> cases hj : t.dev_a[j]? <;>
        simp [hi, hj, List.set_comm _ _ _ hij]

theorem omp_init_arrays_body_perm (s : OMPStream α) (x y z : α) (p : List Nat)
    (ha : s.dev_a.length = s.array_size) (hb : s.dev_b.length = s.array_size)
    (hc : s.dev_c.length = s.array_size) (hp : p.Perm (List.range s.array_size)) :
    ∃ t, run_order (OMPStream.init_arrays_body x y z) p s = .ok t ∧
      run_order (OMPStream.init_arrays_body x y z) (List.range s.array_size) s = .ok t := by
  refine run_order_perm (OMPStream.init_arrays_body x y z)
    (fun i t => { t with dev_a := t.dev_a.set i x, dev_b := t.dev_b.set i y, dev_c := t.dev_c.set i z })
    (fun t => t.dev_a.length = s.array_size ∧ t.dev_b.length = s.array_size ∧
      t.dev_c.length = s.array_size) s.array_size
    ?_ ?_ ?_ p hp s ⟨ha, hb, hc⟩
  · intro i t _ ht
    simp only [List.length_set]
    exact ht
  · intro i t hi ht
    simp only [OMPStream.init_arrays_body, wr_ok t.dev_a i x (lt_of_lt_of_eq hi ht.1.symm),
      wr_ok t.dev_b i y (lt_of_lt_of_eq hi ht.2.1.symm),
      wr_ok t.dev_c i z (lt_of_lt_of_eq hi ht.2.2.symm), bind, Except.bind, pure, Except.pure]
  · intro i j t
    by_cases hij : i = j
    · subst hij; rfl
    · simp [List.set_comm _ _ _ hij]

theorem omp_mul_body_perm [Mul α] (scalar : α) (s : OMPStream α) (p : List Nat)
    (hb : s.dev_b.length = s.array_size) (hc : s.dev_c.length = s.array_size)
    (hp : p.Perm (List.range s.array_size)) :
    ∃ t, run_order (OMPStream.mul_body scalar) p s = .ok t ∧
      run_order (OMPStream.mul_body scalar) (List.range s.array_size) s = .ok t := by
  refine run_order_perm (OMPStream.mul_body scalar)
    (fun i t => match t.dev_c[i]? with
      | some v => { t with dev_b := t.dev_b.set i (scalar * v) }
      | none => t)
    (fun t => t.dev_b.length = s.array_size ∧ t.dev_c.length = s.array_size) s.array_size
    ?_ ?_ ?_ p hp s ⟨hb, hc⟩
  · intro i t hi ht
    obtain ⟨v, hv⟩ := getElem_some_of_lt t.dev_c i (lt_of_lt_of_eq hi ht.2.symm)
    simp only [hv, List.length_set]
    exact ht
  · intro i t hi ht
    obtain ⟨v, hv⟩ := getElem_some_of_lt t.dev_c i (lt_of_lt_of_eq hi ht.2.symm)
    simp only [OMPStream.mul_body, rd_eq_ok _ _ _ hv,
      wr_ok t.dev_b i _ (lt_of_lt_of_eq hi ht.1.symm), bind, Except.bind, pure, Except.pure, hv]
  · intro i j t
    by_cases hij : i = j
    · subst hij; rfl
    · cases hi : t.dev_c[i]? <;> cases hj : t.dev_c[j]? <;>
        simp [hi, hj, List.set_comm _ _ _ hij]

theorem omp_add_body_perm [Add α] (s : OMPStream α) (p : List Nat)
    (ha : s.dev_a.length = s.array_size) (hb : s.dev_b.length = s.array_size)
    (hc : s.dev_c.length = s.array_size) (hp : p.Perm (List.range s.array_size)) :
    ∃ t, run_order OMPStream.add_body p s = .ok t ∧
      run_order OMPStream.add_body (List.range s.array_size) s = .ok t := by
  refine run_order_perm OMPStream.add_body
    (fun i t => match t.dev_a[i]?, t.dev_b[i]? with
      | some va, some vb => { t with dev_c := t.dev_c.set i (va + vb) }
      | _, _ => t)
    (fun t => t.dev_a.length = s.array_size ∧ t.dev_b.length = s.array_size ∧
      t.dev_c.length = s.array_size) s.array_size
    ?_ ?_ ?_ p hp s ⟨ha, hb, hc⟩
  · intro i t hi ht
    obtain ⟨va, hva⟩ := getElem_some_of_lt t.dev_a i (lt_of_lt_of_eq hi ht.1.symm)
    obtain ⟨vb, hvb⟩ := getElem_some_of_lt t.dev_b i (lt_of_lt_of_eq hi ht.2.1.symm)
    simp only [hva, hvb, List.length_set]
    exact ht
  · intro i t hi ht
    obtain ⟨va, hva⟩ := getElem_some_of_lt t.dev_a i (lt_of_lt_of_eq hi ht.1.symm)
    obtain ⟨vb, hvb⟩ := getElem_some_of_lt t.dev_b i (lt_of_lt_of_eq hi ht.2.1.symm)
    simp only [OMPStream.add_body, rd_eq_ok _ _ _ hva, rd_eq_ok _ _ _ hvb,
      wr_ok t.dev_c i _ (lt_of_lt_of_eq hi ht.2.2.symm), bind, Except.bind, pure, Except.pure,
      hva, hvb]
  · intro i j t
    by_cases hij : i = j
    · subst hij; rfl
    · cases hi : t.dev_a[i]? <;> cases hj : t.dev_a[j]? <;> cases hi2 : t.dev_b[i]? <;>
        cases hj2 : t.dev_b[j]? <;> simp [hi, hj, hi2, hj2, List.set_comm _ _ _ hij]

theorem omp_triad_body_perm [Add α] [Mul α] (scalar : α) (s : OMPStream α) (p : List Nat)
    (ha : s.dev_a.length = s.array_size) (hb : s.dev_b.length = s.array_size)
    (hc : s.dev_c.length = s.array_size) (hp : p.Perm (List.range s.array_size)) :
    ∃ t, run_order (OMPStream.triad_body scalar) p s = .ok t ∧
      run_order (OMPStream.triad_body scalar) (List.range s.array_size) s = .ok t := by
  refine run_order_perm (OMPStream.triad_body scalar)
    (fun i t => match t.dev_b[i]?, t.dev_c[i]? with
      | some vb, some vc => { t with dev_a := t.dev_a.set i (vb + scalar * vc) }
      | _, _ => t)
    (fun t => t.dev_a.length = s.array_size ∧ t.dev_b.length = s.array_size ∧
      t.dev_c.length = s.array_size) s.array_size
    ?_ ?_ ?_ p hp s ⟨ha, hb, hc⟩
  · intro i t hi ht
    obtain ⟨vb, hvb⟩ := getElem_some_of_lt t.dev_b i (lt_of_lt_of_eq hi ht.2.1.symm)
    obtain ⟨vc, hvc⟩ := getElem_some_of_lt t.dev_c i (lt_of_lt_of_eq hi ht.2.2.symm)
    simp only [hvb, hvc, List.length_set]
    exact ht
  · intro i t hi ht
    obtain ⟨vb, hvb⟩ := getElem_some_of_lt t.dev_b i (lt_of_lt_of_eq hi ht.2.1.symm)
    obtain ⟨vc, hvc⟩ := getElem_some_of_lt t.dev_c i (lt_of_lt_of_eq hi ht.2.2.symm)
    simp only [OMPStream.triad_body, rd_eq_ok _ _ _ hvb, rd_eq_ok _ _ _ hvc,
      wr_ok t.dev_a i _ (lt_of_lt_of_eq hi ht.1.symm), bind, Except.bind, pure, Except.pure,
      hvb, hvc]
  · intro i j t
    by_cases hij : i = j
    · subst hij; rfl
    · cases hi : t.dev_b[i]? <;> cases hj : t.dev_b[j]? <;> cases hi2 : t.dev_c[i]? <;>
        cases hj2 : t.dev_c[j]? <;> simp [hi, hj, hi2, hj2, List.set_comm _ _ _ hij]

end BodiesCommute

/-! ## What one iteration touches -/

section Confined

variable {α : Type}

theorem rd_ok_inv (xs : List α) (i : Nat) (v : α) (h : rd xs i = .ok v) :
    xs[i]? = some v := by
  unfold rd at h
  split at h
  · rename_i w hw
    cases h
    exact hw
  · cases h

theorem wr_ok_inv (xs ys : List α) (i : Nat) (v : α) (h : wr xs i v = .ok ys) :
    ys = xs.set i v ∧ i < xs.length := by
  unfold wr at h
  split at h
  · rename_i hlt
    cases h
    exact ⟨rfl, hlt⟩
  · cases h

theorem wr_ok_self (xs ys : List α) (i : Nat) (v : α) (h : wr xs i v = .ok ys) :
    ys[i]? = some v := by
  obtain ⟨rfl, hlt⟩ := wr_ok_inv xs ys i v h
  simp [List.getElem?_set_self, hlt]

theorem wr_ok_other (xs ys : List α) (i j : Nat) (v : α) (h : wr xs i v = .ok ys)
    (hj : j ≠ i) : ys[j]? = xs[j]? := by
  obtain ⟨rfl, _⟩ := wr_ok_inv xs ys i v h
  exact List.getElem?_set_ne (Ne.symm hj)

theorem bind_ok_inv {β γ : Type} (x : Run β) (f : β → Run γ) (c : γ)
    (h : (x >>= f) = .ok c) : ∃ b, x = .ok b ∧ f b = .ok c := by
  cases x with
  | error e => cases h
  | ok b => exact ⟨b, rfl, h⟩

theorem kokkos_init_arrays_body_confined (x y z : α) :
    confined (@KOKKOSStream.init_arrays_body α x y z) KOKKOSStream.arrays true true true := by
  constructor
  · intro i s t h
    unfold KOKKOSStream.init_arrays_body at h
    obtain ⟨a, ha, h⟩ := bind_ok_inv _ _ _ h
    obtain ⟨b, hb, h⟩ := bind_ok_inv _ _ _ h
    obtain ⟨c, hc, h⟩ := bind_ok_inv _ _ _ h
    cases h
    exact ⟨fun j hj => wr_ok_other _ _ _ _ _ ha hj,
      fun j hj => wr_ok_other _ _ _ _ _ hb hj,
      fun j hj => wr_ok_other _ _ _ _ _ hc hj⟩
  · intro i s1 s2 t1 t2 h1 h2 _ _ _
    unfold KOKKOSStream.init_arrays_body at h1 h2
    obtain ⟨a1, wa1, h1⟩ := bind_ok_inv _ _ _ h1
    obtain ⟨b1, wb1, h1⟩ := bind_ok_inv _ _ _ h1
    obtain ⟨c1, wc1, h1⟩ := bind_ok_inv _ _ _ h1
    cases h1
    obtain ⟨a2, wa2, h2⟩ := bind_ok_inv _ _ _ h2
    obtain ⟨b2, wb2, h2⟩ := bind_ok_inv _ _ _ h2
    obtain ⟨c2, wc2, h2⟩ := bind_ok_inv _ _ _ h2
    cases h2
    exact ⟨(wr_ok_self _ _ _ _ wa1).trans (wr_ok_self _ _ _ _ wa2).symm,
      (wr_ok_self _ _ _ _ wb1).trans (wr_ok_self _ _ _ _ wb2).symm,
      (wr_ok_self _ _ _ _ wc1).trans (wr_ok_self _ _ _ _ wc2).symm⟩

theorem kokkos_copy_body_confined :
    confined (@KOKKOSStream.copy_body α) KOKKOSStream.arrays false false true := by
  constructor
  · intro i s t h
    unfold KOKKOSStream.copy_body at h
    obtain ⟨v, _, h⟩ := bind_ok_inv _ _ _ h
    obtain ⟨c, hc, h⟩ := bind_ok_inv _ _ _ h
    cases h
    exact ⟨rfl, rfl, fun j hj => wr_ok_other _ _ _ _ _ hc hj⟩
  · intro i s1 s2 t1 t2 h1 h2 eA eB _
    unfold KOKKOSStream.copy_body at h1 h2
    obtain ⟨v1, rv1, h1⟩ := bind_ok_inv _ _ _ h1
    obtain ⟨c1, wc1, h1⟩ := bind_ok_inv _ _ _ h1
    cases h1
    obtain ⟨v2, rv2, h2⟩ := bind_ok_inv _ _ _ h2
    obtain ⟨c2, wc2, h2⟩ := bind_ok_inv _ _ _ h2
    cases h2
    have ev : v1 = v2 := Option.some.inj
      ((rd_ok_inv _ _ _ rv1).symm.trans (eA.trans (rd_ok_inv _ _ _ rv2)))
    subst ev
    exact ⟨eA, eB, (wr_ok_self _ _ _ _ wc1).trans (wr_ok_self _ _ _ _ wc2).symm⟩

theorem kokkos_mul_body_confined [Mul α] (scalar : α) :
    confined (@KOKKOSStream.mul_body α _ scalar) KOKKOSStream.arrays false true false := by
  constructor
  · intro i s t h
    unfold KOKKOSStream.mul_body at h
    obtain ⟨v, _, h⟩ := bind_ok_inv _ _ _ h
    obtain ⟨b, hb, h⟩ := bind_ok_inv _ _ _ h
    cases h
    exact ⟨rfl, fun j hj => wr_ok_other _ _ _ _ _ hb hj, rfl⟩
  · intro i s1 s2 t1 t2 h1 h2 eA _ eC
    unfold KOKKOSStream.mul_body at h1 h2
    obtain ⟨v1, rv1, h1⟩ := bind_ok_inv _ _ _ h1
    obtain ⟨b1, wb1, h1⟩ := bind_ok_inv _ _ _ h1
    cases h1
    obtain ⟨v2, rv2, h2⟩ := bind_ok_inv _ _ _ h2
    obtain ⟨b2, wb2, h2⟩ := bind_ok_inv _ _ _ h2
    cases h2
    have ev : v1 = v2 := Option.some.inj
      ((rd_ok_inv _ _ _ rv1).symm.trans (eC.trans (rd_ok_inv _ _ _ rv2)))
    subst ev
    exact ⟨eA, (wr_ok_self _ _ _ _ wb1).trans (wr_ok_self _ _ _ _ wb2).symm, eC⟩

theorem kokkos_add_body_confined [Add α] :
    confined (@KOKKOSStream.add_body α _) KOKKOSStream.arrays false false true := by
  constructor
  · intro i s t h
    unfold KOKKOSStream.add_body at h
    obtain ⟨va, _, h⟩ := bind_ok_inv _ _ _ h
    obtain ⟨vb, _, h⟩ := bind_ok_inv _ _ _ h
    obtain ⟨c, hc, h⟩ := bind_ok_inv _ _ _ h
    cases h
    exact ⟨rfl, rfl, fun j hj => wr_ok_other _ _ _ _ _ hc hj⟩
  · intro i s1 s2 t1 t2 h1 h2 eA eB _
    unfold KOKKOSStream.add_body at h1 h2
    obtain ⟨va1, rva1, h1⟩ := bind_ok_inv _ _ _ h1
    obtain ⟨vb1, rvb1, h1⟩ := bind_ok_inv _ _ _ h1
    obtain ⟨c1, wc1, h1⟩ := bind_ok_inv _ _ _ h1
    cases h1
    obtain ⟨va2, rva2, h2⟩ := bind_ok_inv _ _ _ h2
    obtain ⟨vb2, rvb2, h2⟩ := bind_ok_inv _ _ _ h2
    obtain ⟨c2, wc2, h2⟩ := bind_ok_inv _ _ _ h2
    cases h2
    have eva : va1 = va2 := Option.some.inj
      ((rd_ok_inv _ _ _ rva1).symm.trans (eA.trans (rd_ok_inv _ _ _ rva2)))
    subst eva
    have evb : vb1 = vb2 := Option.some.inj
      ((rd_ok_inv _ _ _ rvb1).symm.trans (eB.trans (rd_ok_inv _ _ _ rvb2)))
    subst evb
    exact ⟨eA, eB, (wr_ok_self _ _ _ _ wc1).trans (wr_ok_self _ _ _ _ wc2).symm⟩

theorem kokkos_triad_body_confined [Add α] [Mul α] (scalar : α) :
    confined (@KOKKOSStream.triad_body α _ _ scalar) KOKKOSStream.arrays true false false := by
  constructor
  · intro i s t h
    unfold KOKKOSStream.triad_body at h
    obtain ⟨vb, _, h⟩ := bind_ok_inv _ _ _ h
    obtain ⟨vc, _, h⟩ := bind_ok_inv _ _ _ h
    obtain ⟨a, ha, h⟩ := bind_ok_inv _ _ _ h
    cases h
    exact ⟨fun j hj => wr_ok_other _ _ _ _ _ ha hj, rfl, rfl⟩
  · intro i s1 s2 t1 t2 h1 h2 _ eB eC
    unfold KOKKOSStream.triad_body at h1 h2
    obtain ⟨vb1, rvb1, h1⟩ := bind_ok_inv _ _ _ h1
    obtain ⟨vc1, rvc1, h1⟩ := bind_ok_inv _ _ _ h1
    obtain ⟨a1, wa1, h1⟩ := bind_ok_inv _ _ _ h1
    cases h1
    obtain ⟨vb2, rvb2, h2⟩ := bind_ok_inv _ _ _ h2
    obtain ⟨vc2, rvc2, h2⟩ := bind_ok_inv _ _ _ h2
    obtain ⟨a2, wa2, h2⟩ := bind_ok_inv _ _ _ h2
    cases h2
    have evb : vb1 = vb2 := Option.some.inj
      ((rd_ok_inv _ _ _ rvb1).symm.trans (eB.trans (rd_ok_inv _ _ _ rvb2)))
    subst evb
    have evc : vc1 = vc2 := Option.some.inj
      ((rd_ok_inv _ _ _ rvc1).symm.trans (eC.trans (rd_ok_inv _ _ _ rvc2)))
    subst evc
    exact ⟨(wr_ok_self _ _ _ _ wa1).trans (wr_ok_self _ _ _ _ wa2).symm, eB, eC⟩

theorem omp_init_arrays_body_confined (x y z : α) :
    confined (@OMPStream.init_arrays_body α x y z) OMPStream.arrays true true true := by
  constructor
  · intro i s t h
    unfold OMPStream.init_arrays_body at h
    obtain ⟨a, ha, h⟩ := bind_ok_inv _ _ _ h
    obtain ⟨b, hb, h⟩ := bind_ok_inv _ _ _ h
    obtain ⟨c, hc, h⟩ := bind_ok_inv _ _ _ h
    cases h
    exact ⟨fun j hj => wr_ok_other _ _ _ _ _ ha hj,
      fun j hj => wr_ok_other _ _ _ _ _ hb hj,
      fun j hj => wr_ok_other _ _ _ _ _ hc hj⟩
  · intro i s1 s2 t1 t2 h1 h2 _ _ _
    unfold OMPStream.init_arrays_body at h1 h2
    obtain ⟨a1, wa1, h1⟩ := bind_ok_inv _ _ _ h1
    obtain ⟨b1, wb1, h1⟩ := bind_ok_inv _ _ _ h1
    obtain ⟨c1, wc1, h1⟩ := bind_ok_inv _ _ _ h1
    cases h1
    obtain ⟨a2, wa2, h2⟩ := bind_ok_inv _ _ _ h2
    obtain ⟨b2, wb2, h2⟩ := bind_ok_inv _ _ _ h2
    obtain ⟨c2, wc2, h2⟩ := bind_ok_inv _ _ _ h2
    cases h2
    exact ⟨(wr_ok_self _ _ _ _ wa1).trans (wr_ok_self _ _ _ _ wa2).symm,
      (wr_ok_self _ _ _ _ wb1).trans (wr_ok_self _ _ _ _ wb2).symm,
      (wr_ok_self _ _ _ _ wc1).trans (wr_ok_self _ _ _ _ wc2).symm⟩

theorem omp_copy_body_confined :
    confined (@OMPStream.copy_body α) OMPStream.arrays false false true := by
  constructor
  · intro i s t h
    unfold OMPStream.copy_body at h
    obtain ⟨v, _, h⟩ := bind_ok_inv _ _ _ h
    obtain ⟨c, hc, h⟩ := bind_ok_inv _ _ _ h
    cases h
    exact ⟨rfl, rfl, fun j hj => wr_ok_other _ _ _ _ _ hc hj⟩
  · intro i s1 s2 t1 t2 h1 h2 eA eB _
    unfold OMPStream.copy_body at h1 h2
    obtain ⟨v1, rv1, h1⟩ := bind_ok_inv _ _ _ h1
    obtain ⟨c1, wc1, h1⟩ := bind_ok_inv _ _ _ h1
    cases h1
    obtain ⟨v2, rv2, h2⟩ := bind_ok_inv _ _ _ h2
    obtain ⟨c2, wc2, h2⟩ := bind_ok_inv _ _ _ h2
    cases h2
    have ev : v1 = v2 := Option.some.inj
      ((rd_ok_inv _ _ _ rv1).symm.trans (eA.trans (rd_ok_inv _ _ _ rv2)))
    subst ev
    exact ⟨eA, eB, (wr_ok_self _ _ _ _ wc1).trans (wr_ok_self _ _ _ _ wc2).symm⟩

theorem omp_mul_body_confined [Mul α] (scalar : α) :
    confined (@OMPStream.mul_body α _ scalar) OMPStream.arrays false true false := by
  constructor
  · intro i s t h
    unfold OMPStream.mul_body at h
    obtain ⟨v, _, h⟩ := bind_ok_inv _ _ _ h
    obtain ⟨b, hb, h⟩ := bind_ok_inv _ _ _ h
    cases h
    exact ⟨rfl, fun j hj => wr_ok_other _ _ _ _ _ hb hj, rfl⟩
  · intro i s1 s2 t1 t2 h1 h2 eA _ eC
    unfold OMPStream.mul_body at h1 h2
    obtain ⟨v1, rv1, h1⟩ := bind_ok_inv _ _ _ h1
    obtain ⟨b1, wb1, h1⟩ := bind_ok_inv _ _ _ h1
    cases h1
    obtain ⟨v2, rv2, h2⟩ := bind_ok_inv _ _ _ h2
    obtain ⟨b2, wb2, h2⟩ := bind_ok_inv _ _ _ h2
    cases h2
    have ev : v1 = v2 := Option.some.inj
      ((rd_ok_inv _ _ _ rv1).symm.trans (eC.trans (rd_ok_inv _ _ _ rv2)))
    subst ev
    exact ⟨eA, (wr_ok_self _ _ _ _ wb1).trans (wr_ok_self _ _ _ _ wb2).symm, eC⟩

theorem omp_add_body_confined [Add α] :
    confined (@OMPStream.add_body α _) OMPStream.arrays false false true := by
  constructor
  · intro i s t h
    unfold OMPStream.add_body at h
    obtain ⟨va, _, h⟩ := bind_ok_inv _ _ _ h
    obtain ⟨vb, _, h⟩ := bind_ok_inv _ _ _ h
    obtain ⟨c, hc, h⟩ := bind_ok_inv _ _ _ h
    cases h
    exact ⟨rfl, rfl, fun j hj => wr_ok_other _ _ _ _ _ hc hj⟩
  · intro i s1 s2 t1 t2 h1 h2 eA eB _
    unfold OMPStream.add_body at h1 h2
    obtain ⟨va1, rva1, h1⟩ := bind_ok_inv _ _ _ h1
    obtain ⟨vb1, rvb1, h1⟩ := bind_ok_inv _ _ _ h1
    obtain ⟨c1, wc1, h1⟩ := bind_ok_inv _ _ _ h1
    cases h1
    obtain ⟨va2, rva2, h2⟩ := bind_ok_inv _ _ _ h2
    obtain ⟨vb2, rvb2, h2⟩ := bind_ok_inv _ _ _ h2
    obtain ⟨c2, wc2, h2⟩ := bind_ok_inv _ _ _ h2
    cases h2
    have eva : va1 = va2 := Option.some.inj
      ((rd_ok_inv _ _ _ rva1).symm.trans (eA.trans (rd_ok_inv _ _ _ rva2)))
    subst eva
    have evb : vb1 = vb2 := Option.some.inj
      ((rd_ok_inv _ _ _ rvb1).symm.trans (eB.trans (rd_ok_inv _ _ _ rvb2)))
    subst evb
    exact ⟨eA, eB, (wr_ok_self _ _ _ _ wc1).trans (wr_ok_self _ _ _ _ wc2).symm⟩

theorem omp_triad_body_confined [Add α] [Mul α] (scalar : α) :
    confined (@OMPStream.triad_body α _ _ scalar) OMPStream.arrays true false false := by
  constructor
  · intro i s t h
    unfold OMPStream.triad_body at h
    obtain ⟨vb, _, h⟩ := bind_ok_inv _ _ _ h
    obtain ⟨vc, _, h⟩ := bind_ok_inv _ _ _ h
    obtain ⟨a, ha, h⟩ := bind_ok_inv _ _ _ h
    cases h
    exact ⟨fun j hj => wr_ok_other _ _ _ _ _ ha hj, rfl, rfl⟩
  · intro i s1 s2 t1 t2 h1 h2 _ eB eC
    unfold OMPStream.triad_body at h1 h2
    obtain ⟨vb1, rvb1, h1⟩ := bind_ok_inv _ _ _ h1
    obtain ⟨vc1, rvc1, h1⟩ := bind_ok_inv _ _ _ h1
    obtain ⟨a1, wa1, h1⟩ := bind_ok_inv _ _ _ h1
    cases h1
    obtain ⟨vb2, rvb2, h2⟩ := bind_ok_inv _ _ _ h2
    obtain ⟨vc2, rvc2, h2⟩ := bind_ok_inv _ _ _ h2
    obtain ⟨a2, wa2, h2⟩ := bind_ok_inv _ _ _ h2
    cases h2
    have evb : vb1 = vb2 := Option.some.inj
      ((rd_ok_inv _ _ _ rvb1).symm.trans (eB.trans (rd_ok_inv _ _ _ rvb2)))
    subst evb
    have evc : vc1 = vc2 := Option.some.inj
      ((rd_ok_inv _ _ _ rvc1).symm.trans (eC.trans (rd_ok_inv _ _ _ rvc2)))
    subst evc
    exact ⟨(wr_ok_self _ _ _ _ wa1).trans (wr_ok_self _ _ _ _ wa2).symm, eB, eC⟩

end Confined

/-! ## Both backends meet the contract within the range of `int` -/

section Refinement

variable {α : Type} [Semiring α]

theorem kokkos_call_refines (scalar : α) (s : KOKKOSStream α) (op : Op α) (hs : s.WF)
    (hN : s.array_size ≤ INT_MAX) (hop : op.fits s.array_size) :
    ∃ t, s.call scalar op = .ok (t, (contract scalar s.array_size s.arrays op).2) ∧ t.WF ∧
      t.array_size = s.array_size ∧
      t.arrays = (contract scalar s.array_size s.arrays op).1 := by
  obtain ⟨h1, h2, h3, h4, h5, h6⟩ := hs
  cases op with
  | init_arrays x y z =>
    simp only [KOKKOSStream.call, kokkos_init_arrays_run s x y z h1 h2 h3, bind, Except.bind,
      pure, Except.pure]
    exact ⟨_, rfl, ⟨List.length_replicate _ _, List.length_replicate _ _,
      List.length_replicate _ _, h4, h5, h6⟩, rfl, rfl⟩
  | copy =>
    simp only [KOKKOSStream.call, kokkos_copy_run s h1 h3, bind, Except.bind, pure, Except.pure]
    exact ⟨_, rfl, ⟨h1, h2, h1, h4, h5, h6⟩, rfl, rfl⟩
  | mul =>
    simp only [KOKKOSStream.call, kokkos_mul_run scalar s h2 h3, bind, Except.bind, pure,
      Except.pure]
    exact ⟨_, rfl, ⟨h1, (List.length_map _ _).trans h3, h3, h4, h5, h6⟩, rfl, rfl⟩
  | add =>
    simp only [KOKKOSStream.call, kokkos_add_run s h1 h2 h3, bind, Except.bind, pure, Except.pure]
    refine ⟨_, rfl, ⟨h1, h2, ?_, h4, h5, h6⟩, rfl, rfl⟩
    simp only [List.length_zipWith, h1, h2, min_self]
  | triad =>
    simp only [KOKKOSStream.call, kokkos_triad_run scalar s h1 h2 h3, bind, Except.bind, pure,
      Except.pure]
    refine ⟨_, rfl, ⟨?_, h2, h3, h4, h5, h6⟩, rfl, rfl⟩
    simp only [List.length_zipWith, h2, h3, min_self]
  | dot =>
    simp only [KOKKOSStream.call, kokkos_dot_run s h1 h2, bind, Except.bind, pure, Except.pure]
    exact ⟨_, rfl, ⟨h1, h2, h3, h4, h5, h6⟩, rfl, rfl⟩
  | read_arrays a b c =>
    obtain ⟨ha, hb, hc⟩ := hop
    simp only [KOKKOSStream.call,
      kokkos_read_arrays_run s a b c ⟨h1, h2, h3, h4, h5, h6⟩ hN ha hb hc, bind, Except.bind,
      pure, Except.pure]
    exact ⟨_, rfl, ⟨h1, h2, h3, h1, h2, h3⟩, rfl, rfl⟩

theorem omp_call_refines (scalar : α) (cfg : Build) (s : OMPStream α) (op : Op α) (hs : s.WF)
    (hN : s.array_size ≤ INT_MAX) (hop : op.fits s.array_size) :
    ∃ t, s.call scalar cfg op = .ok (t, (contract scalar s.array_size s.arrays op).2) ∧ t.WF ∧
      t.array_size = s.array_size ∧
      t.arrays = (contract scalar s.array_size s.arrays op).1 := by
  obtain ⟨h1, h2, h3, h4, h5, h6⟩ := hs
  cases op with
  | init_arrays x y z =>
    simp only [OMPStream.call, omp_init_arrays_run cfg s x y z hN h4 h5 h6, bind, Except.bind,
      pure, Except.pure]
    exact ⟨_, rfl, ⟨h1, h2, h3, List.length_replicate _ _, List.length_replicate _ _,
      List.length_replicate _ _⟩, rfl, rfl⟩
  | copy =>
    simp only [OMPStream.call, omp_copy_run cfg s hN h4 h6, bind, Except.bind, pure, Except.pure]
    exact ⟨_, rfl, ⟨h1, h2, h3, h4, h5, h4⟩, rfl, rfl⟩
  | mul =>
    simp only [OMPStream.call, omp_mul_run scalar cfg s hN h5 h6, bind, Except.bind, pure,
      Except.pure]
    exact ⟨_, rfl, ⟨h1, h2, h3, h4, (List.length_map _ _).trans h6, h6⟩, rfl, rfl⟩
  | add =>
    simp only [OMPStream.call, omp_add_run cfg s hN h4 h5 h6, bind, Except.bind, pure,
      Except.pure]
    refine ⟨_, rfl, ⟨h1, h2, h3, h4, h5, ?_⟩, rfl, rfl⟩
    simp only [List.length_zipWith, h4, h5, min_self]
  | triad =>
    simp only [OMPStream.call, omp_triad_run scalar cfg s hN h4 h5 h6, bind, Except.bind, pure,
      Except.pure]
    refine ⟨_, rfl, ⟨h1, h2, h3, ?_, h5, h6⟩, rfl, rfl⟩
    simp only [List.length_zipWith, h5, h6, min_self]
  | dot =>
    simp only [OMPStream.call, omp_dot_run s hN h4 h5, bind, Except.bind, pure, Except.pure]
    exact ⟨_, rfl, ⟨h1, h2, h3, h4, h5, h6⟩, rfl, rfl⟩
  | read_arrays a b c =>
    obtain ⟨ha, hb, hc⟩ := hop
    simp only [OMPStream.call,
      omp_read_arrays_run s a b c ⟨h1, h2, h3, h4, h5, h6⟩ hN ha hb hc, bind, Except.bind,
      pure, Except.pure]
    exact ⟨_, rfl, ⟨h4, h5, h6, h4, h5, h6⟩, rfl, rfl⟩

theorem kokkos_drive_refines (scalar : α) :
    ∀ (ops : List (Op α)) (s : KOKKOSStream α), s.WF → s.array_size ≤ INT_MAX →
      (∀ op ∈ ops, op.fits s.array_size) →
      KOKKOSStream.drive scalar s ops = .ok (contract_drive scalar s.array_size s.arrays ops) := by
  intro ops
  induction ops with
  | nil => intro s _ _ _; rfl
  | cons op rest ih =>
    intro s hs hN hfit
    obtain ⟨t, hcall, hwf, hn, harr⟩ :=
      kokkos_call_refines scalar s op hs hN (hfit op (List.mem_cons_self op rest))
    have hrest := ih t hwf (hn ▸ hN)
      (fun o ho => hn ▸ hfit o (List.mem_cons_of_mem op ho))
    simp only [KOKKOSStream.drive, hcall, hrest, contract_drive, hn, harr]
    rw [← harr]
    rfl

theorem omp_drive_refines (scalar : α) (cfg : Build) :
    ∀ (ops : List (Op α)) (s : OMPStream α), s.WF → s.array_size ≤ INT_MAX →
      (∀ op ∈ ops, op.fits s.array_size) →
      OMPStream.drive scalar cfg s ops =
        .ok (contract_drive scalar s.array_size s.arrays ops) := by
  intro ops
  induction ops with
  | nil => intro s _ _ _; rfl
  | cons op rest ih =>
    intro s hs hN hfit
    obtain ⟨t, hcall, hwf, hn, harr⟩ :=
      omp_call_refines scalar cfg s op hs hN (hfit op (List.mem_cons_self op rest))
    have hrest := ih t hwf (hn ▸ hN)
      (fun o ho => hn ▸ hfit o (List.mem_cons_of_mem op ho))
    simp only [OMPStream.drive, hcall, hrest, contract_drive, hn, harr]
    rw [← harr]
    rfl

end Refinement

/-! ## Sessions on fresh backends -/

section Sessions

variable {α : Type} [Semiring α]

theorem kokkos_session_refines (scalar : α) (N : Nat) (device_index : Int)
    (junk : Nat → Nat → α) (ops : List (Op α)) (hN : N ≤ INT_MAX)
    (hfit : ∀ op ∈ ops, op.fits N) :
    ∃ m, KOKKOSStream.session scalar N device_index junk ops =
      .ok (contract_drive scalar N m ops) := by
  obtain ⟨s, hnew, hwf, hn⟩ := kokkos_new_wf N device_index junk
  refine ⟨s.arrays, ?_⟩
  simp only [KOKKOSStream.session, hnew, bind, Except.bind]
  rw [kokkos_drive_refines scalar ops s hwf (hn ▸ hN) (hn ▸ hfit), hn]

theorem omp_session_refines (scalar : α) (cfg : Build) (N : Nat) (device : Int)
    (junk : Nat → Nat → α) (ops : List (Op α)) (hN : N ≤ INT_MAX)
    (hfit : ∀ op ∈ ops, op.fits N) :
    ∃ m, OMPStream.session scalar cfg N device junk ops =
      .ok (contract_drive scalar N m ops) := by
  obtain ⟨s, hnew, hwf, hn⟩ := omp_new_wf N device junk
  refine ⟨s.arrays, ?_⟩
  simp only [OMPStream.session, hnew, bind, Except.bind]
  rw [omp_drive_refines scalar cfg ops s hwf (hn ▸ hN) (hn ▸ hfit), hn]

theorem contract_drive_init (scalar : α) (N : Nat) (m1 m2 : Arrays α) (x y z : α)
    (rest : List (Op α)) :
    contract_drive scalar N m1 (Op.init_arrays x y z :: rest) =
      contract_drive scalar N m2 (Op.init_arrays x y z :: rest) := rfl

/-- Within the range of `int`, the two backends show the same arrays and give the same
replies along every sequence of calls that starts with `init_arrays`. -/
theorem sessions_agree_within_int (scalar : α) (cfg : Build) (N : Nat)
    (device_index device : Int) (junk1 junk2 : Nat → Nat → α) (x y z : α)
    (rest : List (Op α)) (hN : N ≤ INT_MAX) (hfit : ∀ op ∈ rest, op.fits N) :
    KOKKOSStream.session scalar N device_index junk1 (Op.init_arrays x y z :: rest) =
      OMPStream.session scalar cfg N device junk2 (Op.init_arrays x y z :: rest) := by
  have hfit2 : ∀ op ∈ Op.init_arrays x y z :: rest, op.fits N := by
    intro op hop
    rcases List.mem_cons.mp hop with h | h
    · subst h; trivial
    · exact hfit op h
  obtain ⟨m1, h1⟩ := kokkos_session_refines scalar N device_index junk1 _ hN hfit2
  obtain ⟨m2, h2⟩ := omp_session_refines scalar cfg N device junk2 _ hN hfit2
  rw [h1, h2, contract_drive_init scalar N m1 m2]

theorem kokkos_session_init (scalar : α) (N : Nat) (device_index : Int)
    (junk : Nat → Nat → α) (x y z : α) :
    KOKKOSStream.session scalar N device_index junk [Op.init_arrays x y z] =
      .ok [{ A := List.replicate N x, B := List.replicate N y, C := List.replicate N z,
             reply := Reply.done }] := by
  simp only [KOKKOSStream.session, KOKKOSStream.new, KOKKOSStream.drive, KOKKOSStream.call,
    bind, Except.bind, pure, Except.pure]
  rw [kokkos_init_arrays_run _ x y z (length_fresh _ _) (length_fresh _ _) (length_fresh _ _)]

theorem omp_session_init_overflow (scalar : α) (cfg : Build) (N : Nat) (hN : INT_MAX < N)
    (device : Int) (junk : Nat → Nat → α) (x y z : α) (rest : List (Op α)) :
    OMPStream.session scalar cfg N device junk (Op.init_arrays x y z :: rest) =
      .error .signedOverflow := by
  simp only [OMPStream.session, OMPStream.new, OMPStream.drive, OMPStream.call, bind,
    Except.bind]
  rw [omp_init_arrays_overflow cfg _ x y z hN (length_fresh _ _) (length_fresh _ _)
    (length_fresh _ _)]

end Sessions

/-! ## Running a kernel twice, and arrays that hold one value -/

section TwiceUniform

variable {α : Type}

theorem contract_twice [Semiring α] (scalar : α) (N : Nat) (m : Arrays α) (op : Op α) :
    (contract scalar N (contract scalar N m op).1 op).1 = (contract scalar N m op).1 := by
  cases op <;> rfl

theorem kokkos_call_twice [Semiring α] (scalar : α) (s : KOKKOSStream α) (op : Op α)
    (hs : s.WF) (hN : s.array_size ≤ INT_MAX) (hfit : op.fits s.array_size) :
    ∃ t u r, s.call scalar op = .ok (t, r) ∧ t.call scalar op = .ok (u, r) ∧
      u.arrays = t.arrays := by
  obtain ⟨t, h1, wf1, n1, a1⟩ := kokkos_call_refines scalar s op hs hN hfit
  obtain ⟨u, h2, _, _, a2⟩ := kokkos_call_refines scalar t op wf1 (n1 ▸ hN) (n1 ▸ hfit)
  refine ⟨t, u, _, h1, ?_, ?_⟩
  · rw [h2, n1, a1]
    cases op <;> rfl
  · rw [a2, n1, a1]
    cases op <;> rfl

theorem omp_call_twice [Semiring α] (scalar : α) (cfg : Build) (s : OMPStream α) (op : Op α)
    (hs : s.WF) (hN : s.array_size ≤ INT_MAX) (hfit : op.fits s.array_size) :
    ∃ t u r, s.call scalar cfg op = .ok (t, r) ∧ t.call scalar cfg op = .ok (u, r) ∧
      u.arrays = t.arrays := by
  obtain ⟨t, h1, wf1, n1, a1⟩ := omp_call_refines scalar cfg s op hs hN hfit
  obtain ⟨u, h2, _, _, a2⟩ := omp_call_refines scalar cfg t op wf1 (n1 ▸ hN) (n1 ▸ hfit)
  refine ⟨t, u, _, h1, ?_, ?_⟩
  · rw [h2, n1, a1]
    cases op <;> rfl
  · rw [a2, n1, a1]
    cases op <;> rfl

theorem sum_uniform [Semiring α] (N : Nat) (a b : α) :
    ∑ i in Finset.range N, (List.replicate N a).getD i 0 * (List.replicate N b).getD i 0 =
      (N : α) * a * b := by
  have h : ∀ i ∈ Finset.range N, (List.replicate N a).getD i 0 *
      (List.replicate N b).getD i 0 = a * b := by
    intro i hi
    have hi2 : i < N := Finset.mem_range.mp hi
    simp [List.getD_eq_getElem?_getD, List.getElem?_replicate, hi2]
  rw [Finset.sum_congr rfl h]
  simp [mul_assoc]

/-- The contract keeps arrays that hold one value each that way, and the reply of `dot`
on such arrays is `N * a * b`. -/
theorem contract_uniform [Semiring α] (scalar : α) (N : Nat) (m : Arrays α) (op : Op α)
    (a b c : α) (hA : uniform N a m.A) (hB : uniform N b m.B) (hC : uniform N c m.C) :
    ∃ a2 b2 c2, uniform N a2 (contract scalar N m op).1.A ∧
      uniform N b2 (contract scalar N m op).1.B ∧
      uniform N c2 (contract scalar N m op).1.C ∧
      ∀ v, (contract scalar N m op).2 = Reply.sum v → v = (N : α) * a2 * b2 := by
  unfold uniform at hA hB hC
  cases op with
  | init_arrays x y z => exact ⟨x, y, z, rfl, rfl, rfl, fun v h => by cases h⟩
  | copy => exact ⟨a, b, a, hA, hB, hA, fun v h => by cases h⟩
  | mul =>
    refine ⟨a, scalar * c, c, hA, ?_, hC, fun v h => by cases h⟩
    simp only [contract, uniform, hC, List.map_replicate]
  | add =>
    refine ⟨a, b, a + b, hA, hB, ?_, fun v h => by cases h⟩
    simp only [contract, uniform, hA, hB, List.zipWith_replicate, min_self]
  | triad =>
    refine ⟨b + scalar * c, b, c, ?_, hB, hC, fun v h => by cases h⟩
    simp only [contract, uniform, hB, hC, List.zipWith_replicate, min_self]
  | dot =>
    refine ⟨a, b, c, hA, hB, hC, fun v h => ?_⟩
    simp only [contract, hA, hB, sum_uniform] at h
    exact (Reply.sum.inj h).symm
  | read_arrays x y z => exact ⟨a, b, c, hA, hB, hC, fun v h => by cases h⟩

theorem contract_drive_uniform [Semiring α] (scalar : α) (N : Nat) :
    ∀ (ops : List (Op α)) (m : Arrays α) (a b c : α), uniform N a m.A → uniform N b m.B →
      uniform N c m.C →
      ∀ seen ∈ contract_drive scalar N m ops, ∃ a2 b2 c2, uniform N a2 seen.A ∧
        uniform N b2 seen.B ∧ uniform N c2 seen.C ∧
        ∀ v, seen.reply = Reply.sum v → v = (N : α) * a2 * b2 := by
  intro ops
  induction ops with
  | nil => intro m a b c _ _ _ seen h; cases h
  | cons op rest ih =>
    intro m a b c hA hB hC seen hseen
    obtain ⟨a2, b2, c2, h1, h2, h3, h4⟩ := contract_uniform scalar N m op a b c hA hB hC
    simp only [contract_drive, List.mem_cons] at hseen
    rcases hseen with h | h
    · subst h
      exact ⟨a2, b2, c2, h1, h2, h3, h4⟩
    · exact ih _ a2 b2 c2 h1 h2 h3 seen h

/-- Within the range of `int`, along every sequence of calls that starts with
`init_arrays`, each backend shows arrays that hold one value each after every call,
and every `dot` replies `N * a * b`. -/
theorem sessions_uniform_within_int [Semiring α] (scalar : α) (cfg : Build) (N : Nat)
    (device_index device : Int) (junk1 junk2 : Nat → Nat → α) (x y z : α)
    (rest : List (Op α)) (hN : N ≤ INT_MAX) (hfit : ∀ op ∈ rest, op.fits N) :
    ∃ trace, KOKKOSStream.session scalar N device_index junk1 (Op.init_arrays x y z :: rest) =
        .ok trace ∧
      OMPStream.session scalar cfg N device junk2 (Op.init_arrays x y z :: rest) = .ok trace ∧
      ∀ seen ∈ trace, ∃ a b c, uniform N a seen.A ∧ uniform N b seen.B ∧ uniform N c seen.C ∧
        ∀ v, seen.reply = Reply.sum v → v = (N : α) * a * b := by
  have hfit2 : ∀ op ∈ Op.init_arrays x y z :: rest, op.fits N := by
    intro op hop
    rcases List.mem_cons.mp hop with h | h
    · subst h; trivial
    · exact hfit op h
  obtain ⟨m1, h1⟩ := kokkos_session_refines scalar N device_index junk1 _ hN hfit2
  obtain ⟨m2, h2⟩ := omp_session_refines scalar cfg N device junk2 _ hN hfit2
  refine ⟨_, h1, ?_, ?_⟩
  · rw [h2, contract_drive_init scalar N m2 m1]
  · intro seen hseen
    simp only [contract_drive, List.mem_cons] at hseen
    rcases hseen with h | h
    · subst h
      exact ⟨x, y, z, rfl, rfl, rfl, fun v hv => by cases hv⟩
    · exact contract_drive_uniform scalar N rest
        (contract scalar N m1 (Op.init_arrays x y z)).1 x y z rfl rfl rfl seen h

end TwiceUniform

/-! ## Calls on OpenMP backends of more than `INT_MAX` elements -/

section CallOverflow

variable {α : Type} [Zero α] [Add α] [Mul α]

theorem omp_call_overflow (scalar : α) (cfg : Build) (s : OMPStream α) (op : Op α)
    (hs : s.WF) (hN : INT_MAX < s.array_size) (hfit : op.fits s.array_size) :
    s.call scalar cfg op = .error .signedOverflow := by
  obtain ⟨h1, h2, h3, h4, h5, h6⟩ := hs
  cases op with
  | init_arrays x y z =>
    simp only [OMPStream.call, omp_init_arrays_overflow cfg s x y z hN h4 h5 h6, bind,
      Except.bind]
  | copy => simp only [OMPStream.call, omp_copy_overflow cfg s hN h4 h6, bind, Except.bind]
  | mul =>
    simp only [OMPStream.call, omp_mul_overflow scalar cfg s hN h5 h6, bind, Except.bind]
  | add => simp only [OMPStream.call, omp_add_overflow cfg s hN h4 h5 h6, bind, Except.bind]
  | triad =>
    simp only [OMPStream.call, omp_triad_overflow scalar cfg s hN h4 h5 h6, bind, Except.bind]
  | dot => simp only [OMPStream.call, omp_dot_overflow s hN h4 h5, bind, Except.bind]
  | read_arrays a b c =>
    obtain ⟨ha, hb, hc⟩ := hfit
    simp only [OMPStream.call,
      omp_read_arrays_overflow s a b c ⟨h1, h2, h3, h4, h5, h6⟩ hN ha hb hc, bind, Except.bind]

theorem omp_session_overflow (scalar : α) (cfg : Build) (N : Nat) (hN : INT_MAX < N)
    (device : Int) (junk : Nat → Nat → α) (op : Op α) (rest : List (Op α))
    (hfit : op.fits N) :
    OMPStream.session scalar cfg N device junk (op :: rest) = .error .signedOverflow := by
  obtain ⟨s, hnew, hwf, hn⟩ := omp_new_wf N device junk
  simp only [OMPStream.session, hnew, bind, Except.bind, OMPStream.drive,
    omp_call_overflow scalar cfg s op hwf (hn ▸ hN) (hn ▸ hfit)]

end CallOverflow

/-! ## The claims C12 to C15, C17 and C18 -/

section ClaimsTwo

/-- C12: for every device index, negative and out-of-range ones included, each of the
four queries returns its fixed text: "Kokkos" for the name and the driver in the
Kokkos backend, "Device name unavailable" and "Device driver unavailable" in the
OpenMP backend. The queries are total functions, so they cannot fail. -/
theorem C12_device_queries_fixed (device : Int) :
    KOKKOS.getDeviceName device = "Kokkos" ∧
    KOKKOS.getDeviceDriver device = "Kokkos" ∧
    OMP.getDeviceName device = "Device name unavailable" ∧
    OMP.getDeviceDriver device = "Device driver unavailable" :=
  ⟨rfl, rfl, rfl, rfl⟩

/-- C13: in both backends, one iteration of the loop body of each elementwise kernel
(`init_arrays`, `copy`, `mul`, `add`, `triad`) writes only its own element of the
target and what it leaves there depends only on the elements at its own index, so no
iteration reads an element that another one writes; and on arrays of `array_size`
elements the body run at the indices `0 .. array_size - 1` in any permuted order
ends in the same state as run in increasing order. -/
theorem C13_loop_bodies_in_any_order (α : Type) [Add α] [Mul α] (scalar x y z : α)
    (s : KOKKOSStream α) (o : OMPStream α) (p q : List Nat)
    (hs : s.WF) (ho : o.WF)
    (hp : p.Perm (List.range s.array_size)) (hq : q.Perm (List.range o.array_size)) :
    (confined (KOKKOSStream.init_arrays_body x y z) KOKKOSStream.arrays true true true ∧
      confined (@KOKKOSStream.copy_body α) KOKKOSStream.arrays false false true ∧
      confined (KOKKOSStream.mul_body scalar) KOKKOSStream.arrays false true false ∧
      confined (@KOKKOSStream.add_body α _) KOKKOSStream.arrays false false true ∧
      confined (KOKKOSStream.triad_body scalar) KOKKOSStream.arrays true false false ∧
      confined (OMPStream.init_arrays_body x y z) OMPStream.arrays true true true ∧
      confined (@OMPStream.copy_body α) OMPStream.arrays false false true ∧
      confined (OMPStream.mul_body scalar) OMPStream.arrays false true false ∧
      confined (@OMPStream.add_body α _) OMPStream.arrays false false true ∧
      confined (OMPStream.triad_body scalar) OMPStream.arrays true false false) ∧
    (orderFree (KOKKOSStream.init_arrays_body x y z) s.array_size p s ∧
      orderFree KOKKOSStream.copy_body s.array_size p s ∧
      orderFree (KOKKOSStream.mul_body scalar) s.array_size p s ∧
      orderFree KOKKOSStream.add_body s.array_size p s ∧
      orderFree (KOKKOSStream.triad_body scalar) s.array_size p s ∧
      orderFree (OMPStream.init_arrays_body x y z) o.array_size q o ∧
      orderFree OMPStream.copy_body o.array_size q o ∧
      orderFree (OMPStream.mul_body scalar) o.array_size q o ∧
      orderFree OMPStream.add_body o.array_size q o ∧
      orderFree (OMPStream.triad_body scalar) o.array_size q o) := by
  obtain ⟨k1, k2, k3, _, _, _⟩ := hs
  obtain ⟨_, _, _, o1, o2, o3⟩ := ho
  exact ⟨⟨kokkos_init_arrays_body_confined x y z, kokkos_copy_body_confined,
      kokkos_mul_body_confined scalar, kokkos_add_body_confined,
      kokkos_triad_body_confined scalar, omp_init_arrays_body_confined x y z,
      omp_copy_body_confined, omp_mul_body_confined scalar, omp_add_body_confined,
      omp_triad_body_confined scalar⟩,
    ⟨kokkos_init_arrays_body_perm s x y z p k1 k2 k3 hp,
      kokkos_copy_body_perm s p k1 k3 hp,
      kokkos_mul_body_perm scalar s p k2 k3 hp,
      kokkos_add_body_perm s p k1 k2 k3 hp,
      kokkos_triad_body_perm scalar s p k1 k2 k3 hp,
      omp_init_arrays_body_perm o x y z q o1 o2 o3 hq,
      omp_copy_body_perm o q o1 o3 hq,
      omp_mul_body_perm scalar o q o2 o3 hq,
      omp_add_body_perm o q o1 o2 o3 hq,
      omp_triad_body_perm scalar o q o1 o2 o3 hq⟩⟩

/-- C13 at two backends of three elements, with the orders 2, 0, 1 and 1, 2, 0. -/
theorem C13_loop_bodies_in_any_order_witness :
    smallKokkos.WF ∧ smallOMP.WF ∧
    [2, 0, 1].Perm (List.range smallKokkos.array_size) ∧
    [1, 2, 0].Perm (List.range smallOMP.array_size) ∧
    ((confined (KOKKOSStream.init_arrays_body (1 : ℤ) 2 3) KOKKOSStream.arrays true true true ∧
      confined (@KOKKOSStream.copy_body ℤ) KOKKOSStream.arrays false false true ∧
      confined (KOKKOSStream.mul_body (5 : ℤ)) KOKKOSStream.arrays false true false ∧
      confined (@KOKKOSStream.add_body ℤ _) KOKKOSStream.arrays false false true ∧
      confined (KOKKOSStream.triad_body (5 : ℤ)) KOKKOSStream.arrays true false false ∧
      confined (OMPStream.init_arrays_body (1 : ℤ) 2 3) OMPStream.arrays true true true ∧
      confined (@OMPStream.copy_body ℤ) OMPStream.arrays false false true ∧
      confined (OMPStream.mul_body (5 : ℤ)) OMPStream.arrays false true false ∧
      confined (@OMPStream.add_body ℤ _) OMPStream.arrays false false true ∧
      confined (OMPStream.triad_body (5 : ℤ)) OMPStream.arrays true false false) ∧
    (orderFree (KOKKOSStream.init_arrays_body 1 2 3) smallKokkos.array_size [2, 0, 1]
        smallKokkos ∧
      orderFree KOKKOSStream.copy_body smallKokkos.array_size [2, 0, 1] smallKokkos ∧
      orderFree (KOKKOSStream.mul_body 5) smallKokkos.array_size [2, 0, 1] smallKokkos ∧
      orderFree KOKKOSStream.add_body smallKokkos.array_size [2, 0, 1] smallKokkos ∧
      orderFree (KOKKOSStream.triad_body 5) smallKokkos.array_size [2, 0, 1] smallKokkos ∧
      orderFree (OMPStream.init_arrays_body 1 2 3) smallOMP.array_size [1, 2, 0] smallOMP ∧
      orderFree OMPStream.copy_body smallOMP.array_size [1, 2, 0] smallOMP ∧
      orderFree (OMPStream.mul_body 5) smallOMP.array_size [1, 2, 0] smallOMP ∧
      orderFree OMPStream.add_body smallOMP.array_size [1, 2, 0] smallOMP ∧
      orderFree (OMPStream.triad_body 5) smallOMP.array_size [1, 2, 0] smallOMP)) :=
  ⟨⟨rfl, rfl, rfl, rfl, rfl, rfl⟩, ⟨rfl, rfl, rfl, rfl, rfl, rfl⟩, by decide, by decide,
    C13_loop_bodies_in_any_order ℤ 5 1 2 3 smallKokkos smallOMP [2, 0, 1] [1, 2, 0]
      ⟨rfl, rfl, rfl, rfl, rfl, rfl⟩ ⟨rfl, rfl, rfl, rfl, rfl, rfl⟩ (by decide) (by decide)⟩

/-- C14: with an array size of 3000000000, which `unsigned int` holds, the loop
`for (int i = 0; i < array_size; i++)` does not visit the indices up to
`array_size - 1`: its counter leaves the range of `int` first. -/
theorem C14_int_counter_overflows :
    for_int hugeSize visit INT_RANGE 0 [] = .error .signedOverflow :=
  visit_overflow hugeSize int_max_lt_hugeSize

/-- C15, as stated, fails: the only runtime call that `dot` makes on a Kokkos backend
is the `parallel_reduce`; no fence follows it. -/
theorem C15_dot_has_no_fence :
    (do
      let s ← KOKKOSStream.new 2 0 zeroJunk
      let r ← s.dot
      pure (r.2.calls.drop s.calls.length)) = .ok [KokkosCall.parallel_reduce 2] := by
  decide

/-- C15, amended: on a Kokkos backend whose arrays have `array_size` elements, each of
`init_arrays`, `copy`, `mul`, `add` and `triad` makes two runtime calls, the
`parallel_for` and then the fence, which is the last one; `dot` makes one, the
`parallel_reduce`, and no fence. -/
theorem C15_kokkos_runtime_calls (α : Type) [Semiring α] (startScalar : α)
    (s : KOKKOSStream α) (x y z : α) (hs : s.WF) :
    (∃ t, s.init_arrays x y z = .ok t ∧
      t.calls = s.calls ++ [KokkosCall.parallel_for s.array_size, KokkosCall.fence]) ∧
    (∃ t, s.copy = .ok t ∧
      t.calls = s.calls ++ [KokkosCall.parallel_for s.array_size, KokkosCall.fence]) ∧
    (∃ t, s.mul startScalar = .ok t ∧
      t.calls = s.calls ++ [KokkosCall.parallel_for s.array_size, KokkosCall.fence]) ∧
    (∃ t, s.add = .ok t ∧
      t.calls = s.calls ++ [KokkosCall.parallel_for s.array_size, KokkosCall.fence]) ∧
    (∃ t, s.triad startScalar = .ok t ∧
      t.calls = s.calls ++ [KokkosCall.parallel_for s.array_size, KokkosCall.fence]) ∧
    (∃ r, s.dot = .ok r ∧
      r.2.calls = s.calls ++ [KokkosCall.parallel_reduce s.array_size]) :=
  kokkos_calls_of_kernels startScalar s x y z hs

/-- C15, amended, at a Kokkos backend of three elements. -/
theorem C15_kokkos_runtime_calls_witness :
    smallKokkos.WF ∧
    ((∃ t, smallKokkos.init_arrays 1 2 3 = .ok t ∧
        t.calls = smallKokkos.calls ++
          [KokkosCall.parallel_for smallKokkos.array_size, KokkosCall.fence]) ∧
      (∃ t, smallKokkos.copy = .ok t ∧
        t.calls = smallKokkos.calls ++
          [KokkosCall.parallel_for smallKokkos.array_size, KokkosCall.fence]) ∧
      (∃ t, smallKokkos.mul 5 = .ok t ∧
        t.calls = smallKokkos.calls ++
          [KokkosCall.parallel_for smallKokkos.array_size, KokkosCall.fence]) ∧
      (∃ t, smallKokkos.add = .ok t ∧
        t.calls = smallKokkos.calls ++
          [KokkosCall.parallel_for smallKokkos.array_size, KokkosCall.fence]) ∧
      (∃ t, smallKokkos.triad 5 = .ok t ∧
        t.calls = smallKokkos.calls ++
          [KokkosCall.parallel_for smallKokkos.array_size, KokkosCall.fence]) ∧
      (∃ r, smallKokkos.dot = .ok r ∧
        r.2.calls = smallKokkos.calls ++
          [KokkosCall.parallel_reduce smallKokkos.array_size])) :=
  ⟨⟨rfl, rfl, rfl, rfl, rfl, rfl⟩,
    C15_kokkos_runtime_calls ℤ 5 smallKokkos 1 2 3 ⟨rfl, rfl, rfl, rfl, rfl, rfl⟩⟩

/-- C17: on 3000000000 elements the two backends part at the first call: after
`init_arrays(x, y, z)` the Kokkos backend shows the three constant arrays, while in
the OpenMP backend the `int` counter of the loop overflows at `INT_MAX`. -/
theorem C17_backends_part_when_huge (α : Type) [Semiring α] (startScalar : α) (cfg : Build)
    (junk : Nat → Nat → α) (device : Int) (x y z : α) :
    KOKKOSStream.session startScalar hugeSize device junk [Op.init_arrays x y z] =
      .ok [{ A := List.replicate hugeSize x, B := List.replicate hugeSize y,
             C := List.replicate hugeSize z, reply := Reply.done }] ∧
    OMPStream.session startScalar cfg hugeSize device junk [Op.init_arrays x y z] =
      .error .signedOverflow :=
  ⟨kokkos_session_init startScalar hugeSize device junk x y z,
    omp_session_init_overflow startScalar cfg hugeSize int_max_lt_hugeSize device junk x y z []⟩

/-- C18: on a fresh OpenMP backend of 3000000000 elements `init_arrays` does not leave
arrays that hold one value each, and a following kernel and `dot` return nothing: the
`int` counter of the loop of `init_arrays` overflows at `INT_MAX`. -/
theorem C18_omp_init_then_dot_overflows (α : Type) [Zero α] [Add α] [Mul α]
    (startScalar : α) (cfg : Build) (junk : Nat → Nat → α) (device : Int) (x y z : α) :
    OMPStream.session startScalar cfg hugeSize device junk
      [Op.init_arrays x y z, Op.dot] = .error .signedOverflow ∧
    OMPStream.session startScalar cfg hugeSize device junk
      [Op.init_arrays x y z, Op.triad, Op.dot] = .error .signedOverflow :=
  ⟨omp_session_overflow startScalar cfg hugeSize int_max_lt_hugeSize device junk _ _ trivial,
    omp_session_overflow startScalar cfg hugeSize int_max_lt_hugeSize device junk _ _ trivial⟩

end ClaimsTwo

/-! ## Operations that return: what they leave behind

A loop `for (int i = 0; i < array_size; i++)` that returns has made all its
iterations, so `array_size` is at most `INT_MAX`. The iterations of a kernel commute
and each is idempotent: the state a kernel returns is a fixed point of every one of
them, and a second run from it makes no change. -/

/-! ## Operations that return: what they leave behind -/

theorem for_int_not_ok_aux {σ : Type} (N : Nat) (body : Nat → σ → Run σ) (hN : INT_MAX < N)
    (t : σ) :
    ∀ (k fuel i : Nat) (s : σ), i + k = INT_MAX → for_int N body fuel i s ≠ .ok t := by
  intro k
  induction k with
  | zero =>
    intro fuel i s hi
    cases fuel with
    | zero => intro h; cases h
    | succ fuel =>
      have hiN : i < N := by omega
      have hov : ¬ (i + 1 ≤ INT_MAX) := by omega
      simp only [for_int, hiN, if_true]
      cases body i s with
      | error e => intro h; cases h
      | ok u => simp only [hov, if_false]; intro h; cases h
  | succ k ih =>
    intro fuel i s hi
    cases fuel with
    | zero => intro h; cases h
    | succ fuel =>
      have hiN : i < N := by omega
      have hov : i + 1 ≤ INT_MAX := by omega
      simp only [for_int, hiN, if_true]
      cases body i s with
      | error e => intro h; cases h
      | ok u =>
        simp only [hov, if_true]
        exact ih fuel (i + 1) u (by omega)

theorem for_int_ok {σ : Type} (N : Nat) (body : Nat → σ → Run σ) (s t : σ)
    (h : for_int N body INT_RANGE 0 s = .ok t) :
    N ≤ INT_MAX ∧ run_order body (List.range N) s = .ok t := by
  by_cases hN : N ≤ INT_MAX
  · refine ⟨hN, ?_⟩
    rw [← for_range_eq_run_order_range, ← for_int_eq_for_range N body hN]
    exact h
  · exact absurd h (for_int_not_ok_aux N body (by omega) t INT_MAX INT_RANGE 0 s (by simp))

theorem for_int_of_run_order {σ : Type} (N : Nat) (body : Nat → σ → Run σ) (s : σ)
    (hN : N ≤ INT_MAX) :
    for_int N body INT_RANGE 0 s = run_order body (List.range N) s := by
  rw [for_int_eq_for_range N body hN, for_range_eq_run_order_range]

theorem foldl_keep {σ β : Type} (upd : Nat → σ → σ) (f : σ → β)
    (h : ∀ i s, f (upd i s) = f s) :
    ∀ (p : List Nat) (s : σ), f (p.foldl (fun t i => upd i t) s) = f s := by
  intro p
  induction p with
  | nil => intro s; rfl
  | cons i rest ih => intro s; rw [List.foldl_cons, ih, h]

theorem foldl_guard {σ : Type} (upd : Nat → σ → σ) (G : Nat → σ → Prop)
    (hG : ∀ i j s, G j s → G j (upd i s)) (j : Nat) :
    ∀ (p : List Nat) (s : σ), G j s → G j (p.foldl (fun t i => upd i t) s) := by
  intro p
  induction p with
  | nil => intro s h; exact h
  | cons i rest ih => intro s h; rw [List.foldl_cons]; exact ih _ (hG i j s h)

theorem foldl_fixed {σ : Type} (upd : Nat → σ → σ)
    (hcomm : ∀ i j s, upd j (upd i s) = upd i (upd j s)) (j : Nat) :
    ∀ (p : List Nat) (s : σ), upd j s = s →
      upd j (p.foldl (fun t i => upd i t) s) = p.foldl (fun t i => upd i t) s := by
  intro p
  induction p with
  | nil => intro s h; exact h
  | cons i rest ih =>
    intro s h
    rw [List.foldl_cons]
    exact ih _ (by rw [hcomm i j s, h])

theorem run_order_steps {σ : Type} (body : Nat → σ → Run σ) (upd : Nat → σ → σ)
    (G : Nat → σ → Prop)
    (hinv : ∀ i s t, body i s = .ok t → G i s ∧ t = upd i s)
    (hG : ∀ i j s, G j s → G j (upd i s))
    (hcomm : ∀ i j s, upd j (upd i s) = upd i (upd j s))
    (hidem : ∀ i s, upd i (upd i s) = upd i s) :
    ∀ (p : List Nat) (s t : σ), run_order body p s = .ok t →
      t = p.foldl (fun t i => upd i t) s ∧ ∀ j ∈ p, G j t ∧ upd j t = t := by
  intro p
  induction p with
  | nil =>
    intro s t h
    simp only [run_order] at h
    cases h
    exact ⟨rfl, fun j hj => by cases hj⟩
  | cons i rest ih =>
    intro s t h
    simp only [run_order] at h
    cases hb : body i s with
    | error e => rw [hb] at h; cases h
    | ok s1 =>
      rw [hb] at h
      obtain ⟨hg, hs1⟩ := hinv i s s1 hb
      subst hs1
      obtain ⟨ht, hrest⟩ := ih (upd i s) t h
      refine ⟨ht, ?_⟩
      intro j hj
      rcases List.mem_cons.mp hj with hji | hjr
      · subst hji
        rw [ht]
        exact ⟨foldl_guard upd G hG j rest _ (hG j j s hg),
          foldl_fixed upd hcomm j rest _ (hidem j s)⟩
      · exact hrest j hjr

theorem run_order_of_settled {σ : Type} (body : Nat → σ → Run σ) (upd : Nat → σ → σ)
    (G : Nat → σ → Prop)
    (htot : ∀ i s, G i s → body i s = .ok (upd i s)) :
    ∀ (p : List Nat) (t : σ), (∀ j ∈ p, G j t ∧ upd j t = t) → run_order body p t = .ok t := by
  intro p
  induction p with
  | nil => intro t _; rfl
  | cons i rest ih =>
    intro t h
    obtain ⟨hg, hfix⟩ := h i (List.mem_cons_self i rest)
    simp only [run_order, htot i t hg, hfix]
    exact ih t (fun j hj => h j (List.mem_cons_of_mem i hj))

theorem run_order_settles {σ κ : Type} (body : Nat → σ → Run σ) (upd : Nat → σ → σ)
    (G : Nat → σ → Prop) (keep : σ → κ)
    (hinv : ∀ i s t, body i s = .ok t → G i s ∧ t = upd i s)
    (htot : ∀ i s, G i s → body i s = .ok (upd i s))
    (hG : ∀ i j s, G j s → G j (upd i s))
    (hcomm : ∀ i j s, upd j (upd i s) = upd i (upd j s))
    (hidem : ∀ i s, upd i (upd i s) = upd i s)
    (hkeep : ∀ i s, keep (upd i s) = keep s)
    (p : List Nat) (s t : σ) (h : run_order body p s = .ok t) :
    keep t = keep s ∧ run_order body p t = .ok t := by
  obtain ⟨ht, hset⟩ := run_order_steps body upd G hinv hG hcomm hidem p s t h
  refine ⟨?_, run_order_of_settled body upd G htot p t hset⟩
  rw [ht]
  exact foldl_keep upd keep hkeep p s

theorem run_order_relabel {σ : Type} (body : Nat → σ → Run σ) (f : σ → σ)
    (hf : ∀ i s t, body i s = .ok t → body i (f s) = .ok (f t)) :
    ∀ (p : List Nat) (s t : σ), run_order body p s = .ok t →
      run_order body p (f s) = .ok (f t) := by
  intro p
  induction p with
  | nil =>
    intro s t h
    simp only [run_order] at h
    cases h
    rfl
  | cons i rest ih =>
    intro s t h
    simp only [run_order] at h
    cases hb : body i s with
    | error e => rw [hb] at h; cases h
    | ok s1 =>
      rw [hb] at h
      simp only [run_order, hf i s s1 hb]
      exact ih s1 t h

section Returns

variable {α : Type}

theorem kokkos_init_arrays_body_settles (x y z : α) (p : List Nat)
    (s t : KOKKOSStream α) (h : run_order (KOKKOSStream.init_arrays_body x y z) p s = .ok t) :
    (t.array_size = s.array_size ∧ t.d_a.length = s.d_a.length ∧
      t.d_b.length = s.d_b.length ∧ t.d_c.length = s.d_c.length) ∧
      ∀ c, run_order (KOKKOSStream.init_arrays_body x y z)
        p { t with calls := c } = .ok { t with calls := c } := by
  have hinv : ∀ i (u w : KOKKOSStream α), (KOKKOSStream.init_arrays_body x y z) i u = .ok w →
      (i < u.d_a.length ∧ i < u.d_b.length ∧ i < u.d_c.length) ∧
      w = { u with
        d_a := u.d_a.set i x,
        d_b := u.d_b.set i y,
        d_c := u.d_c.set i z } := by
    intro i u w hb
    unfold KOKKOSStream.init_arrays_body at hb
    obtain ⟨w0, hw0, hb⟩ := bind_ok_inv _ _ _ hb
    obtain ⟨w1, hw1, hb⟩ := bind_ok_inv _ _ _ hb
    obtain ⟨w2, hw2, hb⟩ := bind_ok_inv _ _ _ hb
    cases hb
    obtain ⟨rfl, hl0⟩ := wr_ok_inv _ _ _ _ hw0
    obtain ⟨rfl, hl1⟩ := wr_ok_inv _ _ _ _ hw1
    obtain ⟨rfl, hl2⟩ := wr_ok_inv _ _ _ _ hw2
    exact ⟨⟨hl0, hl1, hl2⟩, rfl⟩
  have htot : ∀ i (u : KOKKOSStream α),
      (i < u.d_a.length ∧ i < u.d_b.length ∧ i < u.d_c.length) →
      (KOKKOSStream.init_arrays_body x y z) i u = .ok { u with
        d_a := u.d_a.set i x,
        d_b := u.d_b.set i y,
        d_c := u.d_c.set i z } := by
    intro i u hg
    simp only [KOKKOSStream.init_arrays_body, wr_ok u.d_a i _ hg.1, wr_ok u.d_b i _ hg.2.1,
      wr_ok u.d_c i _ hg.2.2, bind, Except.bind, pure, Except.pure]
  obtain ⟨hk, ha⟩ := run_order_settles (KOKKOSStream.init_arrays_body x y z)
    (fun i (u : KOKKOSStream α) =>
      { u with
        d_a := u.d_a.set i x,
        d_b := u.d_b.set i y,
        d_c := u.d_c.set i z })
    (fun i (u : KOKKOSStream α) => i < u.d_a.length ∧ i < u.d_b.length ∧ i < u.d_c.length)
    (fun (u : KOKKOSStream α) => (u.array_size, u.d_a.length, u.d_b.length, u.d_c.length))
    hinv htot
    (by
      intro i j u hg
      dsimp only
      simp only [List.length_set]
      exact hg)
    (by
      intro i j u
      by_cases hij : i = j
      · subst hij; rfl
      · simp [List.set_comm _ _ _ hij])
    (by
      intro i u
      simp)
    (by
      intro i u
      simp only [List.length_set])
    p s t h
  simp only [Prod.mk.injEq] at hk
  refine ⟨hk, ?_⟩
  intro c
  refine run_order_relabel (KOKKOSStream.init_arrays_body x y z)
    (fun u => { u with calls := c }) ?_ p t t ha
  intro i u w hb
  unfold KOKKOSStream.init_arrays_body at hb ⊢
  obtain ⟨w0, hw0, hb⟩ := bind_ok_inv _ _ _ hb
  obtain ⟨w1, hw1, hb⟩ := bind_ok_inv _ _ _ hb
  obtain ⟨w2, hw2, hb⟩ := bind_ok_inv _ _ _ hb
  cases hb
  dsimp only
  simp only [hw0, hw1, hw2, bind, Except.bind, pure, Except.pure]

theorem kokkos_copy_body_settles (p : List Nat)
    (s t : KOKKOSStream α) (h : run_order KOKKOSStream.copy_body p s = .ok t) :
    (t.array_size = s.array_size ∧ t.d_a = s.d_a ∧
      t.d_b = s.d_b ∧ t.d_c.length = s.d_c.length) ∧
      ∀ c, run_order KOKKOSStream.copy_body
        p { t with calls := c } = .ok { t with calls := c } := by
  have hinv : ∀ i (u w : KOKKOSStream α), KOKKOSStream.copy_body i u = .ok w →
      (i < u.d_a.length ∧ i < u.d_c.length) ∧
      w = (match u.d_a[i]? with
        | some v => { u with d_c := u.d_c.set i v }
        | none => u) := by
    intro i u w hb
    unfold KOKKOSStream.copy_body at hb
    obtain ⟨v, hr0, hb⟩ := bind_ok_inv _ _ _ hb
    obtain ⟨w0, hw0, hb⟩ := bind_ok_inv _ _ _ hb
    cases hb
    have e0 := rd_ok_inv _ _ _ hr0
    obtain ⟨rfl, hl0⟩ := wr_ok_inv _ _ _ _ hw0
    exact ⟨⟨lt_length_of_getElem_some _ _ _ e0, hl0⟩, by simp only [e0]⟩
  have htot : ∀ i (u : KOKKOSStream α),
      (i < u.d_a.length ∧ i < u.d_c.length) →
      KOKKOSStream.copy_body i u = .ok (match u.d_a[i]? with
        | some v => { u with d_c := u.d_c.set i v }
        | none => u) := by
    intro i u hg
    obtain ⟨v, e0⟩ := getElem_some_of_lt u.d_a i hg.1
    simp only [KOKKOSStream.copy_body, rd_eq_ok _ _ _ e0, wr_ok u.d_c i _ hg.2, bind,
      Except.bind, pure, Except.pure, e0]
  obtain ⟨hk, ha⟩ := run_order_settles KOKKOSStream.copy_body
    (fun i (u : KOKKOSStream α) => match u.d_a[i]? with
      | some v => { u with d_c := u.d_c.set i v }
      | none => u)
    (fun i (u : KOKKOSStream α) => i < u.d_a.length ∧ i < u.d_c.length)
    (fun (u : KOKKOSStream α) => (u.array_size, u.d_a, u.d_b, u.d_c.length))
    hinv htot
    (by
      intro i j u hg
      dsimp only
      cases h0 : u.d_a[i]? <;>
        simp only [List.length_set] <;> exact hg)
    (by
      intro i j u
      by_cases hij : i = j
      · subst hij; rfl
      · cases hi0 : u.d_a[i]? <;>
          cases hj0 : u.d_a[j]? <;>
          simp [hi0, hj0, List.set_comm _ _ _ hij])
    (by
      intro i u
      cases hi0 : u.d_a[i]? <;> simp [hi0])
    (by
      intro i u
      dsimp only
      cases h0 : u.d_a[i]? <;> simp only [List.length_set])
    p s t h
  simp only [Prod.mk.injEq] at hk
  refine ⟨hk, ?_⟩
  intro c
  refine run_order_relabel KOKKOSStream.copy_body
    (fun u => { u with calls := c }) ?_ p t t ha
  intro i u w hb
  unfold KOKKOSStream.copy_body at hb ⊢
  obtain ⟨v, hr0, hb⟩ := bind_ok_inv _ _ _ hb
  obtain ⟨w0, hw0, hb⟩ := bind_ok_inv _ _ _ hb
  cases hb
  dsimp only
  simp only [hr0, hw0, bind, Except.bind, pure, Except.pure]

theorem kokkos_mul_body_settles [Mul α] (scalar : α) (p : List Nat)
    (s t : KOKKOSStream α) (h : run_order (KOKKOSStream.mul_body scalar) p s = .ok t) :
    (t.array_size = s.array_size ∧ t.d_a = s.d_a ∧
      t.d_b.length = s.d_b.length ∧ t.d_c = s.d_c) ∧
      ∀ c, run_order (KOKKOSStream.mul_body scalar)
        p { t with calls := c } = .ok { t with calls := c } := by
  have hinv : ∀ i (u w : KOKKOSStream α), (KOKKOSStream.mul_body scalar) i u = .ok w →
      (i < u.d_c.length ∧ i < u.d_b.length) ∧
      w = (match u.d_c[i]? with
        | some v => { u with d_b := u.d_b.set i (scalar * v) }
        | none => u) := by
    intro i u w hb
    unfold KOKKOSStream.mul_body at hb
    obtain ⟨v, hr0, hb⟩ := bind_ok_inv _ _ _ hb
    obtain ⟨w0, hw0, hb⟩ := bind_ok_inv _ _ _ hb
    cases hb
    have e0 := rd_ok_inv _ _ _ hr0
    obtain ⟨rfl, hl0⟩ := wr_ok_inv _ _ _ _ hw0
    exact ⟨⟨lt_length_of_getElem_some _ _ _ e0, hl0⟩, by simp only [e0]⟩
  have htot : ∀ i (u : KOKKOSStream α),
      (i < u.d_c.length ∧ i < u.d_b.length) →
      (KOKKOSStream.mul_body scalar) i u = .ok (match u.d_c[i]? with
        | some v => { u with d_b := u.d_b.set i (scalar * v) }
        | none => u) := by
    intro i u hg
    obtain ⟨v, e0⟩ := getElem_some_of_lt u.d_c i hg.1
    simp only [KOKKOSStream.mul_body, rd_eq_ok _ _ _ e0, wr_ok u.d_b i _ hg.2, bind, Except.bind,
      pure, Except.pure, e0]
  obtain ⟨hk, ha⟩ := run_order_settles (KOKKOSStream.mul_body scalar)
    (fun i (u : KOKKOSStream α) => match u.d_c[i]? with
      | some v => { u with d_b := u.d_b.set i (scalar * v) }
      | none => u)
    (fun i (u : KOKKOSStream α) => i < u.d_c.length ∧ i < u.d_b.length)
    (fun (u : KOKKOSStream α) => (u.array_size, u.d_a, u.d_b.length, u.d_c))
    hinv htot
    (by
      intro i j u hg
      dsimp only
      cases h0 : u.d_c[i]? <;>
        simp only [List.length_set] <;> exact hg)
    (by
      intro i j u
      by_cases hij : i = j
      · subst hij; rfl
      · cases hi0 : u.d_c[i]? <;>
          cases hj0 : u.d_c[j]? <;>
          simp [hi0, hj0, List.set_comm _ _ _ hij])
    (by
      intro i u
      cases hi0 : u.d_c[i]? <;> simp [hi0])
    (by
      intro i u
      dsimp only
      cases h0 : u.d_c[i]? <;> simp only [List.length_set])
    p s t h
  simp only [Prod.mk.injEq] at hk
  refine ⟨hk, ?_⟩
  intro c
  refine run_order_relabel (KOKKOSStream.mul_body scalar)
    (fun u => { u with calls := c }) ?_ p t t ha
  intro i u w hb
  unfold KOKKOSStream.mul_body at hb ⊢
  obtain ⟨v, hr0, hb⟩ := bind_ok_inv _ _ _ hb
  obtain ⟨w0, hw0, hb⟩ := bind_ok_inv _ _ _ hb
  cases hb
  dsimp only
  simp only [hr0, hw0, bind, Except.bind, pure, Except.pure]

theorem kokkos_add_body_settles [Add α] (p : List Nat)
    (s t : KOKKOSStream α) (h : run_order KOKKOSStream.add_body p s = .ok t) :
    (t.array_size = s.array_size ∧ t.d_a = s.d_a ∧
      t.d_b = s.d_b ∧ t.d_c.length = s.d_c.length) ∧
      ∀ c, run_order KOKKOSStream.add_body
        p { t with calls := c } = .ok { t with calls := c } := by
  have hinv : ∀ i (u w : KOKKOSStream α), KOKKOSStream.add_body i u = .ok w →
      (i < u.d_a.length ∧ i < u.d_b.length ∧ i < u.d_c.length) ∧
      w = (match u.d_a[i]?, u.d_b[i]? with
        | some va, some vb => { u with d_c := u.d_c.set i (va + vb) }
        | _, _ => u) := by
    intro i u w hb
    unfold KOKKOSStream.add_body at hb
    obtain ⟨va, hr0, hb⟩ := bind_ok_inv _ _ _ hb
    obtain ⟨vb, hr1, hb⟩ := bind_ok_inv _ _ _ hb
    obtain ⟨w0, hw0, hb⟩ := bind_ok_inv _ _ _ hb
    cases hb
    have e0 := rd_ok_inv _ _ _ hr0
    have e1 := rd_ok_inv _ _ _ hr1
    obtain ⟨rfl, hl0⟩ := wr_ok_inv _ _ _ _ hw0
    exact ⟨⟨lt_length_of_getElem_some _ _ _ e0,
      lt_length_of_getElem_some _ _ _ e1,
      hl0⟩,
      by simp only [e0, e1]⟩
  have htot : ∀ i (u : KOKKOSStream α),
      (i < u.d_a.length ∧ i < u.d_b.length ∧ i < u.d_c.length) →
      KOKKOSStream.add_body i u = .ok (match u.d_a[i]?, u.d_b[i]? with
        | some va, some vb => { u with d_c := u.d_c.set i (va + vb) }
        | _, _ => u) := by
    intro i u hg
    obtain ⟨va, e0⟩ := getElem_some_of_lt u.d_a i hg.1
    obtain ⟨vb, e1⟩ := getElem_some_of_lt u.d_b i hg.2.1
    simp only [KOKKOSStream.add_body, rd_eq_ok _ _ _ e0, rd_eq_ok _ _ _ e1,
      wr_ok u.d_c i _ hg.2.2, bind, Except.bind, pure, Except.pure, e0, e1]
  obtain ⟨hk, ha⟩ := run_order_settles KOKKOSStream.add_body
    (fun i (u : KOKKOSStream α) => match u.d_a[i]?, u.d_b[i]? with
      | some va, some vb => { u with d_c := u.d_c.set i (va + vb) }
      | _, _ => u)
    (fun i (u : KOKKOSStream α) => i < u.d_a.length ∧ i < u.d_b.length ∧ i < u.d_c.length)
    (fun (u : KOKKOSStream α) => (u.array_size, u.d_a, u.d_b, u.d_c.length))
    hinv htot
    (by
      intro i j u hg
      dsimp only
      cases h0 : u.d_a[i]? <;> cases h1 : u.d_b[i]? <;>
        simp only [List.length_set] <;> exact hg)
    (by
      intro i j u
      by_cases hij : i = j
      · subst hij; rfl
      · cases hi0 : u.d_a[i]? <;> cases hi1 : u.d_b[i]? <;>
          cases hj0 : u.d_a[j]? <;> cases hj1 : u.d_b[j]? <;>
          simp [hi0, hi1, hj0, hj1, List.set_comm _ _ _ hij])
    (by
      intro i u
      cases hi0 : u.d_a[i]? <;> cases hi1 : u.d_b[i]? <;> simp [hi0, hi1])
    (by
      intro i u
      dsimp only
      cases h0 : u.d_a[i]? <;> cases h1 : u.d_b[i]? <;> simp only [List.length_set])
    p s t h
  simp only [Prod.mk.injEq] at hk
  refine ⟨hk, ?_⟩
  intro c
  refine run_order_relabel KOKKOSStream.add_body
    (fun u => { u with calls := c }) ?_ p t t ha
  intro i u w hb
  unfold KOKKOSStream.add_body at hb ⊢
  obtain ⟨va, hr0, hb⟩ := bind_ok_inv _ _ _ hb
  obtain ⟨vb, hr1, hb⟩ := bind_ok_inv _ _ _ hb
  obtain ⟨w0, hw0, hb⟩ := bind_ok_inv _ _ _ hb
  cases hb
  dsimp only
  simp only [hr0, hr1, hw0, bind, Except.bind, pure, Except.pure]

theorem kokkos_triad_body_settles [Add α] [Mul α] (scalar : α) (p : List Nat)
    (s t : KOKKOSStream α) (h : run_order (KOKKOSStream.triad_body scalar) p s = .ok t) :
    (t.array_size = s.array_size ∧ t.d_a.length = s.d_a.length ∧
      t.d_b = s.d_b ∧ t.d_c = s.d_c) ∧
      ∀ c, run_order (KOKKOSStream.triad_body scalar)
        p { t with calls := c } = .ok { t with calls := c } := by
  have hinv : ∀ i (u w : KOKKOSStream α), (KOKKOSStream.triad_body scalar) i u = .ok w →
      (i < u.d_b.length ∧ i < u.d_c.length ∧ i < u.d_a.length) ∧
      w = (match u.d_b[i]?, u.d_c[i]? with
        | some vb, some vc => { u with d_a := u.d_a.set i (vb + scalar * vc) }
        | _, _ => u) := by
    intro i u w hb
    unfold KOKKOSStream.triad_body at hb
    obtain ⟨vb, hr0, hb⟩ := bind_ok_inv _ _ _ hb
    obtain ⟨vc, hr1, hb⟩ := bind_ok_inv _ _ _ hb
    obtain ⟨w0, hw0, hb⟩ := bind_ok_inv _ _ _ hb
    cases hb
    have e0 := rd_ok_inv _ _ _ hr0
    have e1 := rd_ok_inv _ _ _ hr1
    obtain ⟨rfl, hl0⟩ := wr_ok_inv _ _ _ _ hw0
    exact ⟨⟨lt_length_of_getElem_some _ _ _ e0,
      lt_length_of_getElem_some _ _ _ e1,
      hl0⟩,
      by simp only [e0, e1]⟩
  have htot : ∀ i (u : KOKKOSStream α),
      (i < u.d_b.length ∧ i < u.d_c.length ∧ i < u.d_a.length) →
      (KOKKOSStream.triad_body scalar) i u = .ok (match u.d_b[i]?, u.d_c[i]? with
        | some vb, some vc => { u with d_a := u.d_a.set i (vb + scalar * vc) }
        | _, _ => u) := by
    intro i u hg
    obtain ⟨vb, e0⟩ := getElem_some_of_lt u.d_b i hg.1
    obtain ⟨vc, e1⟩ := getElem_some_of_lt u.d_c i hg.2.1
    simp only [KOKKOSStream.triad_body, rd_eq_ok _ _ _ e0, rd_eq_ok _ _ _ e1,
      wr_ok u.d_a i _ hg.2.2, bind, Except.bind, pure, Except.pure, e0, e1]
  obtain ⟨hk, ha⟩ := run_order_settles (KOKKOSStream.triad_body scalar)
    (fun i (u : KOKKOSStream α) => match u.d_b[i]?, u.d_c[i]? with
      | some vb, some vc => { u with d_a := u.d_a.set i (vb + scalar * vc) }
      | _, _ => u)
    (fun i (u : KOKKOSStream α) => i < u.d_b.length ∧ i < u.d_c.length ∧ i < u.d_a.length)
    (fun (u : KOKKOSStream α) => (u.array_size, u.d_a.length, u.d_b, u.d_c))
    hinv htot
    (by
      intro i j u hg
      dsimp only
      cases h0 : u.d_b[i]? <;> cases h1 : u.d_c[i]? <;>
        simp only [List.length_set] <;> exact hg)
    (by
      intro i j u
      by_cases hij : i = j
      · subst hij; rfl
      · cases hi0 : u.d_b[i]? <;> cases hi1 : u.d_c[i]? <;>
          cases hj0 : u.d_b[j]? <;> cases hj1 : u.d_c[j]? <;>
          simp [hi0, hi1, hj0, hj1, List.set_comm _ _ _ hij])
    (by
      intro i u
      cases hi0 : u.d_b[i]? <;> cases hi1 : u.d_c[i]? <;> simp [hi0, hi1])
    (by
      intro i u
      dsimp only
      cases h0 : u.d_b[i]? <;> cases h1 : u.d_c[i]? <;> simp only [List.length_set])
    p s t h
  simp only [Prod.mk.injEq] at hk
  refine ⟨hk, ?_⟩
  intro c
  refine run_order_relabel (KOKKOSStream.triad_body scalar)
    (fun u => { u with calls := c }) ?_ p t t ha
  intro i u w hb
  unfold KOKKOSStream.triad_body at hb ⊢
  obtain ⟨vb, hr0, hb⟩ := bind_ok_inv _ _ _ hb
  obtain ⟨vc, hr1, hb⟩ := bind_ok_inv _ _ _ hb
  obtain ⟨w0, hw0, hb⟩ := bind_ok_inv _ _ _ hb
  cases hb
  dsimp only
  simp only [hr0, hr1, hw0, bind, Except.bind, pure, Except.pure]

theorem omp_init_arrays_body_settles (x y z : α) (p : List Nat)
    (s t : OMPStream α) (h : run_order (OMPStream.init_arrays_body x y z) p s = .ok t) :
    (t.array_size = s.array_size ∧ t.dev_a.length = s.dev_a.length ∧
      t.dev_b.length = s.dev_b.length ∧ t.dev_c.length = s.dev_c.length) ∧
      run_order (OMPStream.init_arrays_body x y z) p t = .ok t := by
  have hinv : ∀ i (u w : OMPStream α), (OMPStream.init_arrays_body x y z) i u = .ok w →
      (i < u.dev_a.length ∧ i < u.dev_b.length ∧ i < u.dev_c.length) ∧
      w = { u with
        dev_a := u.dev_a.set i x,
        dev_b := u.dev_b.set i y,
        dev_c := u.dev_c.set i z } := by
    intro i u w hb
    unfold OMPStream.init_arrays_body at hb
    obtain ⟨w0, hw0, hb⟩ := bind_ok_inv _ _ _ hb
    obtain ⟨w1, hw1, hb⟩ := bind_ok_inv _ _ _ hb
    obtain ⟨w2, hw2, hb⟩ := bind_ok_inv _ _ _ hb
    cases hb
    obtain ⟨rfl, hl0⟩ := wr_ok_inv _ _ _ _ hw0
    obtain ⟨rfl, hl1⟩ := wr_ok_inv _ _ _ _ hw1
    obtain ⟨rfl, hl2⟩ := wr_ok_inv _ _ _ _ hw2
    exact ⟨⟨hl0, hl1, hl2⟩, rfl⟩
  have htot : ∀ i (u : OMPStream α),
      (i < u.dev_a.length ∧ i < u.dev_b.length ∧ i < u.dev_c.length) →
      (OMPStream.init_arrays_body x y z) i u = .ok { u with
        dev_a := u.dev_a.set i x,
        dev_b := u.dev_b.set i y,
        dev_c := u.dev_c.set i z } := by
    intro i u hg
    simp only [OMPStream.init_arrays_body, wr_ok u.dev_a i _ hg.1, wr_ok u.dev_b i _ hg.2.1,
      wr_ok u.dev_c i _ hg.2.2, bind, Except.bind, pure, Except.pure]
  obtain ⟨hk, ha⟩ := run_order_settles (OMPStream.init_arrays_body x y z)
    (fun i (u : OMPStream α) =>
      { u with
        dev_a := u.dev_a.set i x,
        dev_b := u.dev_b.set i y,
        dev_c := u.dev_c.set i z })
    (fun i (u : OMPStream α) => i < u.dev_a.length ∧ i < u.dev_b.length ∧ i < u.dev_c.length)
    (fun (u : OMPStream α) => (u.array_size, u.dev_a.length, u.dev_b.length, u.dev_c.length))
    hinv htot
    (by
      intro i j u hg
      dsimp only
      simp only [List.length_set]
      exact hg)
    (by
      intro i j u
      by_cases hij : i = j
      · subst hij; rfl
      · simp [List.set_comm _ _ _ hij])
    (by
      intro i u
      simp)
    (by
      intro i u
      simp only [List.length_set])
    p s t h
  simp only [Prod.mk.injEq] at hk
  exact ⟨hk, ha⟩

theorem omp_copy_body_settles (p : List Nat)
    (s t : OMPStream α) (h : run_order OMPStream.copy_body p s = .ok t) :
    (t.array_size = s.array_size ∧ t.dev_a = s.dev_a ∧
      t.dev_b = s.dev_b ∧ t.dev_c.length = s.dev_c.length) ∧
      run_order OMPStream.copy_body p t = .ok t := by
  have hinv : ∀ i (u w : OMPStream α), OMPStream.copy_body i u = .ok w →
      (i < u.dev_a.length ∧ i < u.dev_c.length) ∧
      w = (match u.dev_a[i]? with
        | some v => { u with dev_c := u.dev_c.set i v }
        | none => u) := by
    intro i u w hb
    unfold OMPStream.copy_body at hb
    obtain ⟨v, hr0, hb⟩ := bind_ok_inv _ _ _ hb
    obtain ⟨w0, hw0, hb⟩ := bind_ok_inv _ _ _ hb
    cases hb
    have e0 := rd_ok_inv _ _ _ hr0
    obtain ⟨rfl, hl0⟩ := wr_ok_inv _ _ _ _ hw0
    exact ⟨⟨lt_length_of_getElem_some _ _ _ e0, hl0⟩, by simp only [e0]⟩
  have htot : ∀ i (u : OMPStream α),
      (i < u.dev_a.length ∧ i < u.dev_c.length) →
      OMPStream.copy_body i u = .ok (match u.dev_a[i]? with
        | some v => { u with dev_c := u.dev_c.set i v }
        | none => u) := by
    intro i u hg
    obtain ⟨v, e0⟩ := getElem_some_of_lt u.dev_a i hg.1
    simp only [OMPStream.copy_body, rd_eq_ok _ _ _ e0, wr_ok u.dev_c i _ hg.2, bind, Except.bind,
      pure, Except.pure, e0]
  obtain ⟨hk, ha⟩ := run_order_settles OMPStream.copy_body
    (fun i (u : OMPStream α) => match u.dev_a[i]? with
      | some v => { u with dev_c := u.dev_c.set i v }
      | none => u)
    (fun i (u : OMPStream α) => i < u.dev_a.length ∧ i < u.dev_c.length)
    (fun (u : OMPStream α) => (u.array_size, u.dev_a, u.dev_b, u.dev_c.length))
    hinv htot
    (by
      intro i j u hg
      dsimp only
      cases h0 : u.dev_a[i]? <;>
        simp only [List.length_set] <;> exact hg)
    (by
      intro i j u
      by_cases hij : i = j
      · subst hij; rfl
      · cases hi0 : u.dev_a[i]? <;>
          cases hj0 : u.dev_a[j]? <;>
          simp [hi0, hj0, List.set_comm _ _ _ hij])
    (by
      intro i u
      cases hi0 : u.dev_a[i]? <;> simp [hi0])
    (by
      intro i u
      dsimp only
      cases h0 : u.dev_a[i]? <;> simp only [List.length_set])
    p s t h
  simp only [Prod.mk.injEq] at hk
  exact ⟨hk, ha⟩

theorem omp_mul_body_settles [Mul α] (scalar : α) (p : List Nat)
    (s t : OMPStream α) (h : run_order (OMPStream.mul_body scalar) p s = .ok t) :
    (t.array_size = s.array_size ∧ t.dev_a = s.dev_a ∧
      t.dev_b.length = s.dev_b.length ∧ t.dev_c = s.dev_c) ∧
      run_order (OMPStream.mul_body scalar) p t = .ok t := by
  have hinv : ∀ i (u w : OMPStream α), (OMPStream.mul_body scalar) i u = .ok w →
      (i < u.dev_c.length ∧ i < u.dev_b.length) ∧
      w = (match u.dev_c[i]? with
        | some v => { u with dev_b := u.dev_b.set i (scalar * v) }
        | none => u) := by
    intro i u w hb
    unfold OMPStream.mul_body at hb
    obtain ⟨v, hr0, hb⟩ := bind_ok_inv _ _ _ hb
    obtain ⟨w0, hw0, hb⟩ := bind_ok_inv _ _ _ hb
    cases hb
    have e0 := rd_ok_inv _ _ _ hr0
    obtain ⟨rfl, hl0⟩ := wr_ok_inv _ _ _ _ hw0
    exact ⟨⟨lt_length_of_getElem_some _ _ _ e0, hl0⟩, by simp only [e0]⟩
  have htot : ∀ i (u : OMPStream α),
      (i < u.dev_c.length ∧ i < u.dev_b.length) →
      (OMPStream.mul_body scalar) i u = .ok (match u.dev_c[i]? with
        | some v => { u with dev_b := u.dev_b.set i (scalar * v) }
        | none => u) := by
    intro i u hg
    obtain ⟨v, e0⟩ := getElem_some_of_lt u.dev_c i hg.1
    simp only [OMPStream.mul_body, rd_eq_ok _ _ _ e0, wr_ok u.dev_b i _ hg.2, bind, Except.bind,
      pure, Except.pure, e0]
  obtain ⟨hk, ha⟩ := run_order_settles (OMPStream.mul_body scalar)
    (fun i (u : OMPStream α) => match u.dev_c[i]? with
      | some v => { u with dev_b := u.dev_b.set i (scalar * v) }
      | none => u)
    (fun i (u : OMPStream α) => i < u.dev_c.length ∧ i < u.dev_b.length)
    (fun (u : OMPStream α) => (u.array_size, u.dev_a, u.dev_b.length, u.dev_c))
    hinv htot
    (by
      intro i j u hg
      dsimp only
      cases h0 : u.dev_c[i]? <;>
        simp only [List.length_set] <;> exact hg)
    (by
      intro i j u
      by_cases hij : i = j
      · subst hij; rfl
      · cases hi0 : u.dev_c[i]? <;>
          cases hj0 : u.dev_c[j]? <;>
          simp [hi0, hj0, List.set_comm _ _ _ hij])
    (by
      intro i u
      cases hi0 : u.dev_c[i]? <;> simp [hi0])
    (by
      intro i u
      dsimp only
      cases h0 : u.dev_c[i]? <;> simp only [List.length_set])
    p s t h
  simp only [Prod.mk.injEq] at hk
  exact ⟨hk, ha⟩

theorem omp_add_body_settles [Add α] (p : List Nat)
    (s t : OMPStream α) (h : run_order OMPStream.add_body p s = .ok t) :
    (t.array_size = s.array_size ∧ t.dev_a = s.dev_a ∧
      t.dev_b = s.dev_b ∧ t.dev_c.length = s.dev_c.length) ∧
      run_order OMPStream.add_body p t = .ok t := by
  have hinv : ∀ i (u w : OMPStream α), OMPStream.add_body i u = .ok w →
      (i < u.dev_a.length ∧ i < u.dev_b.length ∧ i < u.dev_c.length) ∧
      w = (match u.dev_a[i]?, u.dev_b[i]? with
        | some va, some vb => { u with dev_c := u.dev_c.set i (va + vb) }
        | _, _ => u) := by
    intro i u w hb
    unfold OMPStream.add_body at hb
    obtain ⟨va, hr0, hb⟩ := bind_ok_inv _ _ _ hb
    obtain ⟨vb, hr1, hb⟩ := bind_ok_inv _ _ _ hb
    obtain ⟨w0, hw0, hb⟩ := bind_ok_inv _ _ _ hb
    cases hb
    have e0 := rd_ok_inv _ _ _ hr0
    have e1 := rd_ok_inv _ _ _ hr1
    obtain ⟨rfl, hl0⟩ := wr_ok_inv _ _ _ _ hw0
    exact ⟨⟨lt_length_of_getElem_some _ _ _ e0,
      lt_length_of_getElem_some _ _ _ e1,
      hl0⟩,
      by simp only [e0, e1]⟩
  have htot : ∀ i (u : OMPStream α),
      (i < u.dev_a.length ∧ i < u.dev_b.length ∧ i < u.dev_c.length) →
      OMPStream.add_body i u = .ok (match u.dev_a[i]?, u.dev_b[i]? with
        | some va, some vb => { u with dev_c := u.dev_c.set i (va + vb) }
        | _, _ => u) := by
    intro i u hg
    obtain ⟨va, e0⟩ := getElem_some_of_lt u.dev_a i hg.1
    obtain ⟨vb, e1⟩ := getElem_some_of_lt u.dev_b i hg.2.1
    simp only [OMPStream.add_body, rd_eq_ok _ _ _ e0, rd_eq_ok _ _ _ e1,
      wr_ok u.dev_c i _ hg.2.2, bind, Except.bind, pure, Except.pure, e0, e1]
  obtain ⟨hk, ha⟩ := run_order_settles OMPStream.add_body
    (fun i (u : OMPStream α) => match u.dev_a[i]?, u.dev_b[i]? with
      | some va, some vb => { u with dev_c := u.dev_c.set i (va + vb) }
      | _, _ => u)
    (fun i (u : OMPStream α) => i < u.dev_a.length ∧ i < u.dev_b.length ∧ i < u.dev_c.length)
    (fun (u : OMPStream α) => (u.array_size, u.dev_a, u.dev_b, u.dev_c.length))
    hinv htot
    (by
      intro i j u hg
      dsimp only
      cases h0 : u.dev_a[i]? <;> cases h1 : u.dev_b[i]? <;>
        simp only [List.length_set] <;> exact hg)
    (by
      intro i j u
      by_cases hij : i = j
      · subst hij; rfl
      · cases hi0 : u.dev_a[i]? <;> cases hi1 : u.dev_b[i]? <;>
          cases hj0 : u.dev_a[j]? <;> cases hj1 : u.dev_b[j]? <;>
          simp [hi0, hi1, hj0, hj1, List.set_comm _ _ _ hij])
    (by
      intro i u
      cases hi0 : u.dev_a[i]? <;> cases hi1 : u.dev_b[i]? <;> simp [hi0, hi1])
    (by
      intro i u
      dsimp only
      cases h0 : u.dev_a[i]? <;> cases h1 : u.dev_b[i]? <;> simp only [List.length_set])
    p s t h
  simp only [Prod.mk.injEq] at hk
  exact ⟨hk, ha⟩

theorem omp_triad_body_settles [Add α] [Mul α] (scalar : α) (p : List Nat)
    (s t : OMPStream α) (h : run_order (OMPStream.triad_body scalar) p s = .ok t) :
    (t.array_size = s.array_size ∧ t.dev_a.length = s.dev_a.length ∧
      t.dev_b = s.dev_b ∧ t.dev_c = s.dev_c) ∧
      run_order (OMPStream.triad_body scalar) p t = .ok t := by
  have hinv : ∀ i (u w : OMPStream α), (OMPStream.triad_body scalar) i u = .ok w →
      (i < u.dev_b.length ∧ i < u.dev_c.length ∧ i < u.dev_a.length) ∧
      w = (match u.dev_b[i]?, u.dev_c[i]? with
        | some vb, some vc => { u with dev_a := u.dev_a.set i (vb + scalar * vc) }
        | _, _ => u) := by
    intro i u w hb
    unfold OMPStream.triad_body at hb
    obtain ⟨vb, hr0, hb⟩ := bind_ok_inv _ _ _ hb
    obtain ⟨vc, hr1, hb⟩ := bind_ok_inv _ _ _ hb
    obtain ⟨w0, hw0, hb⟩ := bind_ok_inv _ _ _ hb
    cases hb
    have e0 := rd_ok_inv _ _ _ hr0
    have e1 := rd_ok_inv _ _ _ hr1
    obtain ⟨rfl, hl0⟩ := wr_ok_inv _ _ _ _ hw0
    exact ⟨⟨lt_length_of_getElem_some _ _ _ e0,
      lt_length_of_getElem_some _ _ _ e1,
      hl0⟩,
      by simp only [e0, e1]⟩
  have htot : ∀ i (u : OMPStream α),
      (i < u.dev_b.length ∧ i < u.dev_c.length ∧ i < u.dev_a.length) →
      (OMPStream.triad_body scalar) i u = .ok (match u.dev_b[i]?, u.dev_c[i]? with
        | some vb, some vc => { u with dev_a := u.dev_a.set i (vb + scalar * vc) }
        | _, _ => u) := by
    intro i u hg
    obtain ⟨vb, e0⟩ := getElem_some_of_lt u.dev_b i hg.1
    obtain ⟨vc, e1⟩ := getElem_some_of_lt u.dev_c i hg.2.1
    simp only [OMPStream.triad_body, rd_eq_ok _ _ _ e0, rd_eq_ok _ _ _ e1,
      wr_ok u.dev_a i _ hg.2.2, bind, Except.bind, pure, Except.pure, e0, e1]
  obtain ⟨hk, ha⟩ := run_order_settles (OMPStream.triad_body scalar)
    (fun i (u : OMPStream α) => match u.dev_b[i]?, u.dev_c[i]? with
      | some vb, some vc => { u with dev_a := u.dev_a.set i (vb + scalar * vc) }
      | _, _ => u)
    (fun i (u : OMPStream α) => i < u.dev_b.length ∧ i < u.dev_c.length ∧ i < u.dev_a.length)
    (fun (u : OMPStream α) => (u.array_size, u.dev_a.length, u.dev_b, u.dev_c))
    hinv htot
    (by
      intro i j u hg
      dsimp only
      cases h0 : u.dev_b[i]? <;> cases h1 : u.dev_c[i]? <;>
        simp only [List.length_set] <;> exact hg)
    (by
      intro i j u
      by_cases hij : i = j
      · subst hij; rfl
      · cases hi0 : u.dev_b[i]? <;> cases hi1 : u.dev_c[i]? <;>
          cases hj0 : u.dev_b[j]? <;> cases hj1 : u.dev_c[j]? <;>
          simp [hi0, hi1, hj0, hj1, List.set_comm _ _ _ hij])
    (by
      intro i u
      cases hi0 : u.dev_b[i]? <;> cases hi1 : u.dev_c[i]? <;> simp [hi0, hi1])
    (by
      intro i u
      dsimp only
      cases h0 : u.dev_b[i]? <;> cases h1 : u.dev_c[i]? <;> simp only [List.length_set])
    p s t h
  simp only [Prod.mk.injEq] at hk
  exact ⟨hk, ha⟩

theorem kokkos_init_arrays_returns (x y z : α) (s t : KOKKOSStream α)
    (h : s.init_arrays x y z = .ok t) :
    (t.array_size = s.array_size ∧ t.d_a.length = s.d_a.length ∧
      t.d_b.length = s.d_b.length ∧ t.d_c.length = s.d_c.length) ∧
      ∃ u, t.init_arrays x y z = .ok u ∧ u.arrays = t.arrays := by
  unfold KOKKOSStream.init_arrays at h
  obtain ⟨t0, hloop, hf⟩ := bind_ok_inv _ _ _ h
  cases hf
  unfold KOKKOSStream.parallel_for at hloop
  rw [for_range_eq_run_order_range] at hloop
  obtain ⟨hk, ha⟩ := kokkos_init_arrays_body_settles x y z _ _ _ hloop
  refine ⟨hk, ?_⟩
  have hn : t0.fence.array_size = s.array_size := hk.1
  have e : for_range (KOKKOSStream.init_arrays_body x y z) t0.fence.array_size 0
      { t0.fence with calls := t0.fence.calls ++
        [KokkosCall.parallel_for t0.fence.array_size] } =
      .ok { t0 with calls := t0.fence.calls ++
        [KokkosCall.parallel_for t0.fence.array_size] } := by
    rw [for_range_eq_run_order_range, hn]
    exact ha _
  unfold KOKKOSStream.init_arrays KOKKOSStream.parallel_for
  show ∃ u, (for_range (KOKKOSStream.init_arrays_body x y z) t0.fence.array_size 0
      { t0.fence with calls := t0.fence.calls ++
        [KokkosCall.parallel_for t0.fence.array_size] } >>=
      fun w => pure w.fence) = .ok u ∧
    u.arrays = t0.fence.arrays
  rw [e]
  exact ⟨_, rfl, rfl⟩

theorem kokkos_copy_returns (s t : KOKKOSStream α)
    (h : s.copy = .ok t) :
    (t.array_size = s.array_size ∧ t.d_a = s.d_a ∧
      t.d_b = s.d_b ∧ t.d_c.length = s.d_c.length) ∧
      ∃ u, t.copy = .ok u ∧ u.arrays = t.arrays := by
  unfold KOKKOSStream.copy at h
  obtain ⟨t0, hloop, hf⟩ := bind_ok_inv _ _ _ h
  cases hf
  unfold KOKKOSStream.parallel_for at hloop
  rw [for_range_eq_run_order_range] at hloop
  obtain ⟨hk, ha⟩ := kokkos_copy_body_settles _ _ _ hloop
  refine ⟨hk, ?_⟩
  have hn : t0.fence.array_size = s.array_size := hk.1
  have e : for_range KOKKOSStream.copy_body t0.fence.array_size 0
      { t0.fence with calls := t0.fence.calls ++
        [KokkosCall.parallel_for t0.fence.array_size] } =
      .ok { t0 with calls := t0.fence.calls ++
        [KokkosCall.parallel_for t0.fence.array_size] } := by
    rw [for_range_eq_run_order_range, hn]
    exact ha _
  unfold KOKKOSStream.copy KOKKOSStream.parallel_for
  show ∃ u, (for_range KOKKOSStream.copy_body t0.fence.array_size 0
      { t0.fence with calls := t0.fence.calls ++
        [KokkosCall.parallel_for t0.fence.array_size] } >>=
      fun w => pure w.fence) = .ok u ∧
    u.arrays = t0.fence.arrays
  rw [e]
  exact ⟨_, rfl, rfl⟩

theorem kokkos_mul_returns [Mul α] (startScalar : α) (s t : KOKKOSStream α)
    (h : s.mul startScalar = .ok t) :
    (t.array_size = s.array_size ∧ t.d_a = s.d_a ∧
      t.d_b.length = s.d_b.length ∧ t.d_c = s.d_c) ∧
      ∃ u, t.mul startScalar = .ok u ∧ u.arrays = t.arrays := by
  unfold KOKKOSStream.mul at h
  obtain ⟨t0, hloop, hf⟩ := bind_ok_inv _ _ _ h
  cases hf
  unfold KOKKOSStream.parallel_for at hloop
  rw [for_range_eq_run_order_range] at hloop
  obtain ⟨hk, ha⟩ := kokkos_mul_body_settles startScalar _ _ _ hloop
  refine ⟨hk, ?_⟩
  have hn : t0.fence.array_size = s.array_size := hk.1
  have e : for_range (KOKKOSStream.mul_body startScalar) t0.fence.array_size 0
      { t0.fence with calls := t0.fence.calls ++
        [KokkosCall.parallel_for t0.fence.array_size] } =
      .ok { t0 with calls := t0.fence.calls ++
        [KokkosCall.parallel_for t0.fence.array_size] } := by
    rw [for_range_eq_run_order_range, hn]
    exact ha _
  unfold KOKKOSStream.mul KOKKOSStream.parallel_for
  show ∃ u, (for_range (KOKKOSStream.mul_body startScalar) t0.fence.array_size 0
      { t0.fence with calls := t0.fence.calls ++
        [KokkosCall.parallel_for t0.fence.array_size] } >>=
      fun w => pure w.fence) = .ok u ∧
    u.arrays = t0.fence.arrays
  rw [e]
  exact ⟨_, rfl, rfl⟩

theorem kokkos_add_returns [Add α] (s t : KOKKOSStream α)
    (h : s.add = .ok t) :
    (t.array_size = s.array_size ∧ t.d_a = s.d_a ∧
      t.d_b = s.d_b ∧ t.d_c.length = s.d_c.length) ∧
      ∃ u, t.add = .ok u ∧ u.arrays = t.arrays := by
  unfold KOKKOSStream.add at h
  obtain ⟨t0, hloop, hf⟩ := bind_ok_inv _ _ _ h
  cases hf
  unfold KOKKOSStream.parallel_for at hloop
  rw [for_range_eq_run_order_range] at hloop
  obtain ⟨hk, ha⟩ := kokkos_add_body_settles _ _ _ hloop
  refine ⟨hk, ?_⟩
  have hn : t0.fence.array_size = s.array_size := hk.1
  have e : for_range KOKKOSStream.add_body t0.fence.array_size 0
      { t0.fence with calls := t0.fence.calls ++
        [KokkosCall.parallel_for t0.fence.array_size] } =
      .ok { t0 with calls := t0.fence.calls ++
        [KokkosCall.parallel_for t0.fence.array_size] } := by
    rw [for_range_eq_run_order_range, hn]
    exact ha _
  unfold KOKKOSStream.add KOKKOSStream.parallel_for
  show ∃ u, (for_range KOKKOSStream.add_body t0.fence.array_size 0
      { t0.fence with calls := t0.fence.calls ++
        [KokkosCall.parallel_for t0.fence.array_size] } >>=
      fun w => pure w.fence) = .ok u ∧
    u.arrays = t0.fence.arrays
  rw [e]
  exact ⟨_, rfl, rfl⟩

theorem kokkos_triad_returns [Add α] [Mul α] (startScalar : α) (s t : KOKKOSStream α)
    (h : s.triad startScalar = .ok t) :
    (t.array_size = s.array_size ∧ t.d_a.length = s.d_a.length ∧
      t.d_b = s.d_b ∧ t.d_c = s.d_c) ∧
      ∃ u, t.triad startScalar = .ok u ∧ u.arrays = t.arrays := by
  unfold KOKKOSStream.triad at h
  obtain ⟨t0, hloop, hf⟩ := bind_ok_inv _ _ _ h
  cases hf
  unfold KOKKOSStream.parallel_for at hloop
  rw [for_range_eq_run_order_range] at hloop
  obtain ⟨hk, ha⟩ := kokkos_triad_body_settles startScalar _ _ _ hloop
  refine ⟨hk, ?_⟩
  have hn : t0.fence.array_size = s.array_size := hk.1
  have e : for_range (KOKKOSStream.triad_body startScalar) t0.fence.array_size 0
      { t0.fence with calls := t0.fence.calls ++
        [KokkosCall.parallel_for t0.fence.array_size] } =
      .ok { t0 with calls := t0.fence.calls ++
        [KokkosCall.parallel_for t0.fence.array_size] } := by
    rw [for_range_eq_run_order_range, hn]
    exact ha _
  unfold KOKKOSStream.triad KOKKOSStream.parallel_for
  show ∃ u, (for_range (KOKKOSStream.triad_body startScalar) t0.fence.array_size 0
      { t0.fence with calls := t0.fence.calls ++
        [KokkosCall.parallel_for t0.fence.array_size] } >>=
      fun w => pure w.fence) = .ok u ∧
    u.arrays = t0.fence.arrays
  rw [e]
  exact ⟨_, rfl, rfl⟩

theorem omp_init_arrays_returns (x y z : α) (cfg : Build) (s t : OMPStream α)
    (h : s.init_arrays cfg x y z = .ok t) :
    (t.array_size = s.array_size ∧ t.dev_a.length = s.dev_a.length ∧
      t.dev_b.length = s.dev_b.length ∧ t.dev_c.length = s.dev_c.length) ∧
      t.init_arrays cfg x y z = .ok t := by
  unfold OMPStream.init_arrays at h
  obtain ⟨t0, hloop, hupd⟩ := bind_ok_inv _ _ _ h
  rw [omp_update_a_empty] at hupd
  cases hupd
  obtain ⟨hN, hrun⟩ := for_int_ok _ _ _ _ hloop
  obtain ⟨hk, ha⟩ := omp_init_arrays_body_settles x y z _ _ _ hrun
  refine ⟨hk, ?_⟩
  unfold OMPStream.init_arrays
  show (for_int t.array_size (OMPStream.init_arrays_body x y z) INT_RANGE 0 t >>=
      fun u => u.update_a_empty cfg) = _
  rw [hk.1, for_int_of_run_order _ _ _ hN, ha]
  exact omp_update_a_empty cfg t

theorem omp_copy_returns (cfg : Build) (s t : OMPStream α)
    (h : s.copy cfg = .ok t) :
    (t.array_size = s.array_size ∧ t.dev_a = s.dev_a ∧
      t.dev_b = s.dev_b ∧ t.dev_c.length = s.dev_c.length) ∧
      t.copy cfg = .ok t := by
  unfold OMPStream.copy at h
  obtain ⟨t0, hloop, hupd⟩ := bind_ok_inv _ _ _ h
  rw [omp_update_a_empty] at hupd
  cases hupd
  obtain ⟨hN, hrun⟩ := for_int_ok _ _ _ _ hloop
  obtain ⟨hk, ha⟩ := omp_copy_body_settles _ _ _ hrun
  refine ⟨hk, ?_⟩
  unfold OMPStream.copy
  show (for_int t.array_size OMPStream.copy_body INT_RANGE 0 t >>=
      fun u => u.update_a_empty cfg) = _
  rw [hk.1, for_int_of_run_order _ _ _ hN, ha]
  exact omp_update_a_empty cfg t

theorem omp_mul_returns [Mul α] (startScalar : α) (cfg : Build) (s t : OMPStream α)
    (h : s.mul startScalar cfg = .ok t) :
    (t.array_size = s.array_size ∧ t.dev_a = s.dev_a ∧
      t.dev_b.length = s.dev_b.length ∧ t.dev_c = s.dev_c) ∧
      t.mul startScalar cfg = .ok t := by
  unfold OMPStream.mul at h
  obtain ⟨t0, hloop, hupd⟩ := bind_ok_inv _ _ _ h
  rw [omp_update_c_empty] at hupd
  cases hupd
  obtain ⟨hN, hrun⟩ := for_int_ok _ _ _ _ hloop
  obtain ⟨hk, ha⟩ := omp_mul_body_settles startScalar _ _ _ hrun
  refine ⟨hk, ?_⟩
  unfold OMPStream.mul
  show (for_int t.array_size (OMPStream.mul_body startScalar) INT_RANGE 0 t >>=
      fun u => u.update_c_empty cfg) = _
  rw [hk.1, for_int_of_run_order _ _ _ hN, ha]
  exact omp_update_c_empty cfg t

theorem omp_add_returns [Add α] (cfg : Build) (s t : OMPStream α)
    (h : s.add cfg = .ok t) :
    (t.array_size = s.array_size ∧ t.dev_a = s.dev_a ∧
      t.dev_b = s.dev_b ∧ t.dev_c.length = s.dev_c.length) ∧
      t.add cfg = .ok t := by
  unfold OMPStream.add at h
  obtain ⟨t0, hloop, hupd⟩ := bind_ok_inv _ _ _ h
  rw [omp_update_a_empty] at hupd
  cases hupd
  obtain ⟨hN, hrun⟩ := for_int_ok _ _ _ _ hloop
  obtain ⟨hk, ha⟩ := omp_add_body_settles _ _ _ hrun
  refine ⟨hk, ?_⟩
  unfold OMPStream.add
  show (for_int t.array_size OMPStream.add_body INT_RANGE 0 t >>=
      fun u => u.update_a_empty cfg) = _
  rw [hk.1, for_int_of_run_order _ _ _ hN, ha]
  exact omp_update_a_empty cfg t

theorem omp_triad_returns [Add α] [Mul α] (startScalar : α) (cfg : Build) (s t : OMPStream α)
    (h : s.triad startScalar cfg = .ok t) :
    (t.array_size = s.array_size ∧ t.dev_a.length = s.dev_a.length ∧
      t.dev_b = s.dev_b ∧ t.dev_c = s.dev_c) ∧
      t.triad startScalar cfg = .ok t := by
  unfold OMPStream.triad at h
  obtain ⟨t0, hloop, hupd⟩ := bind_ok_inv _ _ _ h
  rw [omp_update_a_empty] at hupd
  cases hupd
  obtain ⟨hN, hrun⟩ := for_int_ok _ _ _ _ hloop
  obtain ⟨hk, ha⟩ := omp_triad_body_settles startScalar _ _ _ hrun
  refine ⟨hk, ?_⟩
  unfold OMPStream.triad
  show (for_int t.array_size (OMPStream.triad_body startScalar) INT_RANGE 0 t >>=
      fun u => u.update_a_empty cfg) = _
  rw [hk.1, for_int_of_run_order _ _ _ hN, ha]
  exact omp_update_a_empty cfg t

end Returns

/-! ## `dot` and `read_arrays` when they return -/

section ReturnsMore

variable {α : Type}

theorem kokkos_dot_returns [Zero α] [Add α] [Mul α] (s : KOKKOSStream α) (r : α × KOKKOSStream α)
    (h : s.dot = .ok r) :
    r.2.array_size = s.array_size ∧ r.2.d_a = s.d_a ∧ r.2.d_b = s.d_b ∧ r.2.d_c = s.d_c := by
  unfold KOKKOSStream.dot at h
  obtain ⟨sum, _, hr⟩ := bind_ok_inv _ _ _ h
  cases hr
  exact ⟨rfl, rfl, rfl, rfl⟩

theorem omp_dot_returns [Zero α] [Add α] [Mul α] (s : OMPStream α) (r : α × OMPStream α)
    (h : s.dot = .ok r) : r.2 = s := by
  unfold OMPStream.dot at h
  obtain ⟨sum, _, hr⟩ := bind_ok_inv _ _ _ h
  cases hr
  rfl

theorem deep_copy_ok_inv (dst src out : List α) (h : deep_copy dst src = .ok out) :
    out = src := by
  unfold deep_copy at h
  split at h
  · cases h; rfl
  · cases h

theorem deep_copy_self (xs : List α) : deep_copy xs xs = .ok xs := by
  simp [deep_copy]

theorem target_update_from_again (host dev out : List α) (n : Nat)
    (h : target_update_from host dev 0 n = .ok out) :
    target_update_from out dev 0 n = .ok out := by
  unfold target_update_from at h
  split at h
  · rename_i hb
    cases h
    have h1 : n ≤ host.length := by omega
    have h2 : n ≤ dev.length := by omega
    have h3 : (List.take n dev).length = n := by simp [h2]
    simp only [target_update_from, List.take_zero, List.drop_zero, List.nil_append, Nat.zero_add,
      List.length_append, List.length_take, List.length_drop]
    rw [if_pos (by omega), List.drop_append_of_le_length (by omega), List.drop_of_length_le (by omega),
      List.nil_append]
  · cases h

theorem getElem_of_set_self {α : Type} (xs : List α) (j : Nat) (v : α)
    (h : xs.set j v = xs) (hj : j < xs.length) : xs[j]? = some v := by
  have e : (xs.set j v)[j]? = some v := List.getElem?_set_self hj
  rw [h] at e
  exact e

theorem take_eq_take_of_getElem {α : Type} (xs ys : List α) (n : Nat)
    (h : ∀ j, j < n → xs[j]? = ys[j]?) : xs.take n = ys.take n := by
  apply List.ext_getElem?
  intro j
  by_cases hj : j < n
  · rw [List.getElem?_take_of_lt hj, List.getElem?_take_of_lt hj, h j hj]
  · rw [List.getElem?_take_eq_none (not_lt.mp hj), List.getElem?_take_eq_none (not_lt.mp hj)]

theorem target_update_from_take {α : Type} (host dev out : List α) (n : Nat)
    (h : target_update_from host dev 0 n = .ok out) : out.take n = dev.take n := by
  unfold target_update_from at h
  split at h
  · rename_i hb
    cases h
    have h2 : n ≤ dev.length := by omega
    simp only [List.take_zero, List.drop_zero, List.nil_append, Nat.zero_add]
    rw [List.take_append_of_le_length (by simp [h2]), List.take_take, Nat.min_self]
  · cases h

theorem bind_ok_of {β γ : Type} (x : Run β) (f : β → Run γ) (b : β) (c : γ)
    (hx : x = .ok b) (hf : f b = .ok c) : (x >>= f) = .ok c := by
  rw [hx]
  exact hf

theorem kokkos_read_arrays_body_settles (s : KOKKOSStream α) (p : List Nat)
    (o t : List α × List α × List α)
    (h : run_order (KOKKOSStream.read_arrays_body s) p o = .ok t) :
    run_order (KOKKOSStream.read_arrays_body s) p t = .ok t ∧
      ∀ j ∈ p, t.1[j]? = s.hm_a[j]? ∧ t.2.1[j]? = s.hm_b[j]? ∧ t.2.2[j]? = s.hm_c[j]? := by
  have hinv : ∀ i (u w : List α × List α × List α), KOKKOSStream.read_arrays_body s i u = .ok w →
      ((i < s.hm_a.length ∧ i < s.hm_b.length ∧ i < s.hm_c.length) ∧
        i < u.1.length ∧ i < u.2.1.length ∧ i < u.2.2.length) ∧
      w = ((match s.hm_a[i]? with
          | some v => u.1.set i v
          | none => u.1),
        (match s.hm_b[i]? with
          | some v => u.2.1.set i v
          | none => u.2.1),
        (match s.hm_c[i]? with
          | some v => u.2.2.set i v
          | none => u.2.2)) := by
    intro i u w hb
    unfold KOKKOSStream.read_arrays_body at hb
    obtain ⟨va, hr0, hb⟩ := bind_ok_inv _ _ _ hb
    obtain ⟨w0, hw0, hb⟩ := bind_ok_inv _ _ _ hb
    obtain ⟨vb, hr1, hb⟩ := bind_ok_inv _ _ _ hb
    obtain ⟨w1, hw1, hb⟩ := bind_ok_inv _ _ _ hb
    obtain ⟨vc, hr2, hb⟩ := bind_ok_inv _ _ _ hb
    obtain ⟨w2, hw2, hb⟩ := bind_ok_inv _ _ _ hb
    cases hb
    have e0 := rd_ok_inv _ _ _ hr0
    have e1 := rd_ok_inv _ _ _ hr1
    have e2 := rd_ok_inv _ _ _ hr2
    obtain ⟨rfl, hl0⟩ := wr_ok_inv _ _ _ _ hw0
    obtain ⟨rfl, hl1⟩ := wr_ok_inv _ _ _ _ hw1
    obtain ⟨rfl, hl2⟩ := wr_ok_inv _ _ _ _ hw2
    exact ⟨⟨⟨lt_length_of_getElem_some _ _ _ e0, lt_length_of_getElem_some _ _ _ e1,
      lt_length_of_getElem_some _ _ _ e2⟩, hl0, hl1, hl2⟩, by simp only [e0, e1, e2]⟩
  have htot : ∀ i (u : List α × List α × List α),
      ((i < s.hm_a.length ∧ i < s.hm_b.length ∧ i < s.hm_c.length) ∧
        i < u.1.length ∧ i < u.2.1.length ∧ i < u.2.2.length) →
      KOKKOSStream.read_arrays_body s i u = .ok ((match s.hm_a[i]? with
          | some v => u.1.set i v
          | none => u.1),
        (match s.hm_b[i]? with
          | some v => u.2.1.set i v
          | none => u.2.1),
        (match s.hm_c[i]? with
          | some v => u.2.2.set i v
          | none => u.2.2)) := by
    intro i u hg
    obtain ⟨va, e0⟩ := getElem_some_of_lt s.hm_a i hg.1.1
    obtain ⟨vb, e1⟩ := getElem_some_of_lt s.hm_b i hg.1.2.1
    obtain ⟨vc, e2⟩ := getElem_some_of_lt s.hm_c i hg.1.2.2
    simp only [KOKKOSStream.read_arrays_body, rd_eq_ok _ _ _ e0, rd_eq_ok _ _ _ e1,
      rd_eq_ok _ _ _ e2, wr_ok u.1 i _ hg.2.1, wr_ok u.2.1 i _ hg.2.2.1,
      wr_ok u.2.2 i _ hg.2.2.2, bind, Except.bind, pure, Except.pure, e0, e1, e2]
  obtain ⟨_, hset⟩ := run_order_steps (KOKKOSStream.read_arrays_body s)
    (fun i (u : List α × List α × List α) =>
      ((match s.hm_a[i]? with
          | some v => u.1.set i v
          | none => u.1),
        (match s.hm_b[i]? with
          | some v => u.2.1.set i v
          | none => u.2.1),
        (match s.hm_c[i]? with
          | some v => u.2.2.set i v
          | none => u.2.2)))
    (fun i (u : List α × List α × List α) =>
      (i < s.hm_a.length ∧ i < s.hm_b.length ∧ i < s.hm_c.length) ∧
        i < u.1.length ∧ i < u.2.1.length ∧ i < u.2.2.length)
    hinv
    (by
      intro i j u hg
      dsimp only
      cases hi0 : s.hm_a[i]? <;> cases hi1 : s.hm_b[i]? <;> cases hi2 : s.hm_c[i]? <;>
        simp only [List.length_set] <;> exact hg)
    (by
      intro i j u
      by_cases hij : i = j
      · subst hij; rfl
      · dsimp only
        refine Prod.ext ?_ (Prod.ext ?_ ?_)
        · cases hi : s.hm_a[i]? <;> cases hj : s.hm_a[j]? <;> simp [List.set_comm _ _ _ hij]
        · cases hi : s.hm_b[i]? <;> cases hj : s.hm_b[j]? <;> simp [List.set_comm _ _ _ hij]
        · cases hi : s.hm_c[i]? <;> cases hj : s.hm_c[j]? <;> simp [List.set_comm _ _ _ hij])
    (by
      intro i u
      dsimp only
      refine Prod.ext ?_ (Prod.ext ?_ ?_)
      · cases hi : s.hm_a[i]? <;> simp
      · cases hi : s.hm_b[i]? <;> simp
      · cases hi : s.hm_c[i]? <;> simp)
    p o t h
  refine ⟨run_order_of_settled (KOKKOSStream.read_arrays_body s) _ _ htot p t hset, ?_⟩
  intro j hj
  obtain ⟨⟨⟨g0, g1, g2⟩, l0, l1, l2⟩, hfix⟩ := hset j hj
  obtain ⟨va, e0⟩ := getElem_some_of_lt s.hm_a j g0
  obtain ⟨vb, e1⟩ := getElem_some_of_lt s.hm_b j g1
  obtain ⟨vc, e2⟩ := getElem_some_of_lt s.hm_c j g2
  have f0 := congrArg (fun w => w.1) hfix
  have f1 := congrArg (fun w => w.2.1) hfix
  have f2 := congrArg (fun w => w.2.2) hfix
  simp only [e0] at f0
  simp only [e1] at f1
  simp only [e2] at f2
  exact ⟨(getElem_of_set_self _ _ _ f0 l0).trans e0.symm,
    (getElem_of_set_self _ _ _ f1 l1).trans e1.symm,
    (getElem_of_set_self _ _ _ f2 l2).trans e2.symm⟩

theorem omp_read_arrays_body_settles (s : OMPStream α) (p : List Nat)
    (o t : List α × List α × List α)
    (h : run_order (OMPStream.read_arrays_body s) p o = .ok t) :
    run_order (OMPStream.read_arrays_body s) p t = .ok t ∧
      ∀ j ∈ p, t.1[j]? = s.a[j]? ∧ t.2.1[j]? = s.b[j]? ∧ t.2.2[j]? = s.c[j]? := by
  have hinv : ∀ i (u w : List α × List α × List α), OMPStream.read_arrays_body s i u = .ok w →
      ((i < s.a.length ∧ i < s.b.length ∧ i < s.c.length) ∧
        i < u.1.length ∧ i < u.2.1.length ∧ i < u.2.2.length) ∧
      w = ((match s.a[i]? with
          | some v => u.1.set i v
          | none => u.1),
        (match s.b[i]? with
          | some v => u.2.1.set i v
          | none => u.2.1),
        (match s.c[i]? with
          | some v => u.2.2.set i v
          | none => u.2.2)) := by
    intro i u w hb
    unfold OMPStream.read_arrays_body at hb
    obtain ⟨va, hr0, hb⟩ := bind_ok_inv _ _ _ hb
    obtain ⟨w0, hw0, hb⟩ := bind_ok_inv _ _ _ hb
    obtain ⟨vb, hr1, hb⟩ := bind_ok_inv _ _ _ hb
    obtain ⟨w1, hw1, hb⟩ := bind_ok_inv _ _ _ hb
    obtain ⟨vc, hr2, hb⟩ := bind_ok_inv _ _ _ hb
    obtain ⟨w2, hw2, hb⟩ := bind_ok_inv _ _ _ hb
    cases hb
    have e0 := rd_ok_inv _ _ _ hr0
    have e1 := rd_ok_inv _ _ _ hr1
    have e2 := rd_ok_inv _ _ _ hr2
    obtain ⟨rfl, hl0⟩ := wr_ok_inv _ _ _ _ hw0
    obtain ⟨rfl, hl1⟩ := wr_ok_inv _ _ _ _ hw1
    obtain ⟨rfl, hl2⟩ := wr_ok_inv _ _ _ _ hw2
    exact ⟨⟨⟨lt_length_of_getElem_some _ _ _ e0, lt_length_of_getElem_some _ _ _ e1,
      lt_length_of_getElem_some _ _ _ e2⟩, hl0, hl1, hl2⟩, by simp only [e0, e1, e2]⟩
  have htot : ∀ i (u : List α × List α × List α),
      ((i < s.a.length ∧ i < s.b.length ∧ i < s.c.length) ∧
        i < u.1.length ∧ i < u.2.1.length ∧ i < u.2.2.length) →
      OMPStream.read_arrays_body s i u = .ok ((match s.a[i]? with
          | some v => u.1.set i v
          | none => u.1),
        (match s.b[i]? with
          | some v => u.2.1.set i v
          | none => u.2.1),
        (match s.c[i]? with
          | some v => u.2.2.set i v
          | none => u.2.2)) := by
    intro i u hg
    obtain ⟨va, e0⟩ := getElem_some_of_lt s.a i hg.1.1
    obtain ⟨vb, e1⟩ := getElem_some_of_lt s.b i hg.1.2.1
    obtain ⟨vc, e2⟩ := getElem_some_of_lt s.c i hg.1.2.2
    simp only [OMPStream.read_arrays_body, rd_eq_ok _ _ _ e0, rd_eq_ok _ _ _ e1,
      rd_eq_ok _ _ _ e2, wr_ok u.1 i _ hg.2.1, wr_ok u.2.1 i _ hg.2.2.1,
      wr_ok u.2.2 i _ hg.2.2.2, bind, Except.bind, pure, Except.pure, e0, e1, e2]
  obtain ⟨_, hset⟩ := run_order_steps (OMPStream.read_arrays_body s)
    (fun i (u : List α × List α × List α) =>
      ((match s.a[i]? with
          | some v => u.1.set i v
          | none => u.1),
        (match s.b[i]? with
          | some v => u.2.1.set i v
          | none => u.2.1),
        (match s.c[i]? with
          | some v => u.2.2.set i v
          | none => u.2.2)))
    (fun i (u : List α × List α × List α) =>
      (i < s.a.length ∧ i < s.b.length ∧ i < s.c.length) ∧
        i < u.1.length ∧ i < u.2.1.length ∧ i < u.2.2.length)
    hinv
    (by
      intro i j u hg
      dsimp only
      cases hi0 : s.a[i]? <;> cases hi1 : s.b[i]? <;> cases hi2 : s.c[i]? <;>
        simp only [List.length_set] <;> exact hg)
    (by
      intro i j u
      by_cases hij : i = j
      · subst hij; rfl
      · dsimp only
        refine Prod.ext ?_ (Prod.ext ?_ ?_)
        · cases hi : s.a[i]? <;> cases hj : s.a[j]? <;> simp [List.set_comm _ _ _ hij]
        · cases hi : s.b[i]? <;> cases hj : s.b[j]? <;> simp [List.set_comm _ _ _ hij]
        · cases hi : s.c[i]? <;> cases hj : s.c[j]? <;> simp [List.set_comm _ _ _ hij])
    (by
      intro i u
      dsimp only
      refine Prod.ext ?_ (Prod.ext ?_ ?_)
      · cases hi : s.a[i]? <;> simp
      · cases hi : s.b[i]? <;> simp
      · cases hi : s.c[i]? <;> simp)
    p o t h
  refine ⟨run_order_of_settled (OMPStream.read_arrays_body s) _ _ htot p t hset, ?_⟩
  intro j hj
  obtain ⟨⟨⟨g0, g1, g2⟩, l0, l1, l2⟩, hfix⟩ := hset j hj
  obtain ⟨va, e0⟩ := getElem_some_of_lt s.a j g0
  obtain ⟨vb, e1⟩ := getElem_some_of_lt s.b j g1
  obtain ⟨vc, e2⟩ := getElem_some_of_lt s.c j g2
  have f0 := congrArg (fun w => w.1) hfix
  have f1 := congrArg (fun w => w.2.1) hfix
  have f2 := congrArg (fun w => w.2.2) hfix
  simp only [e0] at f0
  simp only [e1] at f1
  simp only [e2] at f2
  exact ⟨(getElem_of_set_self _ _ _ f0 l0).trans e0.symm,
    (getElem_of_set_self _ _ _ f1 l1).trans e1.symm,
    (getElem_of_set_self _ _ _ f2 l2).trans e2.symm⟩

theorem kokkos_read_arrays_returns (s : KOKKOSStream α) (a b c : List α)
    (r : KOKKOSStream α × List α × List α × List α) (h : s.read_arrays a b c = .ok r) :
    (r.1.array_size = s.array_size ∧ r.1.d_a = s.d_a ∧ r.1.d_b = s.d_b ∧ r.1.d_c = s.d_c) ∧
      (r.2.1.take s.array_size = s.d_a.take s.array_size ∧
        r.2.2.1.take s.array_size = s.d_b.take s.array_size ∧
        r.2.2.2.take s.array_size = s.d_c.take s.array_size) ∧
      ∃ u, r.1.read_arrays r.2.1 r.2.2.1 r.2.2.2 = .ok (u, r.2) ∧ u.arrays = r.1.arrays := by
  unfold KOKKOSStream.read_arrays at h
  obtain ⟨ha, e1, h⟩ := bind_ok_inv _ _ _ h
  obtain ⟨hb, e2, h⟩ := bind_ok_inv _ _ _ h
  obtain ⟨hc, e3, h⟩ := bind_ok_inv _ _ _ h
  obtain ⟨out, hloop, h⟩ := bind_ok_inv _ _ _ h
  cases h
  cases deep_copy_ok_inv _ _ _ e1
  cases deep_copy_ok_inv _ _ _ e2
  cases deep_copy_ok_inv _ _ _ e3
  obtain ⟨hN, hrun⟩ := for_int_ok _ _ _ _ hloop
  obtain ⟨hagain, hel⟩ := kokkos_read_arrays_body_settles _ _ _ _ hrun
  rw [← for_int_of_run_order _ _ _ hN] at hagain
  refine ⟨⟨rfl, rfl, rfl, rfl⟩,
    ⟨take_eq_take_of_getElem _ _ _ (fun j hj => (hel j (List.mem_range.mpr hj)).1),
      take_eq_take_of_getElem _ _ _ (fun j hj => (hel j (List.mem_range.mpr hj)).2.1),
      take_eq_take_of_getElem _ _ _ (fun j hj => (hel j (List.mem_range.mpr hj)).2.2)⟩, ?_⟩
  refine ⟨{ s with
    hm_a := s.d_a, hm_b := s.d_b, hm_c := s.d_c,
    calls := (s.calls ++ [KokkosCall.deep_copy, KokkosCall.deep_copy, KokkosCall.deep_copy]) ++
      [KokkosCall.deep_copy, KokkosCall.deep_copy, KokkosCall.deep_copy] }, ?_, rfl⟩
  unfold KOKKOSStream.read_arrays
  refine bind_ok_of _ _ _ _ (deep_copy_self _) ?_
  refine bind_ok_of _ _ _ _ (deep_copy_self _) ?_
  refine bind_ok_of _ _ _ _ (deep_copy_self _) ?_
  exact bind_ok_of _ _ _ _ hagain rfl

theorem omp_read_arrays_returns (s : OMPStream α) (h_a h_b h_c : List α)
    (r : OMPStream α × List α × List α × List α) (h : s.read_arrays h_a h_b h_c = .ok r) :
    (r.1.array_size = s.array_size ∧ r.1.dev_a = s.dev_a ∧ r.1.dev_b = s.dev_b ∧
        r.1.dev_c = s.dev_c) ∧
      (r.2.1.take s.array_size = s.dev_a.take s.array_size ∧
        r.2.2.1.take s.array_size = s.dev_b.take s.array_size ∧
        r.2.2.2.take s.array_size = s.dev_c.take s.array_size) ∧
      r.1.read_arrays r.2.1 r.2.2.1 r.2.2.2 = .ok r := by
  unfold OMPStream.read_arrays at h
  obtain ⟨a, e1, h⟩ := bind_ok_inv _ _ _ h
  obtain ⟨b, e2, h⟩ := bind_ok_inv _ _ _ h
  obtain ⟨c, e3, h⟩ := bind_ok_inv _ _ _ h
  obtain ⟨out, hloop, h⟩ := bind_ok_inv _ _ _ h
  cases h
  obtain ⟨hN, hrun⟩ := for_int_ok _ _ _ _ hloop
  obtain ⟨hagain, hel⟩ := omp_read_arrays_body_settles _ _ _ _ hrun
  rw [← for_int_of_run_order _ _ _ hN] at hagain
  refine ⟨⟨rfl, rfl, rfl, rfl⟩,
    ⟨(take_eq_take_of_getElem _ _ _ (fun j hj => (hel j (List.mem_range.mpr hj)).1)).trans
        (target_update_from_take _ _ _ _ e1),
      (take_eq_take_of_getElem _ _ _ (fun j hj => (hel j (List.mem_range.mpr hj)).2.1)).trans
        (target_update_from_take _ _ _ _ e2),
      (take_eq_take_of_getElem _ _ _ (fun j hj => (hel j (List.mem_range.mpr hj)).2.2)).trans
        (target_update_from_take _ _ _ _ e3)⟩, ?_⟩
  unfold OMPStream.read_arrays
  refine bind_ok_of _ _ _ _ (target_update_from_again _ _ _ _ e1) ?_
  refine bind_ok_of _ _ _ _ (target_update_from_again _ _ _ _ e2) ?_
  refine bind_ok_of _ _ _ _ (target_update_from_again _ _ _ _ e3) ?_
  exact bind_ok_of _ _ _ _ hagain rfl

end ReturnsMore

/-! ## Every operation returns within the range of `int`, and keeps the sizes -/

section ReturnsAll

variable {α : Type}

theorem for_range_returns {σ : Type} (body : Nat → σ → Run σ) (n : Nat)
    (hb : ∀ i s, i < n → ∃ t, body i s = .ok t) :
    ∀ (k i : Nat) (s : σ), i + k ≤ n → ∃ t, for_range body k i s = .ok t := by
  intro k
  induction k with
  | zero => intro i s _; exact ⟨s, rfl⟩
  | succ k ih =>
    intro i s hi
    obtain ⟨t, ht⟩ := hb i s (by omega)
    simp only [for_range, ht]
    exact ih (i + 1) t (by omega)

theorem kokkos_dot_total [Zero α] [Add α] [Mul α] (s : KOKKOSStream α)
    (ha : s.d_a.length = s.array_size) (hb : s.d_b.length = s.array_size) :
    ∃ r, s.dot = .ok r := by
  obtain ⟨v, hv⟩ := for_range_returns
    (KOKKOSStream.dot_body
      { s with calls := s.calls ++ [KokkosCall.parallel_reduce s.array_size] })
    s.array_size
    (by
      intro i acc hi
      obtain ⟨va, e0⟩ := getElem_some_of_lt s.d_a i (by omega)
      obtain ⟨vb, e1⟩ := getElem_some_of_lt s.d_b i (by omega)
      exact ⟨acc + va * vb, by
        simp only [KOKKOSStream.dot_body, rd_eq_ok _ _ _ e0, rd_eq_ok _ _ _ e1, bind,
          Except.bind, pure, Except.pure]⟩)
    s.array_size 0 (0 : α) (by omega)
  exact ⟨_, bind_ok_of _ _ _ _ hv rfl⟩

theorem omp_dot_total [Zero α] [Add α] [Mul α] (s : OMPStream α) (hN : s.array_size ≤ INT_MAX)
    (ha : s.dev_a.length = s.array_size) (hb : s.dev_b.length = s.array_size) :
    ∃ r, s.dot = .ok r := by
  obtain ⟨v, hv⟩ := for_range_returns (OMPStream.dot_body s) s.array_size
    (by
      intro i acc hi
      obtain ⟨va, e0⟩ := getElem_some_of_lt s.dev_a i (by omega)
      obtain ⟨vb, e1⟩ := getElem_some_of_lt s.dev_b i (by omega)
      exact ⟨acc + va * vb, by
        simp only [OMPStream.dot_body, rd_eq_ok _ _ _ e0, rd_eq_ok _ _ _ e1, bind,
          Except.bind, pure, Except.pure]⟩)
    s.array_size 0 (0 : α) (by omega)
  rw [← for_int_eq_for_range _ _ hN] at hv
  exact ⟨_, bind_ok_of _ _ _ _ hv rfl⟩

theorem kokkos_kernels_return [Zero α] [Add α] [Mul α] (startScalar x y z : α)
    (s : KOKKOSStream α) (hs : s.WF) :
    (∃ t, s.init_arrays x y z = .ok t) ∧ (∃ t, s.copy = .ok t) ∧
      (∃ t, s.mul startScalar = .ok t) ∧ (∃ t, s.add = .ok t) ∧
      (∃ t, s.triad startScalar = .ok t) ∧ ∃ r, s.dot = .ok r := by
  obtain ⟨h1, h2, h3, _, _, _⟩ := hs
  exact ⟨⟨_, kokkos_init_arrays_run s x y z h1 h2 h3⟩, ⟨_, kokkos_copy_run s h1 h3⟩,
    ⟨_, kokkos_mul_run startScalar s h2 h3⟩, ⟨_, kokkos_add_run s h1 h2 h3⟩,
    ⟨_, kokkos_triad_run startScalar s h1 h2 h3⟩, kokkos_dot_total s h1 h2⟩

theorem omp_kernels_return [Zero α] [Add α] [Mul α] (startScalar x y z : α) (cfg : Build)
    (s : OMPStream α) (hs : s.WF) (hN : s.array_size ≤ INT_MAX) :
    (∃ t, s.init_arrays cfg x y z = .ok t) ∧ (∃ t, s.copy cfg = .ok t) ∧
      (∃ t, s.mul startScalar cfg = .ok t) ∧ (∃ t, s.add cfg = .ok t) ∧
      (∃ t, s.triad startScalar cfg = .ok t) ∧ ∃ r, s.dot = .ok r := by
  obtain ⟨_, _, _, h1, h2, h3⟩ := hs
  exact ⟨⟨_, omp_init_arrays_run cfg s x y z hN h1 h2 h3⟩, ⟨_, omp_copy_run cfg s hN h1 h3⟩,
    ⟨_, omp_mul_run startScalar cfg s hN h2 h3⟩, ⟨_, omp_add_run cfg s hN h1 h2 h3⟩,
    ⟨_, omp_triad_run startScalar cfg s hN h1 h2 h3⟩, omp_dot_total s hN h1 h2⟩

theorem kokkos_call_returns [Zero α] [Add α] [Mul α] (startScalar : α) (s : KOKKOSStream α)
    (op : Op α) (hs : s.WF) (hN : s.array_size ≤ INT_MAX) (hfit : op.fits s.array_size) :
    ∃ t r, s.call startScalar op = .ok (t, r) := by
  cases op with
  | init_arrays x y z =>
    obtain ⟨t, ht⟩ := (kokkos_kernels_return startScalar x y z s hs).1
    exact ⟨t, .done, bind_ok_of _ _ _ _ ht rfl⟩
  | copy =>
    obtain ⟨t, ht⟩ := (kokkos_kernels_return startScalar startScalar startScalar startScalar
      s hs).2.1
    exact ⟨t, .done, bind_ok_of _ _ _ _ ht rfl⟩
  | mul =>
    obtain ⟨t, ht⟩ := (kokkos_kernels_return startScalar startScalar startScalar startScalar
      s hs).2.2.1
    exact ⟨t, .done, bind_ok_of _ _ _ _ ht rfl⟩
  | add =>
    obtain ⟨t, ht⟩ := (kokkos_kernels_return startScalar startScalar startScalar startScalar
      s hs).2.2.2.1
    exact ⟨t, .done, bind_ok_of _ _ _ _ ht rfl⟩
  | triad =>
    obtain ⟨t, ht⟩ := (kokkos_kernels_return startScalar startScalar startScalar startScalar
      s hs).2.2.2.2.1
    exact ⟨t, .done, bind_ok_of _ _ _ _ ht rfl⟩
  | dot =>
    obtain ⟨r, hr⟩ := (kokkos_kernels_return startScalar startScalar startScalar startScalar
      s hs).2.2.2.2.2
    exact ⟨r.2, .sum r.1, bind_ok_of _ _ _ _ hr rfl⟩
  | read_arrays a b c =>
    obtain ⟨ha, hb, hc⟩ := hfit
    exact ⟨_, _, bind_ok_of _ _ _ _ (kokkos_read_arrays_run s a b c hs hN ha hb hc) rfl⟩

theorem omp_call_returns [Zero α] [Add α] [Mul α] (startScalar : α) (cfg : Build)
    (s : OMPStream α) (op : Op α) (hs : s.WF) (hN : s.array_size ≤ INT_MAX)
    (hfit : op.fits s.array_size) :
    ∃ t r, s.call startScalar cfg op = .ok (t, r) := by
  cases op with
  | init_arrays x y z =>
    obtain ⟨t, ht⟩ := (omp_kernels_return startScalar x y z cfg s hs hN).1
    exact ⟨t, .done, bind_ok_of _ _ _ _ ht rfl⟩
  | copy =>
    obtain ⟨t, ht⟩ := (omp_kernels_return startScalar startScalar startScalar startScalar
      cfg s hs hN).2.1
    exact ⟨t, .done, bind_ok_of _ _ _ _ ht rfl⟩
  | mul =>
    obtain ⟨t, ht⟩ := (omp_kernels_return startScalar startScalar startScalar startScalar
      cfg s hs hN).2.2.1
    exact ⟨t, .done, bind_ok_of _ _ _ _ ht rfl⟩
  | add =>
    obtain ⟨t, ht⟩ := (omp_kernels_return startScalar startScalar startScalar startScalar
      cfg s hs hN).2.2.2.1
    exact ⟨t, .done, bind_ok_of _ _ _ _ ht rfl⟩
  | triad =>
    obtain ⟨t, ht⟩ := (omp_kernels_return startScalar startScalar startScalar startScalar
      cfg s hs hN).2.2.2.2.1
    exact ⟨t, .done, bind_ok_of _ _ _ _ ht rfl⟩
  | dot =>
    obtain ⟨r, hr⟩ := (omp_kernels_return startScalar startScalar startScalar startScalar
      cfg s hs hN).2.2.2.2.2
    exact ⟨r.2, .sum r.1, bind_ok_of _ _ _ _ hr rfl⟩
  | read_arrays a b c =>
    obtain ⟨ha, hb, hc⟩ := hfit
    exact ⟨_, _, bind_ok_of _ _ _ _ (omp_read_arrays_run s a b c hs hN ha hb hc) rfl⟩

theorem kokkos_call_keeps_sizes [Zero α] [Add α] [Mul α] (startScalar : α)
    (s t : KOKKOSStream α) (op : Op α) (r : Reply α)
    (h : s.call startScalar op = .ok (t, r)) :
    t.array_size = s.array_size ∧ t.d_a.length = s.d_a.length ∧
      t.d_b.length = s.d_b.length ∧ t.d_c.length = s.d_c.length := by
  cases op with
  | init_arrays x y z =>
    obtain ⟨u, hu, e⟩ := bind_ok_inv _ _ _ h
    cases e
    exact (kokkos_init_arrays_returns x y z s t hu).1
  | copy =>
    obtain ⟨u, hu, e⟩ := bind_ok_inv _ _ _ h
    cases e
    obtain ⟨k0, k1, k2, k3⟩ := (kokkos_copy_returns s t hu).1
    exact ⟨k0, congrArg List.length k1, congrArg List.length k2, k3⟩
  | mul =>
    obtain ⟨u, hu, e⟩ := bind_ok_inv _ _ _ h
    cases e
    obtain ⟨k0, k1, k2, k3⟩ := (kokkos_mul_returns startScalar s t hu).1
    exact ⟨k0, congrArg List.length k1, k2, congrArg List.length k3⟩
  | add =>
    obtain ⟨u, hu, e⟩ := bind_ok_inv _ _ _ h
    cases e
    obtain ⟨k0, k1, k2, k3⟩ := (kokkos_add_returns s t hu).1
    exact ⟨k0, congrArg List.length k1, congrArg List.length k2, k3⟩
  | triad =>
    obtain ⟨u, hu, e⟩ := bind_ok_inv _ _ _ h
    cases e
    obtain ⟨k0, k1, k2, k3⟩ := (kokkos_triad_returns startScalar s t hu).1
    exact ⟨k0, k1, congrArg List.length k2, congrArg List.length k3⟩
  | dot =>
    obtain ⟨u, hu, e⟩ := bind_ok_inv _ _ _ h
    cases e
    obtain ⟨k0, k1, k2, k3⟩ := kokkos_dot_returns s u hu
    exact ⟨k0, congrArg List.length k1, congrArg List.length k2, congrArg List.length k3⟩
  | read_arrays a b c =>
    obtain ⟨u, hu, e⟩ := bind_ok_inv _ _ _ h
    cases e
    obtain ⟨k0, k1, k2, k3⟩ := (kokkos_read_arrays_returns s a b c u hu).1
    exact ⟨k0, congrArg List.length k1, congrArg List.length k2, congrArg List.length k3⟩

theorem omp_call_keeps_sizes [Zero α] [Add α] [Mul α] (startScalar : α) (cfg : Build)
    (s t : OMPStream α) (op : Op α) (r : Reply α)
    (h : s.call startScalar cfg op = .ok (t, r)) :
    t.array_size = s.array_size ∧ t.dev_a.length = s.dev_a.length ∧
      t.dev_b.length = s.dev_b.length ∧ t.dev_c.length = s.dev_c.length := by
  cases op with
  | init_arrays x y z =>
    obtain ⟨u, hu, e⟩ := bind_ok_inv _ _ _ h
    cases e
    exact (omp_init_arrays_returns x y z cfg s t hu).1
  | copy =>
    obtain ⟨u, hu, e⟩ := bind_ok_inv _ _ _ h
    cases e
    obtain ⟨k0, k1, k2, k3⟩ := (omp_copy_returns cfg s t hu).1
    exact ⟨k0, congrArg List.length k1, congrArg List.length k2, k3⟩
  | mul =>
    obtain ⟨u, hu, e⟩ := bind_ok_inv _ _ _ h
    cases e
    obtain ⟨k0, k1, k2, k3⟩ := (omp_mul_returns startScalar cfg s t hu).1
    exact ⟨k0, congrArg List.length k1, k2, congrArg List.length k3⟩
  | add =>
    obtain ⟨u, hu, e⟩ := bind_ok_inv _ _ _ h
    cases e
    obtain ⟨k0, k1, k2, k3⟩ := (omp_add_returns cfg s t hu).1
    exact ⟨k0, congrArg List.length k1, congrArg List.length k2, k3⟩
  | triad =>
    obtain ⟨u, hu, e⟩ := bind_ok_inv _ _ _ h
    cases e
    obtain ⟨k0, k1, k2, k3⟩ := (omp_triad_returns startScalar cfg s t hu).1
    exact ⟨k0, k1, congrArg List.length k2, congrArg List.length k3⟩
  | dot =>
    obtain ⟨u, hu, e⟩ := bind_ok_inv _ _ _ h
    cases e
    rw [omp_dot_returns s u hu]
    exact ⟨rfl, rfl, rfl, rfl⟩
  | read_arrays a b c =>
    obtain ⟨u, hu, e⟩ := bind_ok_inv _ _ _ h
    cases e
    obtain ⟨k0, k1, k2, k3⟩ := (omp_read_arrays_returns s a b c u hu).1
    exact ⟨k0, congrArg List.length k1, congrArg List.length k2, congrArg List.length k3⟩

end ReturnsAll

/-! ## The claims C8, C9, C11 and C16: what an operation that returns leaves behind -/

section ClaimsKept

/-- C8: in both backends and for every state, a compute kernel that returns has left its
non-target arrays as they were, element for element: `copy` and `add` leave A and B,
`mul` leaves A and C, `triad` leaves B and C, and `dot` leaves A, B and C. Each of
the kernels does return on a Kokkos backend whose arrays have `array_size` elements,
and on such an OpenMP backend of at most `INT_MAX` elements. -/
theorem C8_kernels_leave_other_arrays (α : Type) [Zero α] [Add α] [Mul α] (startScalar : α)
    (cfg : Build) (k : KOKKOSStream α) (o : OMPStream α) :
    ((∀ t, k.copy = .ok t → t.d_a = k.d_a ∧ t.d_b = k.d_b) ∧
      (∀ t, k.mul startScalar = .ok t → t.d_a = k.d_a ∧ t.d_c = k.d_c) ∧
      (∀ t, k.add = .ok t → t.d_a = k.d_a ∧ t.d_b = k.d_b) ∧
      (∀ t, k.triad startScalar = .ok t → t.d_b = k.d_b ∧ t.d_c = k.d_c) ∧
      (∀ r, k.dot = .ok r → r.2.d_a = k.d_a ∧ r.2.d_b = k.d_b ∧ r.2.d_c = k.d_c)) ∧
    ((∀ t, o.copy cfg = .ok t → t.dev_a = o.dev_a ∧ t.dev_b = o.dev_b) ∧
      (∀ t, o.mul startScalar cfg = .ok t → t.dev_a = o.dev_a ∧ t.dev_c = o.dev_c) ∧
      (∀ t, o.add cfg = .ok t → t.dev_a = o.dev_a ∧ t.dev_b = o.dev_b) ∧
      (∀ t, o.triad startScalar cfg = .ok t → t.dev_b = o.dev_b ∧ t.dev_c = o.dev_c) ∧
      (∀ r, o.dot = .ok r → r.2.dev_a = o.dev_a ∧ r.2.dev_b = o.dev_b ∧
        r.2.dev_c = o.dev_c)) ∧
    (k.WF →
      (∃ t, k.copy = .ok t) ∧ (∃ t, k.mul startScalar = .ok t) ∧ (∃ t, k.add = .ok t) ∧
      (∃ t, k.triad startScalar = .ok t) ∧ ∃ r, k.dot = .ok r) ∧
    (o.WF → o.array_size ≤ INT_MAX →
      (∃ t, o.copy cfg = .ok t) ∧ (∃ t, o.mul startScalar cfg = .ok t) ∧
      (∃ t, o.add cfg = .ok t) ∧ (∃ t, o.triad startScalar cfg = .ok t) ∧
      ∃ r, o.dot = .ok r) :=
  ⟨⟨fun t h => ⟨(kokkos_copy_returns k t h).1.2.1, (kokkos_copy_returns k t h).1.2.2.1⟩,
      fun t h => ⟨(kokkos_mul_returns startScalar k t h).1.2.1,
        (kokkos_mul_returns startScalar k t h).1.2.2.2⟩,
      fun t h => ⟨(kokkos_add_returns k t h).1.2.1, (kokkos_add_returns k t h).1.2.2.1⟩,
      fun t h => ⟨(kokkos_triad_returns startScalar k t h).1.2.2.1,
        (kokkos_triad_returns startScalar k t h).1.2.2.2⟩,
      fun r h => (kokkos_dot_returns k r h).2⟩,
    ⟨fun t h => ⟨(omp_copy_returns cfg o t h).1.2.1, (omp_copy_returns cfg o t h).1.2.2.1⟩,
      fun t h => ⟨(omp_mul_returns startScalar cfg o t h).1.2.1,
        (omp_mul_returns startScalar cfg o t h).1.2.2.2⟩,
      fun t h => ⟨(omp_add_returns cfg o t h).1.2.1, (omp_add_returns cfg o t h).1.2.2.1⟩,
      fun t h => ⟨(omp_triad_returns startScalar cfg o t h).1.2.2.1,
        (omp_triad_returns startScalar cfg o t h).1.2.2.2⟩,
      fun r h => by rw [omp_dot_returns o r h]; exact ⟨rfl, rfl, rfl⟩⟩,
    fun hk => (kokkos_kernels_return startScalar startScalar startScalar startScalar k hk).2,
    fun ho hN =>
      (omp_kernels_return startScalar startScalar startScalar startScalar cfg o ho hN).2⟩

/-- C8 at two backends of three elements, with the scalar 5: each kernel returns, and
the arrays it is not to write hold what they held. -/
theorem C8_kernels_leave_other_arrays_witness :
    smallKokkos.WF ∧ smallOMP.WF ∧ smallOMP.array_size ≤ INT_MAX ∧
    ((∃ t, smallKokkos.copy = .ok t ∧ t.d_a = [1, 2, 3] ∧ t.d_b = [4, 5, 6]) ∧
      (∃ t, smallKokkos.mul 5 = .ok t ∧ t.d_a = [1, 2, 3] ∧ t.d_c = [7, 8, 9]) ∧
      (∃ t, smallKokkos.add = .ok t ∧ t.d_a = [1, 2, 3] ∧ t.d_b = [4, 5, 6]) ∧
      (∃ t, smallKokkos.triad 5 = .ok t ∧ t.d_b = [4, 5, 6] ∧ t.d_c = [7, 8, 9]) ∧
      (∃ r, smallKokkos.dot = .ok r ∧ r.2.d_a = [1, 2, 3] ∧ r.2.d_b = [4, 5, 6] ∧
        r.2.d_c = [7, 8, 9])) ∧
    ((∃ t, smallOMP.copy hostBuild = .ok t ∧ t.dev_a = [1, 2, 3] ∧ t.dev_b = [4, 5, 6]) ∧
      (∃ t, smallOMP.mul 5 hostBuild = .ok t ∧ t.dev_a = [1, 2, 3] ∧ t.dev_c = [7, 8, 9]) ∧
      (∃ t, smallOMP.add hostBuild = .ok t ∧ t.dev_a = [1, 2, 3] ∧ t.dev_b = [4, 5, 6]) ∧
      (∃ t, smallOMP.triad 5 hostBuild = .ok t ∧ t.dev_b = [4, 5, 6] ∧
        t.dev_c = [7, 8, 9]) ∧
      (∃ r, smallOMP.dot = .ok r ∧ r.2.dev_a = [1, 2, 3] ∧ r.2.dev_b = [4, 5, 6] ∧
        r.2.dev_c = [7, 8, 9])) := by
  obtain ⟨⟨k1, k2, k3, k4, k5⟩, ⟨o1, o2, o3, o4, o5⟩, hk, ho⟩ :=
    C8_kernels_leave_other_arrays ℤ 5 hostBuild smallKokkos smallOMP
  have wk : smallKokkos.WF := ⟨rfl, rfl, rfl, rfl, rfl, rfl⟩
  have wo : smallOMP.WF := ⟨rfl, rfl, rfl, rfl, rfl, rfl⟩
  have wn : smallOMP.array_size ≤ INT_MAX := by decide
  obtain ⟨⟨a1, b1⟩, ⟨a2, b2⟩, ⟨a3, b3⟩, ⟨a4, b4⟩, ⟨a5, b5⟩⟩ := hk wk
  obtain ⟨⟨c1, d1⟩, ⟨c2, d2⟩, ⟨c3, d3⟩, ⟨c4, d4⟩, ⟨c5, d5⟩⟩ := ho wo wn
  exact ⟨wk, wo, wn,
    ⟨⟨a1, b1, k1 a1 b1⟩, ⟨a2, b2, k2 a2 b2⟩, ⟨a3, b3, k3 a3 b3⟩, ⟨a4, b4, k4 a4 b4⟩,
      ⟨a5, b5, k5 a5 b5⟩⟩,
    ⟨⟨c1, d1, o1 c1 d1⟩, ⟨c2, d2, o2 c2 d2⟩, ⟨c3, d3, o3 c3 d3⟩, ⟨c4, d4, o4 c4 d4⟩,
      ⟨c5, d5, o5 c5 d5⟩⟩⟩

/-- C9: in both backends, for every state and every three vectors of the caller, a
`read_arrays` that returns has left the arrays A, B, C of the backend as they were. A
second `read_arrays` right after it on the same three vectors returns, and hands
back exactly what the first handed back. On any other three vectors a second
`read_arrays` that returns has again left A, B, C as they were, and its results agree
with those of the first on the `array_size` elements that `read_arrays` fills. On a
backend whose arrays have `array_size` elements, at most `INT_MAX`, and with vectors
of `array_size` elements, `read_arrays` does return. -/
theorem C9_read_arrays_keeps_and_repeats (α : Type) (k : KOKKOSStream α) (o : OMPStream α)
    (a b c : List α) :
    (∀ r, k.read_arrays a b c = .ok r →
      r.1.arrays = k.arrays ∧
      (∃ u, r.1.read_arrays r.2.1 r.2.2.1 r.2.2.2 = .ok (u, r.2) ∧ u.arrays = k.arrays) ∧
      ∀ a2 b2 c2 r2, r.1.read_arrays a2 b2 c2 = .ok r2 →
        r2.1.arrays = k.arrays ∧
        r2.2.1.take k.array_size = r.2.1.take k.array_size ∧
        r2.2.2.1.take k.array_size = r.2.2.1.take k.array_size ∧
        r2.2.2.2.take k.array_size = r.2.2.2.take k.array_size) ∧
    (∀ r, o.read_arrays a b c = .ok r →
      r.1.arrays = o.arrays ∧
      (∃ u, r.1.read_arrays r.2.1 r.2.2.1 r.2.2.2 = .ok (u, r.2) ∧ u.arrays = o.arrays) ∧
      ∀ a2 b2 c2 r2, r.1.read_arrays a2 b2 c2 = .ok r2 →
        r2.1.arrays = o.arrays ∧
        r2.2.1.take o.array_size = r.2.1.take o.array_size ∧
        r2.2.2.1.take o.array_size = r.2.2.1.take o.array_size ∧
        r2.2.2.2.take o.array_size = r.2.2.2.take o.array_size) ∧
    (k.WF → k.array_size ≤ INT_MAX → a.length = k.array_size → b.length = k.array_size →
      c.length = k.array_size → ∃ r, k.read_arrays a b c = .ok r) ∧
    (o.WF → o.array_size ≤ INT_MAX → a.length = o.array_size → b.length = o.array_size →
      c.length = o.array_size → ∃ r, o.read_arrays a b c = .ok r) := by
  refine ⟨?_, ?_, fun hk hN ha hb hc => ⟨_, kokkos_read_arrays_run k a b c hk hN ha hb hc⟩,
    fun ho hN ha hb hc => ⟨_, omp_read_arrays_run o a b c ho hN ha hb hc⟩⟩
  · intro r h
    obtain ⟨⟨n1, a1, b1, c1⟩, ⟨ta, tb, tc⟩, u, hu, eu⟩ := kokkos_read_arrays_returns k a b c r h
    have hr : r.1.arrays = k.arrays := by
      simp only [KOKKOSStream.arrays, a1, b1, c1]
    refine ⟨hr, ⟨u, hu, eu.trans hr⟩, ?_⟩
    intro a2 b2 c2 r2 h2
    obtain ⟨⟨_, a3, b3, c3⟩, ⟨ua, ub, uc⟩, _⟩ := kokkos_read_arrays_returns r.1 a2 b2 c2 r2 h2
    rw [n1, a1] at ua
    rw [n1, b1] at ub
    rw [n1, c1] at uc
    exact ⟨by simp only [KOKKOSStream.arrays, a3, b3, c3, a1, b1, c1],
      ua.trans ta.symm, ub.trans tb.symm, uc.trans tc.symm⟩
  · intro r h
    obtain ⟨⟨n1, a1, b1, c1⟩, ⟨ta, tb, tc⟩, hu⟩ := omp_read_arrays_returns o a b c r h
    have hr : r.1.arrays = o.arrays := by
      simp only [OMPStream.arrays, a1, b1, c1]
    refine ⟨hr, ⟨r.1, hu, hr⟩, ?_⟩
    intro a2 b2 c2 r2 h2
    obtain ⟨⟨_, a3, b3, c3⟩, ⟨ua, ub, uc⟩, _⟩ := omp_read_arrays_returns r.1 a2 b2 c2 r2 h2
    rw [n1, a1] at ua
    rw [n1, b1] at ub
    rw [n1, c1] at uc
    exact ⟨by simp only [OMPStream.arrays, a3, b3, c3, a1, b1, c1],
      ua.trans ta.symm, ub.trans tb.symm, uc.trans tc.symm⟩

/-- C9 at two backends of three elements: `read_arrays` on three vectors of zeros
returns, the arrays of the backend are as before, and a second call on the same
vectors hands back the same. -/
theorem C9_read_arrays_keeps_and_repeats_witness :
    smallKokkos.WF ∧ smallOMP.WF ∧ smallKokkos.array_size ≤ INT_MAX ∧
    smallOMP.array_size ≤ INT_MAX ∧
    (∃ r, smallKokkos.read_arrays [0, 0, 0] [0, 0, 0] [0, 0, 0] = .ok r ∧
      r.1.arrays = smallKokkos.arrays ∧
      ∃ u, r.1.read_arrays r.2.1 r.2.2.1 r.2.2.2 = .ok (u, r.2) ∧
        u.arrays = smallKokkos.arrays) ∧
    (∃ r, smallOMP.read_arrays [0, 0, 0] [0, 0, 0] [0, 0, 0] = .ok r ∧
      r.1.arrays = smallOMP.arrays ∧
      ∃ u, r.1.read_arrays r.2.1 r.2.2.1 r.2.2.2 = .ok (u, r.2) ∧
        u.arrays = smallOMP.arrays) := by
  obtain ⟨hk, ho, tk, tm⟩ :=
    C9_read_arrays_keeps_and_repeats ℤ smallKokkos smallOMP [0, 0, 0] [0, 0, 0] [0, 0, 0]
  have wk : smallKokkos.WF := ⟨rfl, rfl, rfl, rfl, rfl, rfl⟩
  have wo : smallOMP.WF := ⟨rfl, rfl, rfl, rfl, rfl, rfl⟩
  have nk : smallKokkos.array_size ≤ INT_MAX := by decide
  have no : smallOMP.array_size ≤ INT_MAX := by decide
  obtain ⟨r, hr⟩ := tk wk nk rfl rfl rfl
  obtain ⟨q, hq⟩ := tm wo no rfl rfl rfl
  exact ⟨wk, wo, nk, no, ⟨r, hr, (hk r hr).1, (hk r hr).2.1⟩,
    ⟨q, hq, (ho q hq).1, (ho q hq).2.1⟩⟩

/-- C11: in both backends the constructor, for every array size N, builds a backend
whose `array_size` is N and whose arrays A, B, C have N elements each; and for every
state, whichever of `init_arrays`, `copy`, `mul`, `add`, `triad`, `dot` and
`read_arrays` is called, if the call returns, `array_size` and the lengths of A, B, C
are what they were before it. On a backend whose arrays have `array_size` elements,
at most `INT_MAX`, every one of these calls does return (the vectors given to
`read_arrays` having `array_size` elements). -/
theorem C11_sizes_are_kept (α : Type) [Zero α] [Add α] [Mul α] (startScalar : α)
    (cfg : Build) (N : Nat) (device : Int) (junk : Nat → Nat → α)
    (k : KOKKOSStream α) (o : OMPStream α) (op : Op α) :
    (∃ s, KOKKOSStream.new N device junk = .ok s ∧ s.array_size = N ∧
      s.d_a.length = N ∧ s.d_b.length = N ∧ s.d_c.length = N) ∧
    (∃ s, OMPStream.new N device junk = .ok s ∧ s.array_size = N ∧
      s.dev_a.length = N ∧ s.dev_b.length = N ∧ s.dev_c.length = N) ∧
    (∀ t r, k.call startScalar op = .ok (t, r) →
      t.array_size = k.array_size ∧ t.d_a.length = k.d_a.length ∧
      t.d_b.length = k.d_b.length ∧ t.d_c.length = k.d_c.length) ∧
    (∀ t r, o.call startScalar cfg op = .ok (t, r) →
      t.array_size = o.array_size ∧ t.dev_a.length = o.dev_a.length ∧
      t.dev_b.length = o.dev_b.length ∧ t.dev_c.length = o.dev_c.length) ∧
    (k.WF → k.array_size ≤ INT_MAX → op.fits k.array_size →
      ∃ t r, k.call startScalar op = .ok (t, r)) ∧
    (o.WF → o.array_size ≤ INT_MAX → op.fits o.array_size →
      ∃ t r, o.call startScalar cfg op = .ok (t, r)) := by
  obtain ⟨s1, e1, ⟨w1, w2, w3, _, _, _⟩, n1⟩ := kokkos_new_wf N device junk
  obtain ⟨s2, e2, ⟨_, _, _, v1, v2, v3⟩, n2⟩ := omp_new_wf N device junk
  exact ⟨⟨s1, e1, n1, w1.trans n1, w2.trans n1, w3.trans n1⟩,
    ⟨s2, e2, n2, v1.trans n2, v2.trans n2, v3.trans n2⟩,
    fun t r h => kokkos_call_keeps_sizes startScalar k t op r h,
    fun t r h => omp_call_keeps_sizes startScalar cfg o t op r h,
    fun hk hN hf => kokkos_call_returns startScalar k op hk hN hf,
    fun ho hN hf => omp_call_returns startScalar cfg o op ho hN hf⟩

/-- C11 at two backends of three elements and the call `triad` with the scalar 5: the
call returns and the sizes are as before. -/
theorem C11_sizes_are_kept_witness :
    smallKokkos.WF ∧ smallOMP.WF ∧ smallKokkos.array_size ≤ INT_MAX ∧
    smallOMP.array_size ≤ INT_MAX ∧
    (∃ t r, smallKokkos.call 5 Op.triad = .ok (t, r) ∧ t.array_size = 3 ∧
      t.d_a.length = 3 ∧ t.d_b.length = 3 ∧ t.d_c.length = 3) ∧
    (∃ t r, smallOMP.call 5 hostBuild Op.triad = .ok (t, r) ∧ t.array_size = 3 ∧
      t.dev_a.length = 3 ∧ t.dev_b.length = 3 ∧ t.dev_c.length = 3) := by
  obtain ⟨_, _, hk, ho, tk, tm⟩ :=
    C11_sizes_are_kept ℤ 5 hostBuild 3 0 zeroJunk smallKokkos smallOMP Op.triad
  have wk : smallKokkos.WF := ⟨rfl, rfl, rfl, rfl, rfl, rfl⟩
  have wo : smallOMP.WF := ⟨rfl, rfl, rfl, rfl, rfl, rfl⟩
  have nk : smallKokkos.array_size ≤ INT_MAX := by decide
  have no : smallOMP.array_size ≤ INT_MAX := by decide
  obtain ⟨t, r, h⟩ := tk wk nk trivial
  obtain ⟨u, q, g⟩ := tm wo no trivial
  exact ⟨wk, wo, nk, no, ⟨t, r, h, hk t r h⟩, ⟨u, q, g, ho u q g⟩⟩

end ClaimsKept

end BabelStream
